import Mathlib

/-!
# Stranger Segs: racing game firmware

Shallow embedding of the seven-segment racing game
(`firmware/racing-game.X/src`) and proofs about it.

Conventions of the embedding:
* machine integers are natural numbers; every place where the C++ code can
  wrap carries an explicit `% 256` (uint8_t) or `% 65536` (uint16_t);
* the static objects of a translation unit become a structure that is passed
  in and returned;
* `pgm_read_byte` on the program table is a list lookup, a read outside the
  table has no defined value and is reported as such;
* the `do ... while` loop of `vm::tick_event` is bounded by an explicit
  iteration budget.
-/

namespace StrangerSegs

/-! ## display.hpp / display.cpp -/

namespace display

namespace segment
abbrev a : Nat := 0x01
abbrev b : Nat := 0x02
abbrev c : Nat := 0x04
abbrev d : Nat := 0x08
abbrev e : Nat := 0x10
abbrev f : Nat := 0x20
abbrev g : Nat := 0x40
abbrev dp : Nat := 0x80
end segment

namespace maps
open segment

def digits : List Nat := [
  a|||b|||c|||d|||e|||f,      -- 0
  b|||c,                      -- 1
  a|||b|||d|||e|||g,          -- 2
  a|||b|||c|||d|||g,          -- 3
  b|||c|||f|||g,              -- 4
  a|||c|||d|||f|||g,          -- 5
  a|||c|||d|||e|||f|||g,      -- 6
  a|||b|||c,                  -- 7
  a|||b|||c|||d|||e|||f|||g,  -- 8
  a|||b|||c|||d|||f|||g       -- 9
]

def lower : List Nat := [
  a|||b|||c|||e|||f|||g,  -- A
  c|||d|||e|||f|||g,      -- b
  d|||e|||g,              -- c
  b|||c|||d|||e|||g,      -- d
  a|||d|||e|||f|||g,      -- E
  a|||e|||f|||g,          -- F
  a|||c|||d|||e|||f,      -- G
  c|||e|||f|||g,          -- h
  e,                      -- i
  b|||c|||d|||e,          -- J
  0,                      -- k
  d|||e|||f,              -- L
  a|||b|||c|||e|||f,      -- M
  c|||e|||g,              -- n
  c|||d|||e|||g,          -- o
  a|||b|||e|||f|||g,      -- P
  a|||b|||c|||f|||g,      -- q
  e|||g,                  -- r
  a|||c|||d|||f|||g,      -- S
  d|||e|||f|||g,          -- t
  c|||d|||e,              -- u
  0,                      -- v
  0,                      -- w
  0,                      -- x
  b|||c|||d|||f|||g,      -- y
  0                       -- z
]

def upper : List Nat := [
  a|||b|||c|||e|||f|||g,  -- A
  c|||d|||e|||f|||g,      -- b
  a|||d|||e|||f,          -- C
  b|||c|||d|||e|||g,      -- d
  a|||d|||e|||f|||g,      -- E
  a|||e|||f|||g,          -- F
  a|||c|||d|||e|||f,      -- G
  b|||c|||e|||f|||g,      -- H
  e|||f,                  -- I
  b|||c|||d|||e,          -- J
  0,                      -- k
  d|||e|||f,              -- L
  a|||b|||c|||e|||f,      -- M
  c|||e|||g,              -- n
  a|||b|||c|||d|||e|||f,  -- O
  a|||b|||e|||f|||g,      -- P
  a|||b|||c|||f|||g,      -- q
  e|||g,                  -- r
  a|||c|||d|||f|||g,      -- S
  d|||e|||f|||g,          -- t
  b|||c|||d|||e|||f,      -- U
  0,                      -- v
  0,                      -- w
  0,                      -- x
  b|||c|||d|||f|||g,      -- y
  0                       -- z
]

end maps

/-- The static data of `display.cpp` together with the hardware registers the
driver touches: `tcb_run` is the run state of timer TCB0 (what `TCB0.STATUS`
reads, set by the ENABLE bit of `TCB0.CTRLA`), `porta` and `portb` are the
output latches of the two ports. -/
structure Display where
  inited : Bool
  current_segs : Nat
  mux_count : Nat
  tcb_run : Bool
  porta : Nat
  portb : Nat
deriving DecidableEq, Repr

/-- Embeds `start_timer`: reset the multiplexer cursor and start the timer. -/
def start_timer (d : Display) : Display :=
  { d with mux_count := 0, tcb_run := true }

/-- Embeds `stop_timer`: stop the timer (the pending interrupt flag it also clears
is not part of the model). -/
def stop_timer (d : Display) : Display :=
  { d with tcb_run := false }

/-- Embeds `display::show_segments(uint8_t map)`. -/
def show_segments (map : Nat) (d : Display) : Display :=
  let d := { d with current_segs := map % 256 }
  if d.current_segs ≠ 0 then
    if !d.tcb_run then start_timer d else d
  else
    if d.tcb_run then stop_timer d else d

/-- Embeds `display::char_to_segs(char code)`; the code is taken as a byte. The
if/else-if/switch cascade either returns at once (`.error v`, the case '.')
or falls through to the common tail with the values of `map` and `code` it
leaves behind (`.ok (map, code)`); the cases '-' and '_' assign to `code`. -/
def char_to_segs (code : Nat) : Nat :=
  let has_dp : Bool := (code &&& 0x80) ≠ 0
  let map : Nat := 0 -- all segments off
  -- convert code to 7-bit ASCII
  let code := code &&& 0x7F
  let r : Except Nat (Nat × Nat) :=
    if '0'.toNat ≤ code ∧ code ≤ '9'.toNat then
      .ok (maps.digits.getD (code - '0'.toNat) 0, code)
    else if 'A'.toNat ≤ code ∧ code ≤ 'Z'.toNat then
      .ok (maps.upper.getD (code - 'A'.toNat) 0, code)
    else if 'a'.toNat ≤ code ∧ code ≤ 'z'.toNat then
      .ok (maps.lower.getD (code - 'a'.toNat) 0, code)
    else if code = '-'.toNat then
      .ok (map, segment.g)
    else if code = '_'.toNat then
      .ok (map, segment.d)
    else if code = '.'.toNat then
      .error segment.dp
    else
      .ok (map, code)
  match r with
  | .error v => v
  | .ok (map, _) =>
    -- turn on the decimal point (dp) when the character has the msb set
    if has_dp then map ||| segment.dp else map

/-- Embeds `display::show_char(char code)`. -/
def show_char (code : Nat) (d : Display) : Display :=
  show_segments (char_to_segs code) d

end display

open display (Display)

/-! ## game_vm.cpp -/

inductive vm_result where
  | vm_pause
  | vm_exec
  | vm_stop
deriving DecidableEq, Repr

abbrev op_jump : Nat := 0
abbrev op_a : Nat := 1
abbrev op_b : Nat := 2
abbrev op_c : Nat := 3
abbrev op_d : Nat := 4
abbrev op_e : Nat := 5
abbrev op_f : Nat := 6
abbrev op_g : Nat := 7

/-- Embeds `vm_instruction(on_tick, next_pc)`, a uint8_t. -/
def vm_instruction (on_tick next_pc : Nat) : Nat :=
  ((on_tick <<< 5) ||| next_pc) % 256

/-- Embeds `get_opcode(uint8_t instruction)`. -/
def get_opcode (instruction : Nat) : Nat :=
  instruction >>> 5

/-- Embeds `get_next_pc(uint8_t instruction)`. -/
def get_next_pc (instruction : Nat) : Nat :=
  instruction &&& 0x01F

def vm_program : List Nat := [
  /-  0: -/ vm_instruction op_b     7, -- on steer, goto 7
  /-  1: -/ vm_instruction op_c     0,
  /-  2: -/ vm_instruction op_d     0,
  /-  3: -/ vm_instruction op_e    21, -- on steer, goto 21
  /-  4: -/ vm_instruction op_f     0,
  /-  5: -/ vm_instruction op_a     0,
  /-  6: -/ vm_instruction op_jump  0, -- goto 0
  /-  7: -/ vm_instruction op_g     0,
  /-  8: -/ vm_instruction op_e     0,
  /-  9: -/ vm_instruction op_d     0,
  /- 10: -/ vm_instruction op_c    17, -- on steer, goto 17
  /- 11: -/ vm_instruction op_b     0,
  /- 12: -/ vm_instruction op_a     0,
  /- 13: -/ vm_instruction op_f    25, -- on steer, goto 25
  /- 14: -/ vm_instruction op_e     0,
  /- 15: -/ vm_instruction op_d     0,
  /- 16: -/ vm_instruction op_jump 10, -- goto 10
  /- 17: -/ vm_instruction op_g     0,
  /- 18: -/ vm_instruction op_f     0,
  /- 19: -/ vm_instruction op_a     0,
  /- 20: -/ vm_instruction op_jump  0, -- goto 0
  /- 21: -/ vm_instruction op_g     0,
  /- 22: -/ vm_instruction op_b     0,
  /- 23: -/ vm_instruction op_a     0,
  /- 24: -/ vm_instruction op_jump 13, -- goto 13
  /- 25: -/ vm_instruction op_g     0,
  /- 26: -/ vm_instruction op_jump  1  -- goto 1
]

/-- The static `state` object of `game_vm.cpp`. -/
structure State where
  score : Nat        -- uint16_t
  cars : Nat         -- uint8_t, number of cars before game over
  speed : Nat        -- uint8_t, abstract scale from 0 to 255
  ticks : Nat        -- uint8_t, ticks to wait before executing another instruction
  pc : Nat           -- uint8_t
  instruction : Nat  -- uint8_t
deriving DecidableEq, Repr

/-- The VM state together with the display it drives. -/
structure Machine where
  state : State
  disp : Display
deriving DecidableEq, Repr

/-- How a call into the VM ends. -/
inductive Outcome (α : Type) where
  /-- the call returns to its caller -/
  | ret (x : α)
  /-- the invalid-opcode path: the error glyph is shown and the cpu idles forever -/
  | halted (m : Machine)
  /-- Embeds `pgm_read_byte` was asked for a byte outside `vm_program` -/
  | outside
  /-- the iteration budget given to the model ran out -/
  | timeout
deriving DecidableEq, Repr

/-- Embeds `state.update_ticks()`: the subtraction is done in `int` and stored in a
uint8_t. -/
def State.update_ticks (s : State) : State :=
  if s.speed < 80 then
    { s with ticks := (((25 : Int) - ((s.speed >>> 2 : Nat) : Int)) % 256).toNat } -- 25..5
  else if s.speed < 128 then
    { s with ticks := (((10 : Int) - ((s.speed >>> 4 : Nat) : Int)) % 256).toNat } -- 5..2
  else
    { s with ticks := 2 }

/-- Embeds `state.update_speed()`. -/
def State.update_speed (s : State) : State :=
  if s.speed = 255 then s
  else ({ s with speed := (s.speed + 1) % 256 }).update_ticks

/-- Embeds `state.fetch()`: `none` when `pc` is outside the program table. -/
def State.fetch (s : State) : Option State :=
  match vm_program[s.pc]? with
  | some i => some { s with instruction := i }
  | none => none

/-- Embeds `state.reset(start_speed)`. -/
def State.reset (start_speed : Nat) (s : State) : State :=
  let s := { s with score := 0 }
  let s := { s with cars := 3 }
  let s := { s with speed := start_speed }
  let s := s.update_ticks
  { s with pc := 0 }

/-- Embeds `state.exec()`. -/
def exec (m : Machine) : Outcome (vm_result × Machine) :=
  let op := get_opcode m.state.instruction
  if op = op_jump then
    match ({ m.state with pc := get_next_pc m.state.instruction }).fetch with
    | some s => .ret (.vm_exec, { m with state := s })
    | none => .outside
  else if op = op_a then
    .ret (.vm_pause, { state := { m.state with pc := (m.state.pc + 1) % 256 },
                       disp := display.show_segments display.segment.a m.disp })
  else if op = op_b then
    .ret (.vm_pause, { state := { m.state with pc := (m.state.pc + 1) % 256 },
                       disp := display.show_segments display.segment.b m.disp })
  else if op = op_c then
    .ret (.vm_pause, { state := { m.state with pc := (m.state.pc + 1) % 256 },
                       disp := display.show_segments display.segment.c m.disp })
  else if op = op_d then
    .ret (.vm_pause, { state := { m.state with pc := (m.state.pc + 1) % 256 },
                       disp := display.show_segments display.segment.d m.disp })
  else if op = op_e then
    .ret (.vm_pause, { state := { m.state with pc := (m.state.pc + 1) % 256 },
                       disp := display.show_segments display.segment.e m.disp })
  else if op = op_f then
    .ret (.vm_pause, { state := { m.state with pc := (m.state.pc + 1) % 256 },
                       disp := display.show_segments display.segment.f m.disp })
  else if op = op_g then
    .ret (.vm_pause, { state := { m.state with pc := (m.state.pc + 1) % 256 },
                       disp := display.show_segments display.segment.g m.disp })
  else
    -- invalid opcode: display an 'E' with the dot turned on and wait forever
    .halted { m with disp := display.show_char ('E'.toNat + 128) m.disp }

/-- Embeds `state.steer()`: `none` when the fetch leaves the program table. -/
def State.steer (s : State) : Option (vm_result × State) :=
  let s := { s with pc := get_next_pc s.instruction }
  if s.pc ≠ 0 then
    let s := { s with score := (s.score + 1) % 65536 }
    let s := s.update_speed
    match s.fetch with
    | some s => some (.vm_exec, s)
    | none => none
  else
    let s := if s.cars > 0 then { s with cars := s.cars - 1 } else s
    let s := { s with speed := 0 }
    let s := s.update_ticks
    some (.vm_stop, s)

namespace vm

/-- Embeds `vm::reset(start_speed)`. -/
def reset (start_speed : Nat) (m : Machine) : Machine :=
  { m with state := m.state.reset start_speed }

/-- Embeds `vm::wait_ticks()`. -/
def wait_ticks (m : Machine) : Nat :=
  m.state.ticks

/-- The loop `do { result = state.exec(); } while (result == vm_exec);` with
at most `fuel` iterations. -/
def exec_loop : Nat → Machine → Outcome Machine
  | 0, _ => .timeout
  | fuel + 1, m =>
    match exec m with
    | .ret (.vm_exec, m') => exec_loop fuel m'
    | .ret (_, m') => .ret m'
    | .halted h => .halted h
    | .outside => .outside
    | .timeout => .timeout

/-- Embeds `vm::tick_event()`. -/
def tick_event (fuel : Nat) (m : Machine) : Outcome Machine :=
  match m.state.fetch with
  | some s => exec_loop fuel { m with state := s }
  | none => .outside

/-- Embeds `vm::steer_event()`. -/
def steer_event (fuel : Nat) (m : Machine) : Outcome (Bool × Machine) :=
  match m.state.steer with
  | none => .outside
  | some (.vm_stop, s) => .ret (false, { m with state := s }) -- stop VM
  | some (.vm_exec, s) =>
    match tick_event fuel { m with state := s } with
    | .ret m' => .ret (true, m') -- run VM
    | .halted h => .halted h
    | .outside => .outside
    | .timeout => .timeout
  | some (.vm_pause, s) => .ret (true, { m with state := s })

/-- Embeds `vm::game_over()`. -/
def game_over (m : Machine) : Bool :=
  m.state.cars == 0

/-- Embeds `vm::remaining_cars()`. -/
def remaining_cars (m : Machine) : Nat :=
  m.state.cars

/-- Embeds `vm::score()`. -/
def score (m : Machine) : Nat :=
  m.state.score

/-- Embeds `vm::may_steer_safely()`: the uint8_t is converted to bool. -/
def may_steer_safely (m : Machine) : Bool :=
  get_next_pc m.state.instruction != 0

end vm

/-! ## Call sequences and reachable states -/

/-- A call of the game loop into the VM. -/
inductive Event where
  | tick
  | steer
deriving DecidableEq, Repr

/-- Makes the calls of a sequence one after the other; the result holds the
values returned by the `steer_event` calls, in call order, and the machine
left behind by the last call. -/
def run (fuel : Nat) : List Event → Machine → Outcome (List Bool × Machine)
  | [], m => .ret ([], m)
  | .tick :: es, m =>
    match vm.tick_event fuel m with
    | .ret m' => run fuel es m'
    | .halted h => .halted h
    | .outside => .outside
    | .timeout => .timeout
  | .steer :: es, m =>
    match vm.steer_event fuel m with
    | .ret (b, m') =>
      match run fuel es m' with
      | .ret (bs, m'') => .ret (b :: bs, m'')
      | .halted h => .halted h
      | .outside => .outside
      | .timeout => .timeout
    | .halted h => .halted h
    | .outside => .outside
    | .timeout => .timeout

/-- The static `state` object at power-on: static storage is zero-initialised. -/
def State.zero : State :=
  { score := 0, cars := 0, speed := 0, ticks := 0, pc := 0, instruction := 0 }

/-- The machines the firmware can be in: the VM state starts zero-initialised,
is changed only by `vm::reset`, `vm::tick_event` and `vm::steer_event` (when
they return), and other code may drive the display in between. -/
inductive Reachable : Machine → Prop where
  | boot (d : Display) : Reachable { state := State.zero, disp := d }
  | reset (start_speed : Nat) (m : Machine) :
      start_speed < 256 → Reachable m → Reachable (vm.reset start_speed m)
  | tick (fuel : Nat) (m m' : Machine) :
      Reachable m → vm.tick_event fuel m = .ret m' → Reachable m'
  | steer (fuel : Nat) (m m' : Machine) (b : Bool) :
      Reachable m → vm.steer_event fuel m = .ret (b, m') → Reachable m'
  | display (d : Display) (m : Machine) :
      Reachable m → Reachable { m with disp := d }

/-- Step-tick function in the words of the specification: speed<80 gives
25-(speed/4), 80<=speed<128 gives 10-(speed/16), speed>=128 gives 2. -/
def step_ticks_spec (speed : Nat) : Nat :=
  if speed < 80 then 25 - speed / 4
  else if speed < 128 then 10 - speed / 16
  else 2

/-- Instruction stored at index `i` of `vm_program`; it is only used for
indices inside the table. -/
def program_at (i : Nat) : Nat :=
  vm_program.getD i 0

/-- Index of the instruction on which a `tick_event` entered with program
counter `pc` pauses: the target of the jump stored at `pc`, or `pc` itself
when the instruction there lights a segment. -/
def pause_index (pc : Nat) : Nat :=
  if get_opcode (program_at pc) = op_jump then get_next_pc (program_at pc) else pc

/-- Segment mask that `exec` hands to the display for a light-segment opcode. -/
def opcode_segment (op : Nat) : Nat :=
  if op = op_a then display.segment.a
  else if op = op_b then display.segment.b
  else if op = op_c then display.segment.c
  else if op = op_d then display.segment.d
  else if op = op_e then display.segment.e
  else if op = op_f then display.segment.f
  else if op = op_g then display.segment.g
  else 0

/-- Machine left behind by a `tick_event` that pauses on instruction `i`. -/
def paused_at (i : Nat) (m : Machine) : Machine :=
  { state := { m.state with pc := i + 1, instruction := program_at i },
    disp := display.show_segments (opcode_segment (get_opcode (program_at i))) m.disp }

/-- State left by `state.steer()` on a crash. -/
def crashed (s : State) : State :=
  { s with cars := if s.cars = 0 then 0 else s.cars - 1, speed := 0, ticks := 25, pc := 0 }

/-- State left by `state.steer()` on a successful branch. -/
def branched (s : State) : State :=
  let s1 : State := { s with pc := get_next_pc s.instruction, score := (s.score + 1) % 65536 }
  let s2 : State := s1.update_speed
  { s2 with instruction := program_at (get_next_pc s.instruction) }

/-- Both the program counter and the branch target of the fetched
instruction point into `vm_program`. -/
def Inside (m : Machine) : Prop :=
  m.state.pc < vm_program.length ∧ get_next_pc m.state.instruction < vm_program.length

instance (m : Machine) : Decidable (Inside m) := by
  unfold Inside
  infer_instance

/-- One lap of the inner loop of the track by a player who takes the two
branches on it: steer at instruction 0 (to 7), three ticks, steer at
instruction 10 (to 17), three ticks, the last of which runs the jump at 20
and pauses on instruction 0 again. -/
def lap : List Event :=
  [.steer, .tick, .tick, .tick, .steer, .tick, .tick, .tick]

/-- Sequence of `n` laps. -/
def laps : Nat → List Event
  | 0 => []
  | n + 1 => lap ++ laps n

/-- Machine left by a successful `steer_event` that pauses on instruction `i`. -/
def steered_to (i : Nat) (m : Machine) : Machine :=
  paused_at i { m with state := branched m.state }

/-- Machine left by one lap entered on instruction 0. -/
def after_lap (m : Machine) : Machine :=
  paused_at 0 (paused_at 19 (paused_at 18 (steered_to 17
    (paused_at 10 (paused_at 9 (paused_at 8 (steered_to 7 m)))))))

/-- Power-on machine with a dark, stopped display. -/
def power_on : Machine :=
  { state := State.zero,
    disp := { inited := false, current_segs := 0, mux_count := 0, tcb_run := false,
              porta := 0, portb := 0 } }

/-- Machine after `reset(0)` and the first `tick_event()` from power-on: paused
on instruction 0 (light b, on steer goto 7). -/
def first_pause : Machine :=
  { state := { score := 0, cars := 3, speed := 0, ticks := 25, pc := 1, instruction := 71 },
    disp := { inited := false, current_segs := 2, mux_count := 0, tcb_run := true,
              porta := 0, portb := 0 } }

/-- Machine in mid-game: score 4, two cars left, speed 3, paused on instruction
1 (light c, no branch), with a dark, stopped display. -/
def mid_game : Machine :=
  { state := { score := 4, cars := 2, speed := 3, ticks := 25, pc := 2, instruction := 96 },
    disp := { inited := true, current_segs := 0, mux_count := 5, tcb_run := false,
              porta := 0, portb := 0 } }

/-- Machine of a player who has scored 65535 and drives at full speed, paused
on instruction 10 (light c, on steer goto 17). -/
def full_score : Machine :=
  { state := { score := 65535, cars := 3, speed := 255, ticks := 2, pc := 11,
               instruction := 113 },
    disp := { inited := false, current_segs := 4, mux_count := 0, tcb_run := true,
              porta := 0, portb := 0 } }

/-! ## timer.hpp / timer.cpp -/

namespace timer

abbrev TICKS_PER_SEC : Nat := 50

/-- Overflow interrupt bit of `RTC.INTCTRL`, value of the device header. -/
abbrev RTC_OVF_bm : Nat := 0x01

/-- Periodic interrupt bit of `RTC.PITINTCTRL`, value of the device header. -/
abbrev RTC_PI_bm : Nat := 0x01

/-- The static data of `timer.cpp` together with the two interrupt control
registers its functions write. The interrupt flags the handlers acknowledge
are not part of the model, an executed handler body is one atomic step. -/
structure Timer where
  inited : Bool
  elapsed_ticks : Nat      -- volatile uint8_t
  elapsed_secs : Nat       -- volatile uint16_t
  compare_enabled : Bool
  compare_triggered : Bool -- volatile bool
  compare_ticks : Nat      -- volatile uint8_t
  rtc_intctrl : Nat        -- RTC.INTCTRL
  rtc_pitintctrl : Nat     -- RTC.PITINTCTRL
deriving DecidableEq, Repr

/-- Embeds `ISR(RTC_PIT_vect)`, the 1 Hz handler. -/
def RTC_PIT_vect (s : Timer) : Timer :=
  { s with elapsed_secs := (s.elapsed_secs + 1) % 65536 }

/-- Embeds `ISR(RTC_CNT_vect)`, the tick handler:
`if (++elapsed_ticks == compare_ticks) compare_triggered = true;`. -/
def RTC_CNT_vect (s : Timer) : Timer :=
  let s := { s with elapsed_ticks := (s.elapsed_ticks + 1) % 256 }
  if s.elapsed_ticks = s.compare_ticks then { s with compare_triggered := true } else s

def disable_secs_irq (s : Timer) : Timer :=
  { s with rtc_pitintctrl := 0 }

def enable_secs_irq (s : Timer) : Timer :=
  { s with rtc_pitintctrl := RTC_PI_bm }

def disable_ticks_irq (s : Timer) : Timer :=
  { s with rtc_intctrl := 0 }

def enable_ticks_irq (s : Timer) : Timer :=
  { s with rtc_intctrl := RTC_OVF_bm }

/-- Embeds `timer::reset()`. -/
def reset (s : Timer) : Timer :=
  let s := { s with compare_enabled := false }
  let s := { s with elapsed_ticks := 0 }
  let s := disable_secs_irq s
  let s := { s with elapsed_secs := 0 }
  enable_secs_irq s

/-- Embeds `timer::ticks()`. -/
def ticks (s : Timer) : Nat :=
  s.elapsed_ticks

/-- Embeds `timer::seconds()`: the value read and the timer it leaves. -/
def seconds (s : Timer) : Nat × Timer :=
  let s := disable_secs_irq s
  let secs := s.elapsed_secs
  let s := enable_secs_irq s
  (secs, s)

/-- Embeds `timer::enable(uint8_t ticks)`: the sum is stored in a uint8_t. -/
def enable (ticks : Nat) (s : Timer) : Timer :=
  let s := { s with compare_enabled := true }
  let s := disable_ticks_irq s
  let s := { s with compare_ticks := (ticks + s.elapsed_ticks) % 256 }
  let s := { s with compare_triggered := false }
  enable_ticks_irq s

/-- Embeds `timer::disable()`. -/
def disable (s : Timer) : Timer :=
  { s with compare_enabled := false }

/-- Embeds `timer::elapsed()`. -/
def elapsed (s : Timer) : Bool :=
  s.compare_enabled && s.compare_triggered

/-- Embeds `timer::remaining_ticks()`: the difference is computed in `int` and
returned as a uint8_t. -/
def remaining_ticks (s : Timer) : Nat :=
  if !s.compare_enabled || s.compare_triggered then 0
  else (((s.compare_ticks : Int) - (s.elapsed_ticks : Int)) % 256).toNat

/-- The timer after `k` tick interrupts in a row. -/
def after_ticks : Nat → Timer → Timer
  | 0, s => s
  | k + 1, s => RTC_CNT_vect (after_ticks k s)

/-- Something that happens to the timer: one of its two interrupt handlers
runs, or the main loop calls one of its state-changing functions. -/
inductive TimerEvent where
  | tick_irq
  | sec_irq
  | reset
  | seconds
  | enable (ticks : Nat)
  | disable
deriving DecidableEq, Repr

/-- Whether the event is a call of `timer::enable`. -/
def TimerEvent.is_enable : TimerEvent → Bool
  | .enable _ => true
  | _ => false

def step : TimerEvent → Timer → Timer
  | .tick_irq, s => RTC_CNT_vect s
  | .sec_irq, s => RTC_PIT_vect s
  | .reset, s => reset s
  | .seconds, s => (seconds s).2
  | .enable n, s => enable n s
  | .disable, s => disable s

/-- The timer after a sequence of events. -/
def after_events : List TimerEvent → Timer → Timer
  | [], s => s
  | e :: es, s => after_events es (step e s)

/-- The static data at power-on (zero-initialised) with both interrupt control
registers at their reset value. -/
def power_on : Timer :=
  { inited := false, elapsed_ticks := 0, elapsed_secs := 0, compare_enabled := false,
    compare_triggered := false, compare_ticks := 0, rtc_intctrl := 0, rtc_pitintctrl := 0 }

/-- Number of tick interrupts after which a deadline armed with `enable(n)`
is reached: the tick handler compares after it has incremented, so `n` = 0
names the tick 256 interrupts ahead. -/
def deadline (n : Nat) : Nat :=
  if n = 0 then 256 else n

end timer

open timer (Timer)

/-! ## key.hpp / key.cpp -/

namespace key

/-- The number of ticks whether the key state must be stable to emit a key
change event (an int8_t). -/
abbrev DEBOUNCE_TICKS : Int := 2

/-- The mask of the GPIO pin connected to the key. -/
abbrev PIN_MASK : Nat := 0x08

/-- Input/sense configuration field of `PORTC.PIN3CTRL` and the two settings
the driver uses, values of the device header. -/
abbrev PORT_ISC_gm : Nat := 0x07
abbrev PORT_ISC_RISING_gc : Nat := 0x02
abbrev PORT_ISC_FALLING_gc : Nat := 0x03
abbrev PORT_PULLUPEN_bm : Nat := 0x08
abbrev PORT_INVEN_bm : Nat := 0x80

inductive state_t where
  | released
  | pressed
deriving DecidableEq, Repr

/-- The static data of `key.cpp` together with the port registers it reads and
writes. The pin direction and the interrupt flag register are not part of the
model. -/
structure Key where
  inited : Bool
  pressed : Bool           -- volatile bool
  pressed_changed : Bool   -- volatile bool
  waiting_ticks : Int      -- int8_t
  last_ticks : Nat         -- uint8_t
  portc_in : Nat           -- PORTC.IN
  pin3ctrl : Nat           -- PORTC.PIN3CTRL
deriving DecidableEq, Repr

/-- Conversion of an `int` to int8_t (two's complement wrap). -/
def to_int8 (x : Int) : Int :=
  (x + 128) % 256 - 128

def get_state (k : Key) : Bool :=
  (k.portc_in &&& PIN_MASK) ≠ 0

def enable_irq (k : Key) : Key :=
  if k.pressed then
    -- INVEN = 1 (key -> GND when pressed), PULLUPEN = 1 (enabled), IRQ on falling edge
    { k with pin3ctrl := PORT_INVEN_bm ||| PORT_PULLUPEN_bm ||| PORT_ISC_FALLING_gc }
  else
    -- INVEN = 1 (key -> GND when pressed), PULLUPEN = 1 (enabled), IRQ on rising edge
    { k with pin3ctrl := PORT_INVEN_bm ||| PORT_PULLUPEN_bm ||| PORT_ISC_RISING_gc }

/-- Embeds `ISR(PORTC_PORT_vect)`, the edge handler. -/
def PORTC_PORT_vect (k : Key) : Key :=
  -- the key state depends on the change event configured for this IRQ
  let k := { k with pressed := decide ((k.pin3ctrl &&& PORT_ISC_gm) = PORT_ISC_RISING_gc) }
  -- disable IRQ
  let k := { k with pin3ctrl := k.pin3ctrl &&& (0xFF ^^^ PORT_ISC_gm) }
  { k with pressed_changed := true }

/-- Embeds `key::init()`; `t` is the timer `timer::ticks()` reads. -/
def init (t : Timer) (k : Key) : Key :=
  -- ensure that initialisation is done once
  if k.inited then k
  else
    -- INVEN = 1 (key -> GND when pressed), PULLUPEN = 1 (enabled)
    let k := { k with pin3ctrl := PORT_INVEN_bm ||| PORT_PULLUPEN_bm }
    -- assumes that key state is stable
    let k := { k with pressed := get_state k }
    let k := enable_irq k
    let k := { k with last_ticks := timer.ticks t }
    let k := { k with waiting_ticks := DEBOUNCE_TICKS }
    { k with inited := true }

/-- Embeds `key::changed()`: the value returned and the state it leaves. -/
def changed (k : Key) : Bool × Key :=
  let result := k.pressed_changed
  let k := { k with pressed_changed := false }
  (result, k)

/-- Embeds `key::state()`. -/
def state (k : Key) : state_t :=
  if k.pressed then state_t.pressed else state_t.released

/-- Embeds `key::run()`; `t` is the timer `timer::ticks()` reads. -/
def run (t : Timer) (k : Key) : Key :=
  -- do nothing (but update the tick counter) when any port IRQ is enabled
  if (k.pin3ctrl &&& PORT_ISC_gm) ≠ 0 then
    { k with last_ticks := timer.ticks t }
  else
    -- after a key change is initiated by the key IRQ handler,
    -- wait for the specified number of ticks (the debounce interval)
    let ticks := timer.ticks t
    let elapsed : Nat := (((ticks : Int) - (k.last_ticks : Int)) % 256).toNat
    let k := { k with last_ticks := ticks }
    let k := { k with waiting_ticks := to_int8 (k.waiting_ticks - (elapsed : Int)) }
    if k.waiting_ticks > 0 then k
    else
      -- if enough ticks have elapsed, enable the key change IRQ again
      let k := enable_irq k
      { k with waiting_ticks := DEBOUNCE_TICKS }

/-- Whether the edge interrupt is armed: the sense field of `PIN3CTRL` is not
INTDISABLE (the test `key::run` makes). -/
def irq_armed (k : Key) : Bool :=
  (k.pin3ctrl &&& PORT_ISC_gm) ≠ 0

/-- The static data at power-on (zero-initialised), the pin control register
at its reset value and the key released. -/
def power_on : Key :=
  { inited := false, pressed := false, pressed_changed := false, waiting_ticks := 0,
    last_ticks := 0, portc_in := 0, pin3ctrl := 0 }

end key

open key (Key)

/-! ## Timer and key together: interleavings of handlers and main-loop calls -/

/-- The clock service and the input service of one board. -/
structure Board where
  tmr : Timer
  key : Key
deriving DecidableEq, Repr

/-- Something that happens on the board: the tick handler runs, the line
makes the edge the port is sensing (the edge handler runs if the interrupt is
armed, nothing happens otherwise), or the main loop calls `key::init`,
`key::run`, `key::changed` or `key::state`. -/
inductive KeyEvent where
  | tick_irq
  | edge
  | init
  | run
  | changed
  | state
deriving DecidableEq, Repr

/-- What a main-loop call returned. -/
inductive KeyOut where
  | done
  | changed (result : Bool)
  | state (s : key.state_t)
deriving DecidableEq, Repr

def Board.step : KeyEvent → Board → KeyOut × Board
  | .tick_irq, b => (.done, { b with tmr := timer.RTC_CNT_vect b.tmr })
  | .edge, b =>
    if key.irq_armed b.key then (.done, { b with key := key.PORTC_PORT_vect b.key })
    else (.done, b)
  | .init, b => (.done, { b with key := key.init b.tmr b.key })
  | .run, b => (.done, { b with key := key.run b.tmr b.key })
  | .changed, b => (.changed (key.changed b.key).1, { b with key := (key.changed b.key).2 })
  | .state, b => (.state (key.state b.key), b)

/-- Board after a sequence of events. -/
def Board.after : List KeyEvent → Board → Board
  | [], b => b
  | e :: es, b => Board.after es (Board.step e b).2

/-- Values returned by the main-loop calls of a sequence, in order. -/
def Board.outputs : List KeyEvent → Board → List KeyOut
  | [], _ => []
  | e :: es, b => (Board.step e b).1 :: Board.outputs es (Board.step e b).2

/-- Number of times the edge handler ran during a sequence. -/
def Board.fired : List KeyEvent → Board → Nat
  | [], _ => 0
  | e :: es, b =>
    (if e = .edge ∧ key.irq_armed b.key = true then 1 else 0) + Board.fired es (Board.step e b).2

/-- The edge interrupt is disarmed after every event of the sequence. -/
def Board.stays_disarmed : List KeyEvent → Board → Bool
  | [], _ => true
  | e :: es, b =>
    !key.irq_armed (Board.step e b).2.key && Board.stays_disarmed es (Board.step e b).2

/-- Ticks the counter has advanced since `key::run` (or `key::init`) last
stored it: what `key::run` computes as `elapsed`. -/
def Board.pending (b : Board) : Nat :=
  (((timer.ticks b.tmr : Int) - (b.key.last_ticks : Int)) % 256).toNat

/-- Board at power-on, the tick counter at any value. -/
def Board.boot (t : Timer) : Board :=
  { tmr := t, key := key.power_on }

/-- Board at power-on. -/
def Board.power_on : Board :=
  { tmr := timer.power_on, key := key.power_on }

/-- Board after `key::init()` at power-on with the key released: the edge
interrupt armed for the rising edge. -/
def Board.idle : Board :=
  Board.after [.init] Board.power_on

/-! ## Character classes -/

/-- Whether a character code is an ASCII upper-case letter. -/
def is_upper (code : Nat) : Bool :=
  decide ('A'.toNat ≤ code ∧ code ≤ 'Z'.toNat)

/-- Whether a character code is an ASCII lower-case letter. -/
def is_lower (code : Nat) : Bool :=
  decide ('a'.toNat ≤ code ∧ code ≤ 'z'.toNat)

/-- Whether a character code is an ASCII digit. -/
def is_digit (code : Nat) : Bool :=
  decide ('0'.toNat ≤ code ∧ code ≤ '9'.toNat)

/-- The letters whose table entry is 0: k, v, w, x and z in either case. -/
def blank_letters : List Nat :=
  ['k'.toNat, 'v'.toNat, 'w'.toNat, 'x'.toNat, 'z'.toNat,
   'K'.toNat, 'V'.toNat, 'W'.toNat, 'X'.toNat, 'Z'.toNat]

/-! ## display.cpp: segment lines and the multiplexer -/

namespace display

namespace drive

/-- Embeds `drive::none()`: `PORTA.OUTCLR = 0xC0; PORTB.OUTCLR = 0x3F`. A write
to OUTCLR clears the bits of the 8-bit output latch that are set in the value
written. -/
def none (d : Display) : Display :=
  let d := { d with porta := d.porta &&& (0xFF ^^^ 0xC0) }
  { d with portb := d.portb &&& (0xFF ^^^ 0x3F) }

/-- Embeds `drive::a()`; a write to OUTSET sets the bits of the output latch
that are set in the value written. -/
def a (d : Display) : Display :=
  let d := none d
  { d with portb := d.portb ||| (1 <<< 5) }

def b (d : Display) : Display :=
  let d := none d
  { d with portb := d.portb ||| (1 <<< 4) }

def c (d : Display) : Display :=
  let d := none d
  { d with portb := d.portb ||| (1 <<< 2) }

def dp (d : Display) : Display :=
  let d := none d
  { d with portb := d.portb ||| (1 <<< 3) }

def d (d : Display) : Display :=
  let d := none d
  { d with portb := d.portb ||| (1 <<< 1) }

def e (d : Display) : Display :=
  let d := none d
  { d with portb := d.portb ||| (1 <<< 0) }

def f (d : Display) : Display :=
  let d := none d
  { d with porta := d.porta ||| (1 <<< 7) }

def g (d : Display) : Display :=
  let d := none d
  { d with porta := d.porta ||| (1 <<< 6) }

end drive

/-- Embeds `ISR(TCB0_INT_vect)`, the multiplexer handler. The switch has no
default: a cursor outside 0..7 drives nothing. -/
def TCB0_INT_vect (d : Display) : Display :=
  let d :=
    if d.current_segs &&& (1 <<< d.mux_count) ≠ 0 then
      match d.mux_count with
      | 0 => drive.a d
      | 1 => drive.b d
      | 2 => drive.c d
      | 3 => drive.d d
      | 4 => drive.e d
      | 5 => drive.f d
      | 6 => drive.g d
      | 7 => drive.dp d
      | _ => d
    else
      drive.none d
  { d with mux_count := (d.mux_count + 1) &&& 0x07 }

/-- Embeds `setup_timer`: TCB0 is configured with ENABLE = 0, so it does not
run (period, mode and interrupt enable are not part of the model). -/
def setup_timer (d : Display) : Display :=
  { d with tcb_run := false }

/-- Embeds `display::init()`; `PORTx.OUT &= v` keeps the latch bits set in `v`
(the direction registers are not part of the model). -/
def init (d : Display) : Display :=
  -- ensure that initialisation is done once
  if d.inited then d
  else
    let d := { d with porta := d.porta &&& 0x3F } -- turn segments off
    let d := { d with portb := d.portb &&& 0xC0 } -- turn segments off
    let d := { d with current_segs := 0 }
    let d := setup_timer d
    { d with inited := true }

/-- Embeds `display::off()`. -/
def off (d : Display) : Display :=
  let d := { d with current_segs := 0 }
  let d := if d.tcb_run then stop_timer d else d
  drive.none d

/-- The multiplexer handler run `n` times in a row, nothing else in between. -/
def fire : Nat → Display → Display
  | 0, d => d
  | n + 1, d => fire n (TCB0_INT_vect d)

/-- Whether the output line of a slot is high: slot 0..6 is segment a..g, slot
7 the decimal point, each read at the latch bit its `drive` function sets. -/
def line_high (slot : Nat) (d : Display) : Bool :=
  match slot with
  | 0 => d.portb &&& (1 <<< 5) ≠ 0
  | 1 => d.portb &&& (1 <<< 4) ≠ 0
  | 2 => d.portb &&& (1 <<< 2) ≠ 0
  | 3 => d.portb &&& (1 <<< 1) ≠ 0
  | 4 => d.portb &&& (1 <<< 0) ≠ 0
  | 5 => d.porta &&& (1 <<< 7) ≠ 0
  | 6 => d.porta &&& (1 <<< 6) ≠ 0
  | 7 => d.portb &&& (1 <<< 3) ≠ 0
  | _ => false

/-- All eight segment lines are low: PA6, PA7 and PB0..PB5. -/
def lines_low (d : Display) : Bool :=
  d.porta &&& 0xC0 = 0 ∧ d.portb &&& 0x3F = 0

/-- Whether bit `i` of a mask is set. -/
def bit_set (m i : Nat) : Bool :=
  m.testBit i

/-- The static data at power-on (zero-initialised), the timer stopped and the
output latches at their reset value. -/
def power_on : Display :=
  { inited := false, current_segs := 0, mux_count := 0, tcb_run := false, porta := 0, portb := 0 }

/-- A display whose multiplexer runs with mask `m` and cursor `c`, the ports
holding any values. -/
def multiplexing (m c pa pb : Nat) : Display :=
  { inited := true, current_segs := m, mux_count := c, tcb_run := true, porta := pa, portb := pb }

end display

/-! ## key.cpp: the polarity the edge interrupt senses -/

/-- The sense field of `PIN3CTRL`: which edge the interrupt is armed for
(`PORT_ISC_RISING_gc`, `PORT_ISC_FALLING_gc`), 0 when it is disarmed. -/
def key.sense (k : Key) : Nat :=
  k.pin3ctrl &&& key.PORT_ISC_gm

/-- The polarity `enable_irq` selects for a debounced state: the falling
edge when pressed, the rising edge when released. -/
def key.opposite_edge (pressed : Bool) : Nat :=
  if pressed then key.PORT_ISC_FALLING_gc else key.PORT_ISC_RISING_gc

/-! ## smart-display.X serial.cpp: the receiver of the display relay -/

namespace serial

/-- Bits of the device header the receiver uses: the clock selection and the
enable bit of `TCA0.SINGLE.CTRLA`, the two bits of `CCL.CTRLA`, and the buffer
overflow and frame error flags of `USART0.RXDATAH`. -/
abbrev TCA_SINGLE_CLKSEL_DIV16_gc : Nat := 0x08
abbrev TCA_SINGLE_ENABLE_bm : Nat := 0x01
abbrev CCL_RUNSTDBY_bm : Nat := 0x40
abbrev CCL_ENABLE_bm : Nat := 0x01
abbrev USART_BUFOVF_bm : Nat := 0x40
abbrev USART_FERR_bm : Nat := 0x04

/-- The static data of `serial.cpp` together with the registers the receiver
writes: control and counter of timer TCA0 (the protocol timeout), the
control register of the CCL (the pass-through to the next module) and the
transmit data register of the USART, kept as the list of the bytes written
to it. Period, interrupt flags, port and baud-rate setup are not part of the
model. -/
structure Serial where
  first : Bool       -- volatile bool
  error : Bool       -- volatile bool
  changed : Bool     -- volatile bool
  temp : Nat         -- volatile uint8_t
  rx_code : Nat      -- volatile uint8_t
  tx_code : Nat      -- uint8_t
  tx_map : Nat       -- uint8_t
  tx_index : Nat     -- uint8_t
  inited : Bool
  tca_ctrla : Nat    -- TCA0.SINGLE.CTRLA
  tca_cnt : Nat      -- TCA0.SINGLE.CNT, as last written
  ccl_ctrla : Nat    -- CCL.CTRLA
  txdata : List Nat  -- the bytes written to USART0.TXDATAL, in order
deriving DecidableEq, Repr

def setup_timer (s : Serial) : Serial :=
  -- CLKSEL = 4 (CLK_PER/DIV16), ENABLE = 0 (disabled)
  { s with tca_ctrla := TCA_SINGLE_CLKSEL_DIV16_gc }

def start_timer (s : Serial) : Serial :=
  let s := { s with tca_cnt := 0 }
  { s with tca_ctrla := TCA_SINGLE_CLKSEL_DIV16_gc ||| TCA_SINGLE_ENABLE_bm }

def stop_timer (s : Serial) : Serial :=
  { s with tca_ctrla := TCA_SINGLE_CLKSEL_DIV16_gc }

def reset_timer (s : Serial) : Serial :=
  { s with tca_cnt := 0 }

def setup_ccl (s : Serial) : Serial :=
  { s with ccl_ctrla := CCL_RUNSTDBY_bm }

def start_ccl (s : Serial) : Serial :=
  { s with ccl_ctrla := CCL_RUNSTDBY_bm ||| CCL_ENABLE_bm }

def stop_ccl (s : Serial) : Serial :=
  { s with ccl_ctrla := CCL_RUNSTDBY_bm }

/-- Embeds `ISR(TCA0_OVF_vect)`, the protocol timeout. -/
def TCA0_OVF_vect (s : Serial) : Serial :=
  let s := stop_ccl s
  let s := stop_timer s
  let s := { s with first := true }
  let s := { s with error := false }
  { s with changed := false }

/-- Embeds `ISR(USART0_RXC_vect)`; `rxdatah` and `rxdatal` are what the handler
reads from `USART0.RXDATAH` and `USART0.RXDATAL`. -/
def USART0_RXC_vect (rxdatah rxdatal : Nat) (s : Serial) : Serial :=
  let s := start_ccl s
  let s := reset_timer s
  if s.error then
    { s with temp := rxdatal }  -- empties RX buffer and forces clear status bits
  else if rxdatah &&& (USART_BUFOVF_bm ||| USART_FERR_bm) ≠ 0 then
    let s := { s with temp := rxdatal }  -- empties RX buffer and forces clear status bits
    { s with error := true }
  else if s.first then
    let s := start_timer s
    let s := { s with rx_code := rxdatal }
    let s := { s with changed := true }
    { s with first := false }
  else
    { s with temp := rxdatal }  -- empties RX buffer and forces clear status bits

/-- Embeds `serial::init()`. -/
def init (s : Serial) : Serial :=
  -- ensure that initialisation is done once
  if s.inited then s
  else
    let s := { s with first := true }
    let s := { s with error := false }
    let s := { s with changed := false }
    let s := setup_timer s
    let s := setup_ccl s
    { s with inited := true }

def has_errors (s : Serial) : Bool :=
  s.error

def has_data (s : Serial) : Bool :=
  s.changed

/-- Embeds `serial::get_data()`: the value returned and the state it leaves. -/
def get_data (s : Serial) : Nat × Serial :=
  let s := { s with changed := false }
  (s.rx_code, s)

/-- Whether the protocol timeout timer runs: the ENABLE bit of its control
register. Only a running timer overflows. -/
def timer_running (s : Serial) : Bool :=
  s.tca_ctrla &&& TCA_SINGLE_ENABLE_bm ≠ 0

/-- The static data at power-on (zero-initialised) and the registers at their
reset value. -/
def power_on : Serial :=
  { first := false, error := false, changed := false, temp := 0, rx_code := 0, tx_code := 0,
    tx_map := 0, tx_index := 0, inited := false, tca_ctrla := 0, tca_cnt := 0, ccl_ctrla := 0,
    txdata := [] }

/-- An interrupt of the receiver: a message unit arrives (with the status and
data the handler reads), or the protocol timeout timer overflows. -/
inductive SerialEvent where
  | rx (rxdatah rxdatal : Nat)
  | timeout
deriving DecidableEq, Repr

/-- The handler of an interrupt; the timer overflows only while it runs. -/
def step : SerialEvent → Serial → Serial
  | .rx rxdatah rxdatal, s => USART0_RXC_vect rxdatah rxdatal s
  | .timeout, s => if timer_running s then TCA0_OVF_vect s else s

/-- Receiver after a sequence of interrupts. -/
def after : List SerialEvent → Serial → Serial
  | [], s => s
  | e :: es, s => after es (step e s)

end serial

/-! ## ssegs-driver main.cpp: the command-line options of the host tool -/

namespace driver

/-- The type `serial::parity` of the host tool. -/
inductive parity where
  | none
  | even
  | odd
deriving DecidableEq, Repr

/-- The type `serial::handshake` of the host tool. -/
inductive handshake where
  | none
  | xon_xoff
  | hardware
deriving DecidableEq, Repr

/-- The struct `serial::options` of the host tool. -/
structure serial_options where
  speed : Int
  nbits : Int
  parity : parity
  nstops : Int
  handshake : handshake
deriving DecidableEq, Repr

/-- Embeds the constructor `serial::options::options()`. -/
def serial_options.default : serial_options :=
  { speed := 19200, nbits := 8, parity := parity.none, nstops := 1, handshake := handshake.none }

/-- The struct `protocol::options`; `input_text` is NULL until the positional
arguments are read. -/
structure protocol_options where
  input_text : Option String
  raw : Bool
  animation_window : Int
  animation_timing_ms : Int
deriving DecidableEq, Repr

/-- Embeds the constructor `protocol::options::options()`. -/
def protocol_options.default : protocol_options :=
  { input_text := Option.none, raw := false, animation_window := 0, animation_timing_ms := 100 }

/-- The argument of an option as a handler sees it: the text, and the number
the C library call `strtoimax(text, NULL, 10)` returns for it. -/
structure optarg where
  text : String
  number : Int
deriving DecidableEq, Repr

/-- Embeds `parse_framing`; `none` is the return value false. -/
def parse_framing (opts : serial_options) (framing : String) : Option serial_options :=
  match framing.toList with
  | [c0, c1, c2] =>
    let nbits : Option Int :=
      if c0 = '5' then some 5 else if c0 = '6' then some 6 else if c0 = '7' then some 7
      else if c0 = '8' then some 8 else Option.none
    let par : Option parity :=
      if c1.toUpper = 'E' then some parity.even else if c1.toUpper = 'N' then some parity.none
      else if c1.toUpper = 'O' then some parity.odd else Option.none
    let nstops : Option Int :=
      if c2 = '1' then some 1 else if c2 = '2' then some 2 else Option.none
    match nbits, par, nstops with
    | some n, some p, some s => some { opts with nbits := n, parity := p, nstops := s }
    | _, _, _ => Option.none
  | _ => Option.none

/-- Embeds `parse_speed`; `none` is the return value false. -/
def parse_speed (opts : serial_options) (value : optarg) : Option serial_options :=
  let bit_rate := value.number
  if value.text.length > 0 ∧ bit_rate > 0 ∧ bit_rate ≤ 115200 then
    some { opts with speed := bit_rate }
  else Option.none

/-- Embeds `parse_animation_timing`; `none` is the return value false. -/
def parse_animation_timing (opts : protocol_options) (value : optarg) : Option protocol_options :=
  let timing_ms := value.number
  if value.text.length > 0 ∧ timing_ms > 0 ∧ timing_ms ≤ 1000 then
    some { opts with animation_timing_ms := timing_ms }
  else Option.none

/-- Embeds `parse_animation_window`; `none` is the return value false. -/
def parse_animation_window (opts : protocol_options) (value : optarg) : Option protocol_options :=
  let window := value.number
  if value.text.length > 0 ∧ window > 0 ∧ window ≤ 128 then
    some { opts with animation_window := window }
  else Option.none

/-- The string `short_options` of `parse_arguments`. -/
def short_options : String := "f:hrs:t:Vw:"

/-- An entry of the table `long_options`: name, whether an argument is
required, and the value `getopt_long` returns for it (the `flag` member is
NULL in every entry). -/
structure long_option where
  name : String
  has_arg : Bool
  val : Char
deriving DecidableEq, Repr

/-- The table `long_options` of `parse_arguments`, without the terminator. -/
def long_options : List long_option := [
  { name := "framing", has_arg := true, val := 'f' },
  { name := "help", has_arg := false, val := 'h' },
  { name := "raw", has_arg := false, val := 'r' },
  { name := "speed", has_arg := true, val := 's' },
  { name := "timing", has_arg := true, val := 'w' },
  { name := "version", has_arg := false, val := 'V' },
  { name := "window", has_arg := true, val := 'w' }
]

/-- An option on the command line: `-c ARG` or `--name ARG` (the argument is
ignored by the options that take none). -/
inductive Arg where
  | short (c : Char) (arg : optarg)
  | long (name : String) (arg : optarg)
deriving DecidableEq, Repr

/-- The argument of an option, what `optarg` points at. -/
def Arg.optarg : Arg → optarg
  | .short _ a => a
  | .long _ a => a

/-- What the C library call `getopt_long` returns for an option. A short option
gives its character if it is listed in `short_options`. A long option gives
the `val` of the entry of `long_options` with exactly that name; failing
that, of the entries whose name starts with it, provided there is one and
they all agree in `has_arg` and `val` with the first (an abbreviation that
is not ambiguous). Every other option gives '?'. -/
def getopt_long : Arg → Char
  | .short c _ => if c ≠ ':' ∧ c ∈ short_options.toList then c else '?'
  | .long name _ =>
    match long_options.find? (fun o => o.name = name) with
    | some o => o.val
    | Option.none =>
      match long_options.filter (fun o => name.toList.isPrefixOf o.name.toList) with
      | [] => '?'
      | o :: rest =>
        if rest.all (fun p => p.has_arg = o.has_arg && p.val = o.val) then o.val else '?'

/-- What `parse_arguments` has collected so far. -/
structure Parsed where
  port_options : serial_options
  protocol : protocol_options
deriving DecidableEq, Repr

/-- The body of the option loop of `parse_arguments`, the switch on the value
`getopt_long` returned; `none` is `return false`. -/
def handle_option (opt : Char) (arg : optarg) (p : Parsed) : Option Parsed :=
  if opt = 'f' then -- --framing
    (parse_framing p.port_options arg.text).map (fun o => { p with port_options := o })
  else if opt = 'h' then -- --help
    Option.none
  else if opt = 'r' then -- --raw
    some { p with protocol := { p.protocol with raw := true } }
  else if opt = 's' then -- --speed
    (parse_speed p.port_options arg).map (fun o => { p with port_options := o })
  else if opt = 't' then -- --timing
    (parse_animation_timing p.protocol arg).map (fun o => { p with protocol := o })
  else if opt = 'V' then -- --version
    Option.none
  else if opt = 'w' then -- --window
    (parse_animation_window p.protocol arg).map (fun o => { p with protocol := o })
  else
    Option.none

/-- The option loop of `parse_arguments`. -/
def parse_options : List Arg → Parsed → Option Parsed
  | [], p => some p
  | a :: rest, p =>
    match handle_option (getopt_long a) a.optarg p with
    | some p => parse_options rest p
    | Option.none => Option.none

/-- Embeds `parse_arguments`: the options, then the two positional arguments
(the device path and the text); the result is the device path, the port
options and the protocol options, `none` is the return value false. -/
def parse_arguments (protocol : protocol_options) (opts : List Arg) (positional : List String) :
    Option (String × serial_options × protocol_options) :=
  match parse_options opts { port_options := serial_options.default, protocol := protocol } with
  | Option.none => Option.none
  | some p =>
    match positional with
    | [path, text] => some (path, p.port_options, { p.protocol with input_text := some text })
    | _ => Option.none

/-- The command line `tool OPTION device text` with a fresh `protocol::options`,
as `main` runs it: the protocol options that result. -/
def run_with (a : Arg) : Option protocol_options :=
  (parse_arguments protocol_options.default [a] ["/dev/ttyUSB0", "HELLO"]).map (fun r => r.2.2)

end driver

/-! ## The track: where ticks alone lead -/

/-- The four branch targets of the sample program: the non-zero `next_pc`
fields of its light-segment instructions (at indices 0, 10, 3 and 13). -/
def branch_targets : List Nat := [7, 17, 21, 25]

/-- Program counter left by a `tick_event` entered with program counter `pc`:
one past the instruction it pauses on. -/
def pc_after_tick (pc : Nat) : Nat :=
  pause_index pc + 1

/-- Program counter after `k` tick events in a row. -/
def pc_after_ticks : Nat → Nat → Nat
  | 0, pc => pc
  | k + 1, pc => pc_after_ticks k (pc_after_tick pc)

/-- Whether the instruction at `pc` is a jump back to pc 0, so that a
`tick_event` entered with this program counter executes it. -/
def jumps_home (pc : Nat) : Bool :=
  decide (get_opcode (program_at pc) = op_jump ∧ get_next_pc (program_at pc) = 0)

/-- A sequence of `k` tick events. -/
def ticks (k : Nat) : List Event :=
  List.replicate k .tick

/-! ## timer.cpp: initialisation -/

namespace timer

/-- Embeds `timer::init()`. Of the registers it writes the model holds the two
interrupt control registers; period, counter, flags and the enable bits of
the RTC and of the periodic interrupt timer are not part of the model. -/
def init (s : Timer) : Timer :=
  -- ensure that initialisation is done once
  if s.inited then s
  else
    -- enable interrupts
    let s := { s with rtc_intctrl := RTC_OVF_bm }
    -- enable interrupts
    let s := { s with rtc_pitintctrl := RTC_PI_bm }
    { s with inited := true }

end timer

/-! ## display.cpp: calls and interrupts in any order -/

namespace display

/-- Something that happens to the display driver: the multiplexer handler
runs, or other code calls one of the public functions. -/
inductive DisplayEvent where
  | mux_irq
  | init
  | off
  | show_char (code : Nat)
  | show_segments (map : Nat)
deriving DecidableEq, Repr

/-- The effect of an event. The handler is run whenever the event occurs, also
while the timer is stopped: this covers every order the hardware allows. -/
def step : DisplayEvent → Display → Display
  | .mux_irq, d => TCB0_INT_vect d
  | .init, d => init d
  | .off, d => off d
  | .show_char code, d => show_char code d
  | .show_segments map, d => show_segments map d

/-- Display after a sequence of events. -/
def after : List DisplayEvent → Display → Display
  | [], d => d
  | e :: es, d => after es (step e d)

/-- Number of segment lines that are high. -/
def lines_high (d : Display) : Nat :=
  (List.range 8).countP (fun s => line_high s d)

end display

/-! ## smart-display.X serial.cpp and smart_display.cpp: the self-similar relay -/

namespace serial

/-- Embeds `ISR(USART0_TXC_vect)`, the transmit-complete handler (the interrupt
flag it acknowledges is not part of the model). -/
def USART0_TXC_vect (s : Serial) : Serial :=
  -- bit 7 is ignored: no message unit is transmitted for the DP state
  if s.tx_index < 6 then
    let s := { s with tx_index := (s.tx_index + 1) % 256 }
    { s with txdata :=
        s.txdata ++ [if s.tx_map &&& (1 <<< s.tx_index) ≠ 0 then s.tx_code else ' '.toNat] }
  else s

/-- Embeds `serial::get_root_char(code, map)`. -/
def get_root_char (code map : Nat) : Nat :=
  if map &&& 1 ≠ 0 then code else ' '.toNat

/-- Embeds `serial::enqueue_mapped_chars(code, map)`, both arguments bytes. The
wait for the data register to be empty is not part of the model. -/
def enqueue_mapped_chars (code map : Nat) (s : Serial) : Serial :=
  let s := { s with tx_code := code }
  let s := { s with tx_map := map }
  let s := { s with tx_index := 1 }
  { s with txdata := s.txdata ++ [if map &&& (1 <<< 1) ≠ 0 then code else ' '.toNat] }

/-- The transmitter after `k` transmit-complete interrupts in a row. -/
def after_txc : Nat → Serial → Serial
  | 0, s => s
  | k + 1, s => after_txc k (USART0_TXC_vect s)

end serial

namespace smart_display

/-- The serial service and the display of one module. -/
structure Module where
  ser : serial.Serial
  disp : Display
deriving DecidableEq, Repr

/-- The branch of the loop of `smart_display::run()` taken when the serial
service has no error and holds a character: a root node maps the character
to segments, forwards it to the chain and shows its own part, any other
node shows the character. -/
def on_data (root_node : Bool) (b : Module) : Module :=
  if root_node then
    let (code, ser) := serial.get_data b.ser
    let map := display.char_to_segs code
    let ser := serial.enqueue_mapped_chars code map ser
    { ser := ser, disp := display.show_char (serial.get_root_char code map) b.disp }
  else
    let (code, ser) := serial.get_data b.ser
    { ser := ser, disp := display.show_char code b.disp }

/-- The byte the relay sends for the segment of bit `i` of the map of `code`:
the code if the bit is set, a space otherwise. -/
def relayed (code i : Nat) : Nat :=
  if display.bit_set (display.char_to_segs code) i then code else ' '.toNat

end smart_display

/-! ## ssegs-driver protocol.cpp: the bytes prepared for the display chain -/

namespace protocol

end protocol

/-! ## Lemmas on the VM -/

theorem vm_program_length : vm_program.length = 27 := by decide

theorem fetch_inside (s : State) (h : s.pc < 27) :
    s.fetch = some { s with instruction := program_at s.pc } := by
  have hlen : s.pc < vm_program.length := by rw [vm_program_length]; exact h
  simp [State.fetch, program_at, List.getElem?_eq_getElem hlen]

theorem exec_light (m : Machine) (h1 : 1 ≤ get_opcode m.state.instruction)
    (h7 : get_opcode m.state.instruction ≤ 7) :
    exec m = .ret (.vm_pause,
      { state := { m.state with pc := (m.state.pc + 1) % 256 },
        disp := display.show_segments (opcode_segment (get_opcode m.state.instruction)) m.disp }) := by
  unfold exec opcode_segment
  generalize get_opcode m.state.instruction = op at h1 h7
  interval_cases op <;> simp

theorem exec_jump (m : Machine) (h : get_opcode m.state.instruction = 0)
    (ht : get_next_pc m.state.instruction < 27) :
    exec m = .ret (.vm_exec,
      { m with state := { m.state with pc := get_next_pc m.state.instruction,
                                       instruction := program_at (get_next_pc m.state.instruction) } }) := by
  have hf := fetch_inside { m.state with pc := get_next_pc m.state.instruction } ht
  unfold exec
  simp [h, hf]

/-- Shape of the table: every opcode is defined, every jump lands inside the
table on a light-segment instruction that is not the last entry, and the last
entry is a jump. -/
theorem vm_program_shape : ∀ pc < 27,
    get_opcode (program_at pc) ≤ 7 ∧
    (get_opcode (program_at pc) = 0 →
      get_next_pc (program_at pc) < 26 ∧
      1 ≤ get_opcode (program_at (get_next_pc (program_at pc))) ∧
      get_opcode (program_at (get_next_pc (program_at pc))) ≤ 7) ∧
    (get_opcode (program_at pc) ≠ 0 → pc < 26) := by
  decide

/-- Number of loop iterations a `tick_event` entered at `pc` takes. -/
theorem tick_event_eq (m : Machine) (h : m.state.pc < 27) (fuel : Nat) :
    vm.tick_event fuel m =
      if (if get_opcode (program_at m.state.pc) = 0 then 2 else 1) ≤ fuel then
        .ret (paused_at (pause_index m.state.pc) m)
      else .timeout := by
  obtain ⟨h7, hj, hl⟩ := vm_program_shape m.state.pc h
  unfold vm.tick_event
  rw [fetch_inside _ h]
  by_cases hop : get_opcode (program_at m.state.pc) = 0
  · obtain ⟨ht, h1', h7'⟩ := hj hop
    have e : (get_next_pc (program_at m.state.pc) + 1) % 256
        = get_next_pc (program_at m.state.pc) + 1 := by omega
    rcases fuel with _ | _ | fuel
    · simp [vm.exec_loop, hop]
    · simp only [vm.exec_loop]
      rw [exec_jump _ hop (by simp only []; omega)]
      simp [hop]
    · simp only [vm.exec_loop]
      rw [exec_jump _ hop (by simp only []; omega)]
      simp only []
      rw [exec_light _ h1' h7']
      simp [paused_at, pause_index, hop, e]
  · have := hl hop
    have e : (m.state.pc + 1) % 256 = m.state.pc + 1 := by omega
    rcases fuel with _ | fuel
    · simp [vm.exec_loop, hop]
    · simp only [vm.exec_loop]
      rw [exec_light _ (by simp only []; omega) h7]
      simp [paused_at, pause_index, hop, e]

theorem tick_event_paused (m : Machine) (h : m.state.pc < 27) (fuel : Nat) :
    vm.tick_event (fuel + 2) m = .ret (paused_at (pause_index m.state.pc) m) := by
  rw [tick_event_eq m h]
  split_ifs <;> simp_all

theorem tick_event_of_ret (m m' : Machine) (h : m.state.pc < 27) (fuel : Nat)
    (hr : vm.tick_event fuel m = .ret m') : m' = paused_at (pause_index m.state.pc) m := by
  rw [tick_event_eq m h] at hr
  by_cases hc : (if get_opcode (program_at m.state.pc) = 0 then 2 else 1) ≤ fuel
  · rw [if_pos hc] at hr
    exact (Outcome.ret.inj hr).symm
  · rw [if_neg hc] at hr
    cases hr

/-- The source's `update_ticks` computes the step-tick function of the
specification. -/
theorem update_ticks_eq (s : State) :
    s.update_ticks = { s with ticks := step_ticks_spec s.speed } := by
  unfold State.update_ticks step_ticks_spec
  simp only [Nat.shiftRight_eq_div_pow]
  split_ifs with h1 h2
  · congr 1
    omega
  · congr 1
    omega
  · rfl

theorem update_speed_eq (s : State) :
    s.update_speed =
      if s.speed = 255 then s
      else { s with speed := (s.speed + 1) % 256,
                    ticks := step_ticks_spec ((s.speed + 1) % 256) } := by
  unfold State.update_speed
  split_ifs
  · rfl
  · rw [update_ticks_eq]

theorem steer_crash (s : State) (h : get_next_pc s.instruction = 0) :
    s.steer = some (.vm_stop, crashed s) := by
  unfold State.steer crashed
  simp only [h, update_ticks_eq]
  by_cases hc : s.cars = 0 <;> simp [hc, step_ticks_spec, Nat.pos_iff_ne_zero]

theorem update_speed_frame (s : State) :
    s.update_speed.pc = s.pc ∧ s.update_speed.score = s.score ∧
    s.update_speed.cars = s.cars ∧ s.update_speed.instruction = s.instruction := by
  rw [update_speed_eq]
  split_ifs <;> simp

theorem steer_branch (s : State) (h0 : get_next_pc s.instruction ≠ 0)
    (ht : get_next_pc s.instruction < 27) :
    s.steer = some (.vm_exec, branched s) := by
  unfold State.steer branched
  simp only [h0, ne_eq, not_false_eq_true, if_true]
  rw [fetch_inside _ (by rw [(update_speed_frame _).1]; exact ht)]
  simp [(update_speed_frame _).1]

theorem steer_event_crash (m : Machine) (fuel : Nat) (h : get_next_pc m.state.instruction = 0) :
    vm.steer_event fuel m = .ret (false, { m with state := crashed m.state }) := by
  unfold vm.steer_event
  rw [steer_crash _ h]

theorem branched_pc (s : State) : (branched s).pc = get_next_pc s.instruction := by
  unfold branched
  simp [(update_speed_frame _).1]

theorem steer_event_eq (m : Machine) (fuel : Nat) (h0 : get_next_pc m.state.instruction ≠ 0)
    (ht : get_next_pc m.state.instruction < 27) :
    vm.steer_event fuel m =
      if (if get_opcode (program_at (get_next_pc m.state.instruction)) = 0 then 2 else 1) ≤ fuel then
        .ret (true, paused_at (pause_index (get_next_pc m.state.instruction))
          { m with state := branched m.state })
      else .timeout := by
  unfold vm.steer_event
  rw [steer_branch _ h0 ht]
  simp only []
  rw [tick_event_eq _ (by simp only [branched_pc]; exact ht)]
  simp only [branched_pc]
  split_ifs <;> rfl

theorem steer_event_branch (m : Machine) (fuel : Nat) (h0 : get_next_pc m.state.instruction ≠ 0)
    (ht : get_next_pc m.state.instruction < 27) :
    vm.steer_event (fuel + 2) m =
      .ret (true, paused_at (pause_index (get_next_pc m.state.instruction))
        { m with state := branched m.state }) := by
  rw [steer_event_eq m _ h0 ht, if_pos (by split_ifs <;> omega)]

theorem steer_event_of_ret (m m' : Machine) (b : Bool) (fuel : Nat)
    (ht : get_next_pc m.state.instruction < 27)
    (hr : vm.steer_event fuel m = .ret (b, m')) :
    (get_next_pc m.state.instruction = 0 ∧ b = false ∧ m' = { m with state := crashed m.state }) ∨
    (get_next_pc m.state.instruction ≠ 0 ∧ b = true ∧
      m' = paused_at (pause_index (get_next_pc m.state.instruction))
        { m with state := branched m.state }) := by
  by_cases h0 : get_next_pc m.state.instruction = 0
  · rw [steer_event_crash m fuel h0] at hr
    have := Outcome.ret.inj hr
    simp only [Prod.mk.injEq] at this
    exact Or.inl ⟨h0, this.1.symm, this.2.symm⟩
  · rw [steer_event_eq m fuel h0 ht] at hr
    by_cases hc : (if get_opcode (program_at (get_next_pc m.state.instruction)) = 0 then 2 else 1)
        ≤ fuel
    · rw [if_pos hc] at hr
      have := Outcome.ret.inj hr
      simp only [Prod.mk.injEq] at this
      exact Or.inr ⟨h0, this.1.symm, this.2.symm⟩
    · rw [if_neg hc] at hr
      cases hr

/-- Where a `tick_event` pauses: never on the last entry, and on an instruction
whose branch target is inside the table. -/
theorem pause_index_inside : ∀ pc < 27,
    pause_index pc < 26 ∧ get_next_pc (program_at (pause_index pc)) < 27 := by
  decide

theorem paused_at_inside (m : Machine) (pc : Nat) (h : pc < 27) :
    Inside (paused_at (pause_index pc) m) := by
  obtain ⟨h1, h2⟩ := pause_index_inside pc h
  unfold Inside paused_at
  simp only [vm_program_length]
  exact ⟨by omega, h2⟩

theorem inside_iff (m : Machine) :
    Inside m ↔ m.state.pc < 27 ∧ get_next_pc m.state.instruction < 27 := by
  unfold Inside
  rw [vm_program_length]

theorem crashed_inside (m : Machine) (h : Inside m) :
    Inside { m with state := crashed m.state } := by
  rw [inside_iff] at *
  exact ⟨by simp [crashed], by simpa [crashed] using h.2⟩

theorem reset_inside (m : Machine) (s : Nat) (h : get_next_pc m.state.instruction < 27) :
    Inside (vm.reset s m) := by
  rw [inside_iff]
  unfold vm.reset State.reset
  simp only [update_ticks_eq]
  exact ⟨by decide, h⟩

theorem reachable_inside (m : Machine) (h : Reachable m) : Inside m := by
  induction h with
  | boot d =>
    exact (inside_iff _).2 ⟨(by decide : State.zero.pc < 27),
      (by decide : get_next_pc State.zero.instruction < 27)⟩
  | reset s m _ _ ih => exact reset_inside m s ((inside_iff m).1 ih).2
  | tick fuel m m' _ hr ih =>
    rw [tick_event_of_ret m m' ((inside_iff m).1 ih).1 fuel hr]
    exact paused_at_inside m _ ((inside_iff m).1 ih).1
  | steer fuel m m' b _ hr ih =>
    rcases steer_event_of_ret m m' b fuel ((inside_iff m).1 ih).2 hr with ⟨_, _, e⟩ | ⟨_, _, e⟩
    · rw [e]
      exact crashed_inside m ih
    · rw [e]
      exact paused_at_inside _ _ ((inside_iff m).1 ih).2
  | display d m _ ih => exact ih


theorem run_tick (fuel : Nat) (es : List Event) (m m' : Machine)
    (h : vm.tick_event fuel m = .ret m') :
    run fuel (.tick :: es) m = run fuel es m' := by
  simp only [run, h]

theorem run_steer (fuel : Nat) (es : List Event) (m m' m'' : Machine) (b : Bool)
    (log : List Bool) (h : vm.steer_event fuel m = .ret (b, m'))
    (h2 : run fuel es m' = .ret (log, m'')) :
    run fuel (.steer :: es) m = .ret (b :: log, m'') := by
  simp only [run, h, h2]

theorem run_append (fuel : Nat) (es1 es2 : List Event) :
    ∀ (m m1 m2 : Machine) (l1 l2 : List Bool),
      run fuel es1 m = .ret (l1, m1) → run fuel es2 m1 = .ret (l2, m2) →
      run fuel (es1 ++ es2) m = .ret (l1 ++ l2, m2) := by
  induction es1 with
  | nil =>
    intro m m1 m2 l1 l2 h1 h2
    simp only [run, Outcome.ret.injEq, Prod.mk.injEq] at h1
    obtain ⟨rfl, rfl⟩ := h1
    simpa using h2
  | cons e es ih =>
    intro m m1 m2 l1 l2 h1 h2
    cases e with
    | tick =>
      simp only [run] at h1
      cases ht : vm.tick_event fuel m with
      | ret m' =>
        rw [ht] at h1
        simp only [] at h1
        rw [List.cons_append, run_tick _ _ _ _ ht]
        exact ih m' m1 m2 l1 l2 h1 h2
      | halted x => rw [ht] at h1; cases h1
      | outside => rw [ht] at h1; cases h1
      | timeout => rw [ht] at h1; cases h1
    | steer =>
      simp only [run] at h1
      cases hs : vm.steer_event fuel m with
      | ret r =>
        obtain ⟨b, m'⟩ := r
        rw [hs] at h1
        simp only [] at h1
        cases hr : run fuel es m' with
        | ret r' =>
          obtain ⟨bs, m''⟩ := r'
          rw [hr] at h1
          simp only [Outcome.ret.injEq, Prod.mk.injEq] at h1
          obtain ⟨rfl, rfl⟩ := h1
          exact run_steer _ _ _ _ _ _ _ hs (ih m' m'' m2 bs l2 hr h2)
        | halted x => rw [hr] at h1; cases h1
        | outside => rw [hr] at h1; cases h1
        | timeout => rw [hr] at h1; cases h1
      | halted x => rw [hs] at h1; cases h1
      | outside => rw [hs] at h1; cases h1
      | timeout => rw [hs] at h1; cases h1

/-- Every call sequence started with the program counter and the fetched
branch target inside the table returns, and the counters follow the values
the steer calls returned. -/
theorem run_returns (evs : List Event) :
    ∀ (m : Machine) (fuel : Nat), Inside m →
      ∃ log m', run (fuel + 2) evs m = .ret (log, m') ∧ Inside m' ∧
        log.length = evs.count .steer ∧
        m'.state.cars = m.state.cars - log.count false ∧
        m'.state.score % 65536 = (m.state.score + log.count true) % 65536 ∧
        (m.state.score < 65536 → m'.state.score < 65536) ∧
        (m.state.ticks = step_ticks_spec m.state.speed →
          m'.state.ticks = step_ticks_spec m'.state.speed) ∧
        (m.state.speed < 256 → m'.state.speed < 256) ∧
        (m.state.speed < 256 → log.count false = 0 →
          m'.state.speed = min (m.state.speed + log.count true) 255) := by
  induction evs with
  | nil =>
    intro m fuel h
    exact ⟨[], m, rfl, h, by simp, by simp, by simp, id, id, id, by simp; omega⟩
  | cons e es ih =>
    intro m fuel h
    have hi := (inside_iff m).1 h
    cases e with
    | tick =>
      have ht := tick_event_paused m hi.1 fuel
      obtain ⟨log, m', hr, hin, hlen, hc, hs, hb, htk, hsp, hmin⟩ :=
        ih (paused_at (pause_index m.state.pc) m) fuel (paused_at_inside m _ hi.1)
      refine ⟨log, m', ?_, hin, ?_, hc, hs, hb, htk, hsp, hmin⟩
      · rw [run_tick _ _ _ _ ht, hr]
      · simpa using hlen
    | steer =>
      by_cases h0 : get_next_pc m.state.instruction = 0
      · have hst := steer_event_crash m (fuel + 2) h0
        obtain ⟨log, m', hr, hin, hlen, hc, hs, hb, htk, hsp, hmin⟩ :=
          ih { m with state := crashed m.state } fuel (crashed_inside m h)
        refine ⟨false :: log, m', run_steer _ _ _ _ _ _ _ hst hr, hin, ?_, ?_, ?_, ?_, ?_, ?_, ?_⟩
        · simpa using hlen
        · rw [hc]
          simp only [crashed, List.count_cons_self]
          split_ifs <;> omega
        · rw [hs]
          simp [crashed]
        · simpa [crashed] using hb
        · intro _
          exact htk (by simp [crashed, step_ticks_spec])
        · intro _
          exact hsp (by simp [crashed])
        · intro _ hz
          simp at hz
      · have hst := steer_event_branch m fuel h0 hi.2
        obtain ⟨log, m', hr, hin, hlen, hc, hs, hb, htk, hsp, hmin⟩ :=
          ih _ fuel (paused_at_inside { m with state := branched m.state } _ hi.2)
        refine ⟨true :: log, m', run_steer _ _ _ _ _ _ _ hst hr, hin, ?_, ?_, ?_, ?_, ?_, ?_, ?_⟩
        · simpa using hlen
        · rw [hc]
          simp [paused_at, branched, (update_speed_frame _).2.2.1]
        · rw [hs]
          simp only [paused_at, branched, (update_speed_frame _).2.1, List.count_cons_self]
          omega
        · intro _
          apply hb
          simp only [paused_at, branched, (update_speed_frame _).2.1]
          omega
        · intro hh
          apply htk
          simp only [paused_at, branched, update_speed_eq]
          split_ifs <;> simp [hh]
        · intro hh
          apply hsp
          simp only [paused_at, branched, update_speed_eq]
          split_ifs
          · simpa using hh
          · simp only []
            omega
        · intro hh hz
          have hz' : log.count false = 0 := by simpa using hz
          have hsp' : (paused_at (pause_index (get_next_pc m.state.instruction))
              { m with state := branched m.state }).state.speed
              = min (m.state.speed + 1) 255 := by
            simp only [paused_at, branched, update_speed_eq]
            split_ifs <;> simp only [] <;> omega
          rw [hmin (by rw [hsp']; omega) hz', hsp']
          simp only [List.count_cons_self]
          omega

theorem run_reachable (fuel : Nat) (evs : List Event) :
    ∀ (m m' : Machine) (log : List Bool), Reachable m → run fuel evs m = .ret (log, m') →
      Reachable m' := by
  induction evs with
  | nil =>
    intro m m' log h hr
    simp only [run, Outcome.ret.injEq, Prod.mk.injEq] at hr
    rw [← hr.2]
    exact h
  | cons e es ih =>
    intro m m' log h hr
    cases e with
    | tick =>
      simp only [run] at hr
      cases ht : vm.tick_event fuel m with
      | ret m1 =>
        rw [ht] at hr
        exact ih m1 m' log (Reachable.tick fuel m m1 h ht) hr
      | halted x => rw [ht] at hr; cases hr
      | outside => rw [ht] at hr; cases hr
      | timeout => rw [ht] at hr; cases hr
    | steer =>
      simp only [run] at hr
      cases hs : vm.steer_event fuel m with
      | ret r =>
        obtain ⟨b, m1⟩ := r
        rw [hs] at hr
        simp only [] at hr
        cases hr1 : run fuel es m1 with
        | ret r' =>
          obtain ⟨bs, m2⟩ := r'
          rw [hr1] at hr
          simp only [Outcome.ret.injEq, Prod.mk.injEq] at hr
          rw [← hr.2]
          exact ih m1 m2 bs (Reachable.steer fuel m m1 b h hs) hr1
        | halted x => rw [hr1] at hr; cases hr
        | outside => rw [hr1] at hr; cases hr
        | timeout => rw [hr1] at hr; cases hr
      | halted x => rw [hs] at hr; cases hr
      | outside => rw [hs] at hr; cases hr
      | timeout => rw [hs] at hr; cases hr

/-- In a reachable machine the speed is a byte and, once it is non-zero, the
step-tick value is the one computed for it. -/
theorem reachable_ticks (m : Machine) (h : Reachable m) :
    m.state.speed < 256 ∧
      (m.state.speed ≠ 0 → m.state.ticks = step_ticks_spec m.state.speed) := by
  induction h with
  | boot d => exact ⟨(by decide : State.zero.speed < 256), fun h => absurd rfl h⟩
  | reset s m hs _ _ =>
    unfold vm.reset State.reset
    simp only [update_ticks_eq]
    exact ⟨hs, fun _ => trivial⟩
  | tick fuel m m' hm hr ih =>
    rw [tick_event_of_ret m m' ((inside_iff m).1 (reachable_inside m hm)).1 fuel hr]
    simpa [paused_at] using ih
  | steer fuel m m' b hm hr ih =>
    rcases steer_event_of_ret m m' b fuel ((inside_iff m).1 (reachable_inside m hm)).2 hr with
      ⟨_, _, e⟩ | ⟨_, _, e⟩
    · rw [e]
      simp [crashed]
    · rw [e]
      simp only [paused_at, branched, update_speed_eq]
      split_ifs with h255
      · simpa using ih
      · simp only []
        exact ⟨by omega, fun _ => trivial⟩
  | display d m _ ih => exact ih

theorem show_segments_current_segs (map : Nat) (d : Display) :
    (display.show_segments map d).current_segs = map % 256 := by
  unfold display.show_segments display.start_timer display.stop_timer
  simp only []
  split_ifs <;> rfl

theorem show_segments_run (map : Nat) (d : Display) :
    (display.show_segments map d).tcb_run = decide (map % 256 ≠ 0) := by
  unfold display.show_segments display.start_timer display.stop_timer
  simp only []
  split_ifs <;> simp_all

theorem tick_step (m : Machine) (fuel p i : Nat) (hp : m.state.pc = p) (hlt : p < 27)
    (hidx : pause_index p = i) :
    vm.tick_event (fuel + 2) m = .ret (paused_at i m) := by
  rw [tick_event_paused m (by rw [hp]; exact hlt) fuel, hp, hidx]

theorem steer_step (m : Machine) (fuel ins n i : Nat) (hi : m.state.instruction = ins)
    (hn : get_next_pc ins = n) (h0 : n ≠ 0) (hlt : n < 27) (hidx : pause_index n = i) :
    vm.steer_event (fuel + 2) m = .ret (true, paused_at i { m with state := branched m.state }) := by
  rw [steer_event_branch m fuel (by rw [hi, hn]; exact h0) (by rw [hi, hn]; exact hlt), hi, hn,
    hidx]

/-- A lap entered on instruction 0 takes both branches and ends paused on
instruction 0 again. -/
theorem lap_run (m : Machine) (fuel : Nat) (hi : m.state.instruction = program_at 0) :
    run (fuel + 2) lap m = .ret ([true, true], after_lap m) ∧
      (after_lap m).state.instruction = program_at 0 ∧ (after_lap m).state.pc = 1 := by
  refine ⟨?_, rfl, rfl⟩
  unfold lap after_lap steered_to
  refine run_steer _ _ _ _ _ _ [true]
    (steer_step m fuel (program_at 0) 7 7 hi (by decide) (by decide) (by decide) (by decide)) ?_
  rw [run_tick _ _ _ _ (tick_step _ fuel 8 8 rfl (by decide) (by decide))]
  rw [run_tick _ _ _ _ (tick_step _ fuel 9 9 rfl (by decide) (by decide))]
  rw [run_tick _ _ _ _ (tick_step _ fuel 10 10 rfl (by decide) (by decide))]
  refine run_steer _ _ _ _ _ _ []
    (steer_step _ fuel (program_at 10) 17 17 rfl (by decide) (by decide)
      (by decide) (by decide)) ?_
  rw [run_tick _ _ _ _ (tick_step _ fuel 18 18 rfl (by decide) (by decide))]
  rw [run_tick _ _ _ _ (tick_step _ fuel 19 19 rfl (by decide) (by decide))]
  rw [run_tick _ _ _ _ (tick_step _ fuel 20 0 rfl (by decide) (by decide))]
  rfl

/-- On `n` laps in a row every steer succeeds. -/
theorem laps_run (n : Nat) : ∀ (m : Machine) (fuel : Nat), m.state.instruction = program_at 0 →
    ∃ m', run (fuel + 2) (laps n) m = .ret (List.replicate (2 * n) true, m') ∧
      m'.state.instruction = program_at 0 ∧ (0 < n → m'.state.pc = 1) := by
  induction n with
  | zero =>
    intro m fuel hi
    exact ⟨m, rfl, hi, fun h => absurd h (by decide)⟩
  | succ n ih =>
    intro m fuel hi
    obtain ⟨hr1, hi1, hp1⟩ := lap_run m fuel hi
    obtain ⟨m2, hr2, hi2, hp2⟩ := ih (after_lap m) fuel hi1
    refine ⟨m2, ?_, hi2, ?_⟩
    · have := run_append (fuel + 2) lap (laps n) m (after_lap m) m2 _ _ hr1 hr2
      rw [laps, this]
      rfl
    · intro _
      rcases Nat.eq_zero_or_pos n with hz | hpos
      · subst hz
        simp only [laps, run, Outcome.ret.injEq, Prod.mk.injEq] at hr2
        rw [← hr2.2]
        exact hp1
      · exact hp2 hpos

/-- On the main loop of the track (entries 0..6) a tick entered at `j + 1`
pauses on instruction `(j + 1) % 6`: entry 6 is the jump back to 0. -/
theorem pause_index_main_loop : ∀ j < 6,
    pause_index (j + 1) = (j + 1) % 6 ∧
    opcode_segment (get_opcode (program_at j)) % 256 ≠ 0 ∧
    opcode_segment (get_opcode (program_at j)) < 256 ∧
    opcode_segment (get_opcode (program_at j)) % 256 =
      [display.segment.b, display.segment.c, display.segment.d, display.segment.e,
       display.segment.f, display.segment.a].getD j 0 := by
  decide

/-- The machine `first_pause` is reached from power-on by `reset(0)` and one
tick. -/
theorem first_pause_reachable : Reachable first_pause :=
  Reachable.tick 2 (vm.reset 0 power_on) first_pause
    (Reachable.reset 0 power_on (by decide) (Reachable.boot power_on.disp)) (by decide)

/-- The first half of a lap: the branch at instruction 0 and three ticks, up
to the pause on instruction 10. -/
theorem half_lap_run (m : Machine) (fuel : Nat) (hi : m.state.instruction = program_at 0) :
    run (fuel + 2) [.steer, .tick, .tick, .tick] m =
      .ret ([true], paused_at 10 (paused_at 9 (paused_at 8 (steered_to 7 m)))) := by
  unfold steered_to
  refine run_steer _ _ _ _ _ _ []
    (steer_step m fuel (program_at 0) 7 7 hi (by decide) (by decide) (by decide) (by decide)) ?_
  rw [run_tick _ _ _ _ (tick_step _ fuel 8 8 rfl (by decide) (by decide))]
  rw [run_tick _ _ _ _ (tick_step _ fuel 9 9 rfl (by decide) (by decide))]
  rw [run_tick _ _ _ _ (tick_step _ fuel 10 10 rfl (by decide) (by decide))]
  rfl

/-- The machine `full_score` is reached from power-on by `reset(0)`, one tick,
32767 laps and half a lap. -/
theorem full_score_reachable : Reachable full_score := by
  have hboot : Reachable (vm.reset 0 power_on) :=
    Reachable.reset 0 power_on (by decide) (Reachable.boot power_on.disp)
  have ht : vm.tick_event 2 (vm.reset 0 power_on) = .ret (paused_at 0 (vm.reset 0 power_on)) :=
    tick_step _ 0 0 0 rfl (by decide) (by decide)
  obtain ⟨m1, hr1, hi1, _⟩ := laps_run 32767 (paused_at 0 (vm.reset 0 power_on)) 0
    rfl
  have hr2 := half_lap_run m1 0 hi1
  have hr := run_append 2 (laps 32767) [.steer, .tick, .tick, .tick] _ _ _ _ _ hr1 hr2
  have hrun : run 2 (.tick :: (laps 32767 ++ [.steer, .tick, .tick, .tick]))
      (vm.reset 0 power_on)
      = .ret (List.replicate (2 * 32767) true ++ [true],
          paused_at 10 (paused_at 9 (paused_at 8 (steered_to 7 m1)))) := by
    rw [run_tick _ _ _ _ ht]
    exact hr
  have hreach := run_reachable 2 _ _ _ _ hboot hrun
  obtain ⟨log', m', hr', _, _, hc, hs, hb, htk, _, hmin⟩ :=
    run_returns (.tick :: (laps 32767 ++ [.steer, .tick, .tick, .tick])) (vm.reset 0 power_on) 0
      ((inside_iff _).2 ⟨by decide, by decide⟩)
  have e := Outcome.ret.inj (hrun.symm.trans hr')
  obtain ⟨rfl, rfl⟩ := Prod.mk.inj e
  have hct : (List.replicate (2 * 32767) true ++ [true]).count true = 65535 := by
    rw [List.count_append, List.count_replicate_self]
    rfl
  have hcf : (List.replicate (2 * 32767) true ++ [true]).count false = 0 := by
    rw [List.count_append, List.count_replicate]
    rfl
  have h0 : (vm.reset 0 power_on).state = ⟨0, 3, 0, 25, 0, 0⟩ := by decide
  rw [h0, hct] at hs
  rw [h0, hcf] at hc
  rw [h0, hct] at hmin
  rw [h0] at hb htk
  have hlt := hb (by decide)
  have hsp := hmin (by decide) hcf
  have htk' := htk (by decide)
  rw [hsp] at htk'
  have hpc : (paused_at 10 (paused_at 9 (paused_at 8 (steered_to 7 m1)))).state.pc = 11 := rfl
  have hin : (paused_at 10 (paused_at 9 (paused_at 8 (steered_to 7 m1)))).state.instruction
      = 113 := show program_at 10 = 113 by decide
  have hfin := Reachable.display full_score.disp _ hreach
  have hst : (paused_at 10 (paused_at 9 (paused_at 8 (steered_to 7 m1)))).state
      = full_score.state := by
    generalize (paused_at 10 (paused_at 9 (paused_at 8 (steered_to 7 m1)))).state = st at *
    obtain ⟨sc, ca, sp, ti, pc, ins⟩ := st
    simp only at hs hc hlt hsp htk' hpc hin
    simp only [full_score, State.mk.injEq]
    refine ⟨by omega, by omega, by omega, ?_, hpc, hin⟩
    rw [htk']
    decide
  rw [hst] at hfin
  exact hfin

/-! ## Game VM: contract of the public operations -/

/-- Claim C1 (crash semantics): in every VM state whose fetched instruction has
`next_pc` = 0, `steer_event()` returns false, takes exactly one car off the
remaining-lives counter (which stays at 0 when it was 0), sets the speed to 0
with the step-ticks recomputed (`wait_ticks()` = 25), leaves pc at 0 and
leaves the score (and the fetched instruction and the display) untouched. -/
theorem steer_event_crash_contract (m : Machine) (fuel : Nat)
    (h : get_next_pc m.state.instruction = 0) :
    ∃ m', vm.steer_event fuel m = .ret (false, m') ∧
      (0 < vm.remaining_cars m → vm.remaining_cars m' + 1 = vm.remaining_cars m) ∧
      (vm.remaining_cars m = 0 → vm.remaining_cars m' = 0) ∧
      m'.state.speed = 0 ∧
      vm.wait_ticks m' = 25 ∧ vm.wait_ticks m' = step_ticks_spec m'.state.speed ∧
      m'.state.pc = 0 ∧
      vm.score m' = vm.score m ∧
      m'.state.instruction = m.state.instruction ∧ m'.disp = m.disp := by
  refine ⟨{ m with state := crashed m.state }, steer_event_crash m fuel h, ?_, ?_, ?_, ?_, ?_, ?_,
    ?_, ?_, ?_⟩
  · intro hc
    simp only [vm.remaining_cars, crashed] at hc ⊢
    split_ifs <;> omega
  · intro hc
    simp only [vm.remaining_cars, crashed] at hc ⊢
    simp [hc]
  · rfl
  · rfl
  · simp [vm.wait_ticks, crashed, step_ticks_spec]
  · rfl
  · rfl
  · rfl
  · rfl

/-- Witness for claim C1: a machine with two cars left, paused on instruction 1
(light c, `next_pc` = 0) with pc = 2. -/
theorem steer_event_crash_contract_witness :
    get_next_pc mid_game.state.instruction = 0 ∧
    ∃ m', vm.steer_event 0 mid_game = .ret (false, m') ∧
      (0 < vm.remaining_cars mid_game → vm.remaining_cars m' + 1 = vm.remaining_cars mid_game) ∧
      (vm.remaining_cars mid_game = 0 → vm.remaining_cars m' = 0) ∧
      m'.state.speed = 0 ∧
      vm.wait_ticks m' = 25 ∧ vm.wait_ticks m' = step_ticks_spec m'.state.speed ∧
      m'.state.pc = 0 ∧
      vm.score m' = vm.score mid_game ∧
      m'.state.instruction = mid_game.state.instruction ∧ m'.disp = mid_game.disp :=
  ⟨by decide, steer_event_crash_contract mid_game 0 (by decide)⟩

/-- Counterexample for claim C2: after `reset(0)` and one `tick_event()` the call
`steer_event()` returns with pc = 8, not 7 (score 1, speed 1, segment g on
the display). -/
theorem steer_at_first_branch_pc_not_7 :
    ∃ m, run 2 [.tick, .steer] (vm.reset 0 power_on) = .ret ([true], m) ∧
      m.state.pc = 8 ∧ ¬ m.state.pc = 7 ∧ vm.score m = 1 ∧ m.state.speed = 1 :=
  ⟨{ state := { score := 1, cars := 3, speed := 1, ticks := 25, pc := 8, instruction := 224 },
     disp := { inited := false, current_segs := 64, mux_count := 0, tcb_run := true,
               porta := 0, portb := 0 } }, by decide⟩

/-- Claim C2 as the code has it: after `reset(0)` and one `tick_event()` the fetched
instruction is instruction 0 (`next_pc` = 7); `state.steer()` then sets pc to
7, and `steer_event()`, which goes on to execute instruction 7 at once,
returns true with pc = 8, instruction 7 fetched and its segment g on the
display, the score one higher (1) and the speed one higher (1). -/
theorem steer_at_first_branch (m0 : Machine) (fuel : Nat) :
    ∃ m1, vm.tick_event (fuel + 2) (vm.reset 0 m0) = .ret m1 ∧
      m1.state.instruction = program_at 0 ∧ get_next_pc m1.state.instruction = 7 ∧
      (∃ s, m1.state.steer = some (.vm_exec, s) ∧ s.pc = 7) ∧
      ∃ m2, vm.steer_event (fuel + 2) m1 = .ret (true, m2) ∧
        m2.state.pc = 8 ∧ m2.state.instruction = program_at 7 ∧
        m2.disp.current_segs = display.segment.g ∧
        vm.score m2 = vm.score m1 + 1 ∧ vm.score m2 = 1 ∧
        m2.state.speed = m1.state.speed + 1 ∧ m2.state.speed = 1 ∧
        vm.wait_ticks m2 = step_ticks_spec 1 ∧
        vm.remaining_cars m2 = 3 := by
  have hpc : (vm.reset 0 m0).state.pc < 27 := by
    simp [vm.reset, State.reset, update_ticks_eq]
  have e0 : pause_index 0 = 0 := by decide
  have e7 : pause_index 7 = 7 := by decide
  have n7 : get_next_pc (program_at 0) = 7 := by decide
  have hst : (paused_at 0 (vm.reset 0 m0)).state.instruction = program_at 0 := rfl
  refine ⟨paused_at 0 (vm.reset 0 m0), ?_, rfl, n7, ?_, ?_⟩
  · rw [tick_event_paused _ hpc]
    simp [vm.reset, State.reset, update_ticks_eq, e0]
  · refine ⟨branched (paused_at 0 (vm.reset 0 m0)).state, ?_, ?_⟩
    · exact steer_branch _ (by rw [hst, n7]; decide) (by rw [hst, n7]; decide)
    · rw [branched_pc, hst, n7]
  · refine ⟨_, steer_event_branch _ fuel (by rw [hst, n7]; decide) (by rw [hst, n7]; decide),
      ?_⟩
    have g7 : opcode_segment (get_opcode (program_at 7)) = display.segment.g := by decide
    rw [hst, n7, e7]
    simp [paused_at, branched, update_speed_eq, vm.reset, State.reset, update_ticks_eq,
      vm.score, vm.wait_ticks, vm.remaining_cars, show_segments_current_segs, g7]
    decide

/-- Claim C3: after `reset(0)`, the k-th `tick_event()` in a row (k >= 1, no steer in
between) returns having executed instruction (k-1) mod 6 of the sample
program: that instruction is the fetched one, its segment (b, c, d, e, f, a,
then b again, ...) is the mask given to the display, whose multiplexer runs,
and pc is (k-1) mod 6 + 1. Every sixth tick leaves pc on the jump at index 6,
and the tick after it shows b: the jump takes no tick of its own. -/
theorem ticks_cycle_main_loop (m0 : Machine) (fuel k : Nat) (hk : 1 ≤ k) :
    ∃ m, run (fuel + 2) (List.replicate k .tick) (vm.reset 0 m0) = .ret ([], m) ∧
      m.state.instruction = program_at ((k - 1) % 6) ∧
      m.disp.current_segs =
        [display.segment.b, display.segment.c, display.segment.d, display.segment.e,
         display.segment.f, display.segment.a].getD ((k - 1) % 6) 0 ∧
      m.disp.current_segs = opcode_segment (get_opcode (program_at ((k - 1) % 6))) ∧
      m.disp.tcb_run = true ∧
      m.state.pc = (k - 1) % 6 + 1 ∧
      (k % 6 = 0 → m.state.pc = 6 ∧ get_opcode (program_at 6) = op_jump ∧
        get_next_pc (program_at 6) = 0) := by
  obtain ⟨n, rfl⟩ : ∃ n, k = n + 1 := ⟨k - 1, by omega⟩
  clear hk
  simp only [Nat.add_sub_cancel]
  induction n with
  | zero =>
    have hpc : (vm.reset 0 m0).state.pc < 27 := by
      simp [vm.reset, State.reset, update_ticks_eq]
    have e0 : pause_index 0 = 0 := by decide
    obtain ⟨_, h2, _, h3⟩ := pause_index_main_loop 0 (by decide)
    refine ⟨paused_at 0 (vm.reset 0 m0), ?_, rfl, ?_, ?_, ?_, rfl, ?_⟩
    · rw [List.replicate_one, run_tick _ _ _ _ (tick_event_paused _ hpc fuel)]
      simp [vm.reset, State.reset, update_ticks_eq, e0, run]
    · simp only [paused_at, show_segments_current_segs]
      exact h3
    · simp only [paused_at, show_segments_current_segs]
      decide
    · simp only [paused_at, show_segments_run]
      exact decide_eq_true h2
    · intro h
      omega
  | succ n ih =>
    obtain ⟨m, hr, hi, hs, hs', hrun, hpc, _⟩ := ih
    have hlt : n % 6 < 6 := Nat.mod_lt _ (by decide)
    obtain ⟨h1, _, _, _⟩ := pause_index_main_loop (n % 6) hlt
    have hlt' : (n + 1) % 6 < 6 := Nat.mod_lt _ (by decide)
    obtain ⟨_, h2, h4, h3⟩ := pause_index_main_loop ((n + 1) % 6) hlt'
    have hidx : pause_index m.state.pc = (n + 1) % 6 := by
      rw [hpc, h1]
      omega
    have ht := tick_event_paused m (by omega) fuel
    rw [hidx] at ht
    refine ⟨paused_at ((n + 1) % 6) m, ?_, rfl, ?_, ?_, ?_, rfl, ?_⟩
    · rw [List.replicate_succ']
      have := run_append (fuel + 2) (List.replicate (n + 1) .tick) [.tick] _ m
        (paused_at ((n + 1) % 6) m) [] [] hr
        (by rw [run_tick _ _ _ _ ht]; rfl)
      simpa using this
    · simp only [paused_at, show_segments_current_segs]
      exact h3
    · simp only [paused_at, show_segments_current_segs]
      exact Nat.mod_eq_of_lt h4
    · simp only [paused_at, show_segments_run]
      exact decide_eq_true h2
    · intro h
      exact ⟨by simp only [paused_at]; omega, by decide, by decide⟩

/-- Witness for claim C3: the seventh tick after `reset(0)` on the power-on
machine. -/
theorem ticks_cycle_main_loop_witness :
    1 ≤ 7 ∧
    ∃ m, run (0 + 2) (List.replicate 7 .tick) (vm.reset 0 power_on) = .ret ([], m) ∧
      m.state.instruction = program_at ((7 - 1) % 6) ∧
      m.disp.current_segs =
        [display.segment.b, display.segment.c, display.segment.d, display.segment.e,
         display.segment.f, display.segment.a].getD ((7 - 1) % 6) 0 ∧
      m.disp.current_segs = opcode_segment (get_opcode (program_at ((7 - 1) % 6))) ∧
      m.disp.tcb_run = true ∧
      m.state.pc = (7 - 1) % 6 + 1 ∧
      (7 % 6 = 0 → m.state.pc = 6 ∧ get_opcode (program_at 6) = op_jump ∧
        get_next_pc (program_at 6) = 0) :=
  ⟨by decide, ticks_cycle_main_loop power_on 0 7 (by decide)⟩

/-- Claim C4: for every start_speed in 0..255 and every prior machine,
`reset(start_speed)` leaves score 0, three cars, speed start_speed, the
step-ticks of start_speed and pc 0; it does not fetch, the fetched instruction
is the one from before the call (and the display is not touched). -/
theorem reset_contract (m : Machine) (start_speed : Nat) (h : start_speed < 256) :
    vm.reset start_speed m =
      { state := { score := 0, cars := 3, speed := start_speed,
                   ticks := step_ticks_spec start_speed, pc := 0,
                   instruction := m.state.instruction },
        disp := m.disp } ∧
    vm.score (vm.reset start_speed m) = 0 ∧
    vm.remaining_cars (vm.reset start_speed m) = 3 ∧
    (vm.reset start_speed m).state.speed = start_speed ∧
    vm.wait_ticks (vm.reset start_speed m) = step_ticks_spec start_speed ∧
    (vm.reset start_speed m).state.pc = 0 ∧
    (vm.reset start_speed m).state.instruction = m.state.instruction ∧
    vm.wait_ticks (vm.reset start_speed m) < 256 := by
  have e : vm.reset start_speed m =
      { state := { score := 0, cars := 3, speed := start_speed,
                   ticks := step_ticks_spec start_speed, pc := 0,
                   instruction := m.state.instruction },
        disp := m.disp } := by
    simp [vm.reset, State.reset, update_ticks_eq]
  rw [e]
  refine ⟨rfl, rfl, rfl, rfl, rfl, rfl, rfl, ?_⟩
  simp only [vm.wait_ticks, step_ticks_spec]
  split_ifs <;> omega

/-- Witness for claim C4: `reset(50)`, the call of the demo loop, on a machine that
holds a stale instruction. -/
theorem reset_contract_witness :
    50 < 256 ∧
    (vm.reset 50 mid_game =
      { state := { score := 0, cars := 3, speed := 50,
                   ticks := step_ticks_spec 50, pc := 0,
                   instruction := mid_game.state.instruction },
        disp := mid_game.disp } ∧
    vm.score (vm.reset 50 mid_game) = 0 ∧
    vm.remaining_cars (vm.reset 50 mid_game) = 3 ∧
    (vm.reset 50 mid_game).state.speed = 50 ∧
    vm.wait_ticks (vm.reset 50 mid_game) = step_ticks_spec 50 ∧
    (vm.reset 50 mid_game).state.pc = 0 ∧
    (vm.reset 50 mid_game).state.instruction = mid_game.state.instruction ∧
    vm.wait_ticks (vm.reset 50 mid_game) < 256) :=
  ⟨by decide, reset_contract mid_game 50 (by decide)⟩

/-- Claim C5: `game_over()` is true exactly when no car is left. For every call
sequence made after a reset (of a reachable machine) all calls return,
`remaining_cars()` is 3 minus the number of `steer_event` calls that returned
false, floored at 0, and `game_over()` is true iff at least 3 of them returned
false. -/
theorem game_over_after_three_crashes (m0 : Machine) (h : Reachable m0)
    (start_speed fuel : Nat) (evs : List Event) :
    ∃ log m, run (fuel + 2) evs (vm.reset start_speed m0) = .ret (log, m) ∧
      log.length = evs.count .steer ∧
      (vm.game_over m = true ↔ vm.remaining_cars m = 0) ∧
      vm.remaining_cars m = 3 - log.count false ∧
      (vm.game_over m = true ↔ 3 ≤ log.count false) := by
  have hin := reset_inside m0 start_speed ((inside_iff m0).1 (reachable_inside m0 h)).2
  obtain ⟨log, m, hr, _, hlen, hc, _⟩ := run_returns evs (vm.reset start_speed m0) fuel hin
  have hc3 : m.state.cars = 3 - log.count false := by
    rw [hc]
    simp [vm.reset, State.reset, update_ticks_eq]
  refine ⟨log, m, hr, hlen, ?_, hc3, ?_⟩
  · simp [vm.game_over, vm.remaining_cars]
  · simp only [vm.game_over, beq_iff_eq, hc3]
    omega

/-- Witness for claim C5: from power-on, `reset(0)`, then a steer on the stale
instruction, a tick, and two more steers. -/
theorem game_over_after_three_crashes_witness :
    Reachable power_on ∧
    ∃ log m, run (0 + 2) [.steer, .tick, .steer, .tick, .tick, .steer]
        (vm.reset 0 power_on) = .ret (log, m) ∧
      log.length = [Event.steer, .tick, .steer, .tick, .tick, .steer].count .steer ∧
      (vm.game_over m = true ↔ vm.remaining_cars m = 0) ∧
      vm.remaining_cars m = 3 - log.count false ∧
      (vm.game_over m = true ↔ 3 ≤ log.count false) :=
  ⟨Reachable.boot power_on.disp,
    game_over_after_three_crashes power_on (Reachable.boot power_on.disp) 0 0 _⟩

/-- Claim C6: `may_steer_safely()` is true iff the fetched instruction has a non-zero
`next_pc`, and in every reachable machine the `steer_event()` that follows
returns, with the value `may_steer_safely()` had: true (no car lost, score one
higher modulo 65536) iff it was true, false (a car lost unless none was left)
iff it was false. -/
theorem may_steer_safely_predicts_steer (m : Machine) (h : Reachable m) (fuel : Nat) :
    (vm.may_steer_safely m = true ↔ get_next_pc m.state.instruction ≠ 0) ∧
    ∃ b m', vm.steer_event (fuel + 2) m = .ret (b, m') ∧
      (b = true ↔ vm.may_steer_safely m = true) ∧
      (b = false ↔ vm.may_steer_safely m = false) ∧
      (b = true → vm.remaining_cars m' = vm.remaining_cars m ∧
        vm.score m' = (vm.score m + 1) % 65536) ∧
      (b = false → vm.remaining_cars m' = vm.remaining_cars m - 1 ∧
        vm.score m' = vm.score m) := by
  have hi := (inside_iff m).1 (reachable_inside m h)
  have hms : vm.may_steer_safely m = true ↔ get_next_pc m.state.instruction ≠ 0 := by
    simp [vm.may_steer_safely]
  refine ⟨hms, ?_⟩
  by_cases h0 : get_next_pc m.state.instruction = 0
  · have hf : vm.may_steer_safely m = false := by simp [vm.may_steer_safely, h0]
    refine ⟨false, _, steer_event_crash m _ h0, by simp [hf], by simp [hf], by simp, ?_⟩
    intro _
    simp only [vm.remaining_cars, vm.score, crashed]
    refine ⟨?_, trivial⟩
    split_ifs <;> omega
  · have ht : vm.may_steer_safely m = true := hms.2 h0
    refine ⟨true, _, steer_event_branch m fuel h0 hi.2, by simp [ht], by simp [ht], ?_, by simp⟩
    intro _
    simp [vm.remaining_cars, vm.score, paused_at, branched, (update_speed_frame _).2.1,
      (update_speed_frame _).2.2.1]

/-- Witness for claim C6: the machine paused on instruction 0 after `reset(0)` and
one tick. -/
theorem may_steer_safely_predicts_steer_witness :
    Reachable first_pause ∧
    ((vm.may_steer_safely first_pause = true ↔ get_next_pc first_pause.state.instruction ≠ 0) ∧
    ∃ b m', vm.steer_event (0 + 2) first_pause = .ret (b, m') ∧
      (b = true ↔ vm.may_steer_safely first_pause = true) ∧
      (b = false ↔ vm.may_steer_safely first_pause = false) ∧
      (b = true → vm.remaining_cars m' = vm.remaining_cars first_pause ∧
        vm.score m' = (vm.score first_pause + 1) % 65536) ∧
      (b = false → vm.remaining_cars m' = vm.remaining_cars first_pause - 1 ∧
        vm.score m' = vm.score first_pause)) :=
  ⟨first_pause_reachable, may_steer_safely_predicts_steer first_pause first_pause_reachable 0⟩

/-- Claim C7: after `reset(s)`, s in 0..255, `wait_ticks()` is the step-tick function
of s, and after every call sequence that follows (all calls return)
`wait_ticks()` is the step-tick function of the current speed: 25 - speed/4
below 80, 10 - speed/16 from 80 to 127, and 2 from 128 on. -/
theorem wait_ticks_follows_speed (m0 : Machine) (h : Reachable m0) (s : Nat) (hs : s < 256)
    (fuel : Nat) (evs : List Event) :
    vm.wait_ticks (vm.reset s m0) = step_ticks_spec s ∧
    ∃ log m, run (fuel + 2) evs (vm.reset s m0) = .ret (log, m) ∧
      m.state.speed < 256 ∧
      vm.wait_ticks m = step_ticks_spec m.state.speed ∧
      vm.wait_ticks m =
        (if m.state.speed < 80 then 25 - m.state.speed / 4
         else if m.state.speed < 128 then 10 - m.state.speed / 16
         else 2) := by
  have hin := reset_inside m0 s ((inside_iff m0).1 (reachable_inside m0 h)).2
  have h0 : (vm.reset s m0).state.ticks = step_ticks_spec (vm.reset s m0).state.speed := by
    simp [vm.reset, State.reset, update_ticks_eq]
  have h1 : (vm.reset s m0).state.speed = s := by
    simp [vm.reset, State.reset, update_ticks_eq]
  obtain ⟨log, m, hr, _, _, _, _, _, htk, hsp, _⟩ := run_returns evs (vm.reset s m0) fuel hin
  refine ⟨by rw [vm.wait_ticks, h0, h1], log, m, hr, hsp (by rw [h1]; exact hs), htk h0, ?_⟩
  rw [vm.wait_ticks, htk h0]
  rfl

/-- Witness for claim C7: `reset(50)` from power-on, then ticks and steers. -/
theorem wait_ticks_follows_speed_witness :
    Reachable power_on ∧ 50 < 256 ∧
    (vm.wait_ticks (vm.reset 50 power_on) = step_ticks_spec 50 ∧
    ∃ log m, run (0 + 2) [.tick, .steer, .tick, .steer] (vm.reset 50 power_on) = .ret (log, m) ∧
      m.state.speed < 256 ∧
      vm.wait_ticks m = step_ticks_spec m.state.speed ∧
      vm.wait_ticks m =
        (if m.state.speed < 80 then 25 - m.state.speed / 4
         else if m.state.speed < 128 then 10 - m.state.speed / 16
         else 2)) :=
  ⟨Reachable.boot power_on.disp, by decide,
    wait_ticks_follows_speed power_on (Reachable.boot power_on.disp) 50 (by decide) 0 _⟩

/-- Claim C8: for all speeds s1 <= s2 in 0..255 the step-tick value `update_ticks`
computes for s2 is at most the one it computes for s1, and every value it
computes lies between 2 and 25. -/
theorem update_ticks_monotone (st : State) (s1 s2 : Nat) (h12 : s1 ≤ s2) (h2 : s2 < 256) :
    ({ st with speed := s2 }).update_ticks.ticks ≤ ({ st with speed := s1 }).update_ticks.ticks ∧
    2 ≤ ({ st with speed := s1 }).update_ticks.ticks ∧
    ({ st with speed := s1 }).update_ticks.ticks ≤ 25 ∧
    2 ≤ ({ st with speed := s2 }).update_ticks.ticks ∧
    ({ st with speed := s2 }).update_ticks.ticks ≤ 25 := by
  simp only [update_ticks_eq, step_ticks_spec]
  refine ⟨?_, ?_, ?_, ?_, ?_⟩ <;> split_ifs <;> omega

/-- Witness for claim C8: speeds 79 and 80, across the first tier boundary. -/
theorem update_ticks_monotone_witness :
    79 ≤ 80 ∧ 80 < 256 ∧
    (({ State.zero with speed := 80 }).update_ticks.ticks ≤
      ({ State.zero with speed := 79 }).update_ticks.ticks ∧
    2 ≤ ({ State.zero with speed := 79 }).update_ticks.ticks ∧
    ({ State.zero with speed := 79 }).update_ticks.ticks ≤ 25 ∧
    2 ≤ ({ State.zero with speed := 80 }).update_ticks.ticks ∧
    ({ State.zero with speed := 80 }).update_ticks.ticks ≤ 25) :=
  ⟨by decide, by decide, update_ticks_monotone State.zero 79 80 (by decide) (by decide)⟩

/-- Counterexample for claim C9: one tick and 32768 laps after `reset(0)` make 65536
`steer_event` calls that all return true, and `score()` is 0 afterwards. -/
theorem score_wraps_after_65536_steers :
    ∃ log m, run 2 (.tick :: laps 32768) (vm.reset 0 power_on) = .ret (log, m) ∧
      log.count true = 65536 ∧ vm.score m = 0 ∧ vm.score m ≠ log.count true := by
  have ht : vm.tick_event 2 (vm.reset 0 power_on) = .ret (paused_at 0 (vm.reset 0 power_on)) :=
    tick_step _ 0 0 0 rfl (by decide) (by decide)
  obtain ⟨m, hr, _, _⟩ := laps_run 32768 (paused_at 0 (vm.reset 0 power_on)) 0
    rfl
  have hrun : run 2 (.tick :: laps 32768) (vm.reset 0 power_on)
      = .ret (List.replicate (2 * 32768) true, m) := by
    rw [run_tick _ _ _ _ ht]
    exact hr
  obtain ⟨log', m', hr', _, _, _, hs, hb, _⟩ :=
    run_returns (.tick :: laps 32768) (vm.reset 0 power_on) 0
      ((inside_iff _).2 ⟨by decide, by decide⟩)
  have e : (List.replicate (2 * 32768) true, m) = (log', m') :=
    Outcome.ret.inj (hrun.symm.trans hr')
  obtain ⟨rfl, rfl⟩ := Prod.mk.inj e
  have hcount : (List.replicate (2 * 32768) true).count true = 65536 := by
    rw [List.count_replicate_self]
  have h0 : (vm.reset 0 power_on).state.score = 0 := rfl
  rw [hcount, h0] at hs
  have hlt := hb (by rw [h0]; decide)
  have hz : vm.score m = 0 := by
    unfold vm.score
    omega
  exact ⟨_, m, hrun, hcount, hz, by rw [hz, hcount]; decide⟩

/-- Claim C9 as the code has it: for every call sequence made after a reset (of a
reachable machine) all calls return and `score()` equals the number of
`steer_event` calls that returned true modulo 65536 (the score is a uint16_t);
below 65536 successful steers it is their exact number. -/
theorem score_counts_successful_steers (m0 : Machine) (h : Reachable m0)
    (start_speed fuel : Nat) (evs : List Event) :
    ∃ log m, run (fuel + 2) evs (vm.reset start_speed m0) = .ret (log, m) ∧
      log.length = evs.count .steer ∧
      vm.score m = log.count true % 65536 ∧
      (log.count true < 65536 → vm.score m = log.count true) := by
  have hin := reset_inside m0 start_speed ((inside_iff m0).1 (reachable_inside m0 h)).2
  obtain ⟨log, m, hr, _, hlen, _, hs, hb, _⟩ := run_returns evs (vm.reset start_speed m0) fuel hin
  have h0 : (vm.reset start_speed m0).state.score = 0 := by
    simp [vm.reset, State.reset, update_ticks_eq]
  rw [h0] at hs
  have hlt := hb (by rw [h0]; decide)
  have hsc : vm.score m = log.count true % 65536 := by
    unfold vm.score
    omega
  exact ⟨log, m, hr, hlen, hsc, fun hc => by rw [hsc]; exact Nat.mod_eq_of_lt hc⟩

/-- Witness for claim C9: a lap and a crash after `reset(0)` and one tick from
power-on. -/
theorem score_counts_successful_steers_witness :
    Reachable power_on ∧
    ∃ log m, run (0 + 2) (.tick :: (lap ++ [.tick, .steer])) (vm.reset 0 power_on)
        = .ret (log, m) ∧
      log.length = (Event.tick :: (lap ++ [.tick, .steer])).count .steer ∧
      vm.score m = log.count true % 65536 ∧
      (log.count true < 65536 → vm.score m = log.count true) :=
  ⟨Reachable.boot power_on.disp,
    score_counts_successful_steers power_on (Reachable.boot power_on.disp) 0 0 _⟩

/-- Counterexample for claim C10: the reachable machine `full_score` (speed 255, score
65535, a branch under the fetched instruction): `steer_event()` returns true
with speed 255 and `wait_ticks()` = 2, and the score is 0 afterwards, not
65536. -/
theorem steer_at_full_score_wraps :
    Reachable full_score ∧ full_score.state.speed = 255 ∧
    get_next_pc full_score.state.instruction ≠ 0 ∧
    ∃ m', vm.steer_event 2 full_score = .ret (true, m') ∧
      m'.state.speed = 255 ∧ vm.wait_ticks m' = 2 ∧
      vm.score full_score = 65535 ∧ vm.score m' = 0 ∧
      vm.score m' ≠ vm.score full_score + 1 :=
  ⟨full_score_reachable, by decide, by decide,
    { state := { score := 0, cars := 3, speed := 255, ticks := 2, pc := 18, instruction := 224 },
      disp := { inited := false, current_segs := 64, mux_count := 0, tcb_run := true,
                porta := 0, portb := 0 } },
    by decide⟩

/-- Claim C10 as the code has it: in every reachable machine whose fetched
instruction has a non-zero `next_pc`, `steer_event()` returns true; with speed
below 255 the speed is one higher and the step-ticks are those of the new
speed; with speed 255 the speed stays 255 and `wait_ticks()` is 2 (no wrap to
0); in both cases the score is one higher modulo 65536: it is the old score
plus 1 below 65535 and 0 after 65535. -/
theorem steer_speed_saturates (m : Machine) (h : Reachable m)
    (h0 : get_next_pc m.state.instruction ≠ 0) (fuel : Nat) :
    ∃ m', vm.steer_event (fuel + 2) m = .ret (true, m') ∧
      (m.state.speed < 255 → m'.state.speed = m.state.speed + 1 ∧
        vm.wait_ticks m' = step_ticks_spec (m.state.speed + 1)) ∧
      (m.state.speed = 255 → m'.state.speed = 255 ∧ vm.wait_ticks m' = 2) ∧
      vm.score m' = (vm.score m + 1) % 65536 ∧
      (vm.score m < 65535 → vm.score m' = vm.score m + 1) ∧
      (vm.score m = 65535 → vm.score m' = 0) := by
  have hi := (inside_iff m).1 (reachable_inside m h)
  obtain ⟨hsp, htk⟩ := reachable_ticks m h
  refine ⟨_, steer_event_branch m fuel h0 hi.2, ?_, ?_, ?_, ?_, ?_⟩
  · intro hlt
    simp only [vm.wait_ticks, paused_at, branched, update_speed_eq]
    have e : (m.state.speed + 1) % 256 = m.state.speed + 1 := Nat.mod_eq_of_lt (by omega)
    rw [if_neg (show ¬ m.state.speed = 255 by omega), e]
    exact ⟨rfl, rfl⟩
  · intro h255
    simp only [vm.wait_ticks, paused_at, branched, update_speed_eq]
    rw [if_pos h255]
    refine ⟨h255, ?_⟩
    show m.state.ticks = 2
    rw [htk (by omega), h255]
    decide
  · simp [vm.score, paused_at, branched, (update_speed_frame _).2.1]
  · intro hlt
    simp only [vm.score, paused_at, branched, (update_speed_frame _).2.1] at hlt ⊢
    omega
  · intro hlt
    simp only [vm.score, paused_at, branched, (update_speed_frame _).2.1] at hlt ⊢
    omega

/-- Witness for claim C10: the machine paused on instruction 0 after `reset(0)` and
one tick. -/
theorem steer_speed_saturates_witness :
    Reachable first_pause ∧
    get_next_pc first_pause.state.instruction ≠ 0 ∧
    ∃ m', vm.steer_event (0 + 2) first_pause = .ret (true, m') ∧
      (first_pause.state.speed < 255 → m'.state.speed = first_pause.state.speed + 1 ∧
        vm.wait_ticks m' = step_ticks_spec (first_pause.state.speed + 1)) ∧
      (first_pause.state.speed = 255 → m'.state.speed = 255 ∧ vm.wait_ticks m' = 2) ∧
      vm.score m' = (vm.score first_pause + 1) % 65536 ∧
      (vm.score first_pause < 65535 → vm.score m' = vm.score first_pause + 1) ∧
      (vm.score first_pause = 65535 → vm.score m' = 0) :=
  ⟨first_pause_reachable, by decide,
    steer_speed_saturates first_pause first_pause_reachable (by decide) 0⟩

/-! ## Lemmas on the timer -/

theorem timer_after_ticks_enable (s : Timer) (n : Nat) (hn : n < 256) (k : Nat) :
    (timer.after_ticks k (timer.enable n s)).compare_enabled = true ∧
    (timer.after_ticks k (timer.enable n s)).compare_ticks = (n + s.elapsed_ticks) % 256 ∧
    (timer.after_ticks k (timer.enable n s)).elapsed_ticks % 256 = (s.elapsed_ticks + k) % 256 ∧
    (timer.after_ticks k (timer.enable n s)).compare_triggered = decide (timer.deadline n ≤ k) := by
  induction k with
  | zero =>
    refine ⟨rfl, rfl, rfl, ?_⟩
    have : ¬ timer.deadline n ≤ 0 := by
      unfold timer.deadline
      split_ifs <;> omega
    simp [timer.after_ticks, timer.enable, timer.enable_ticks_irq, timer.disable_ticks_irq, this]
  | succ k ih =>
    obtain ⟨h1, h2, h3, h4⟩ := ih
    simp only [timer.after_ticks, timer.RTC_CNT_vect]
    split_ifs with heq
    · refine ⟨h1, h2, ?_, ?_⟩
      · simp only []
        omega
      · simp only [] at heq
        rw [h2] at heq
        simp only [true_eq_decide_iff]
        unfold timer.deadline
        split_ifs <;> omega
    · refine ⟨h1, h2, ?_, ?_⟩
      · simp only []
        omega
      · simp only [] at heq ⊢
        rw [h2] at heq
        rw [h4]
        unfold timer.deadline at *
        by_cases hd : (if n = 0 then 256 else n) ≤ k
        · rw [decide_eq_true hd, decide_eq_true (by omega)]
        · rw [decide_eq_false hd, decide_eq_false]
          split_ifs at hd ⊢ <;> omega

theorem timer_disabled_stays (evs : List timer.TimerEvent) :
    ∀ s : Timer, evs.any timer.TimerEvent.is_enable = false → s.compare_enabled = false →
      (timer.after_events evs s).compare_enabled = false := by
  induction evs with
  | nil => intro s _ h; exact h
  | cons e es ih =>
    intro s hev h
    simp only [List.any_cons, Bool.or_eq_false_iff] at hev
    apply ih _ hev.2
    cases e with
    | tick_irq =>
      simp only [timer.step, timer.RTC_CNT_vect]
      split_ifs <;> exact h
    | sec_irq => exact h
    | reset => rfl
    | seconds => exact h
    | enable n => simp [timer.TimerEvent.is_enable] at hev
    | disable => rfl

/-! ## Clock service: the deadline -/

set_option maxRecDepth 100000 in
/-- Counterexample for claim C11: `enable(0)` at power-on (tick 0). The counter
is at t+n already, yet `elapsed()` is false right after the call, still false
after 255 tick interrupts, and true only after the 256th. -/
theorem enable_zero_elapses_after_wrap :
    timer.elapsed (timer.after_ticks 0 (timer.enable 0 timer.power_on)) = false ∧
    timer.elapsed (timer.after_ticks 1 (timer.enable 0 timer.power_on)) = false ∧
    timer.elapsed (timer.after_ticks 255 (timer.enable 0 timer.power_on)) = false ∧
    timer.elapsed (timer.after_ticks 256 (timer.enable 0 timer.power_on)) = true := by
  decide

/-- Claim C11 as the code has it: for all n in 1..255 and every tick value t,
after `enable(n)` at tick t and k tick interrupts, `elapsed()` is false for
k < n and true for every k >= n, also after the counter has wrapped; for n = 0
the target is the current tick value, which the handler (it compares after
the increment) meets only at the 256th interrupt: `elapsed()` is false for
k < 256 and true for every k >= 256. The counter is at t+k (mod 256). -/
theorem elapsed_after_enable (s : Timer) (n : Nat) (hn : n < 256) (k : Nat) :
    timer.elapsed (timer.after_ticks k (timer.enable n s)) = decide (timer.deadline n ≤ k) ∧
    (1 ≤ n → k < n → timer.elapsed (timer.after_ticks k (timer.enable n s)) = false) ∧
    (1 ≤ n → n ≤ k → timer.elapsed (timer.after_ticks k (timer.enable n s)) = true) ∧
    (n = 0 → k < 256 → timer.elapsed (timer.after_ticks k (timer.enable n s)) = false) ∧
    (n = 0 → 256 ≤ k → timer.elapsed (timer.after_ticks k (timer.enable n s)) = true) ∧
    timer.ticks (timer.after_ticks k (timer.enable n s)) % 256 = (timer.ticks s + k) % 256 := by
  obtain ⟨h1, _, h3, h4⟩ := timer_after_ticks_enable s n hn k
  have he : timer.elapsed (timer.after_ticks k (timer.enable n s))
      = decide (timer.deadline n ≤ k) := by
    simp only [timer.elapsed, h1, h4, Bool.true_and]
  refine ⟨he, ?_, ?_, ?_, ?_, h3⟩ <;> intro h0 hk <;> rw [he] <;>
    simp only [timer.deadline, decide_eq_true_eq, decide_eq_false_iff_not] <;>
    split_ifs <;> omega

/-- Witness for claim C11: `enable(15)`, the call of the timer test, at tick 250
and 21 tick interrupts, across the wrap of the counter. -/
theorem elapsed_after_enable_witness :
    15 < 256 ∧
    (timer.elapsed (timer.after_ticks 21 (timer.enable 15
        { timer.power_on with elapsed_ticks := 250 })) = decide (timer.deadline 15 ≤ 21) ∧
    (1 ≤ 15 → 21 < 15 → timer.elapsed (timer.after_ticks 21 (timer.enable 15
        { timer.power_on with elapsed_ticks := 250 })) = false) ∧
    (1 ≤ 15 → 15 ≤ 21 → timer.elapsed (timer.after_ticks 21 (timer.enable 15
        { timer.power_on with elapsed_ticks := 250 })) = true) ∧
    (15 = 0 → 21 < 256 → timer.elapsed (timer.after_ticks 21 (timer.enable 15
        { timer.power_on with elapsed_ticks := 250 })) = false) ∧
    (15 = 0 → 256 ≤ 21 → timer.elapsed (timer.after_ticks 21 (timer.enable 15
        { timer.power_on with elapsed_ticks := 250 })) = true) ∧
    timer.ticks (timer.after_ticks 21 (timer.enable 15
        { timer.power_on with elapsed_ticks := 250 })) % 256 =
      (timer.ticks { timer.power_on with elapsed_ticks := 250 } + 21) % 256) :=
  ⟨by decide, elapsed_after_enable _ 15 (by decide) 21⟩

set_option maxRecDepth 100000 in
/-- Counterexample for claim C12: after `enable(0)` at power-on and one tick
interrupt `remaining_ticks()` is 255, not 0; it then counts down and is 0
from the 256th interrupt on. -/
theorem enable_zero_remaining_255 :
    timer.remaining_ticks (timer.after_ticks 0 (timer.enable 0 timer.power_on)) = 0 ∧
    timer.remaining_ticks (timer.after_ticks 1 (timer.enable 0 timer.power_on)) = 255 ∧
    ¬ timer.remaining_ticks (timer.after_ticks 1 (timer.enable 0 timer.power_on)) = 0 ∧
    timer.remaining_ticks (timer.after_ticks 255 (timer.enable 0 timer.power_on)) = 1 ∧
    timer.remaining_ticks (timer.after_ticks 256 (timer.enable 0 timer.power_on)) = 0 := by
  decide

/-- Claim C12 as the code has it: for all n in 1..255, after `enable(n)` and k
tick interrupts `remaining_ticks()` is n - k for every k < n and 0 for every
k >= n; for n = 0 it is 0 right after the call, 256 - k after k = 1..255
interrupts and 0 from the 256th on. -/
theorem remaining_ticks_after_enable (s : Timer) (n : Nat) (hn : n < 256) (k : Nat) :
    (1 ≤ n → k < n → timer.remaining_ticks (timer.after_ticks k (timer.enable n s)) = n - k) ∧
    (1 ≤ n → n ≤ k → timer.remaining_ticks (timer.after_ticks k (timer.enable n s)) = 0) ∧
    (n = 0 → k = 0 → timer.remaining_ticks (timer.after_ticks k (timer.enable n s)) = 0) ∧
    (n = 0 → 0 < k → k < 256 →
      timer.remaining_ticks (timer.after_ticks k (timer.enable n s)) = 256 - k) ∧
    (n = 0 → 256 ≤ k → timer.remaining_ticks (timer.after_ticks k (timer.enable n s)) = 0) := by
  obtain ⟨h1, h2, h3, h4⟩ := timer_after_ticks_enable s n hn k
  have hr : timer.remaining_ticks (timer.after_ticks k (timer.enable n s)) =
      if timer.deadline n ≤ k then 0
      else ((((n + s.elapsed_ticks) % 256 : Nat) : Int) -
        ((timer.after_ticks k (timer.enable n s)).elapsed_ticks : Int)) % 256 |>.toNat := by
    simp only [timer.remaining_ticks, h1, h2, h4]
    by_cases hd : timer.deadline n ≤ k <;> simp [hd]
  rw [hr]
  have hpos : ∀ h : 1 ≤ n, timer.deadline n = n := fun h => by
    unfold timer.deadline
    rw [if_neg (by omega)]
  have hzero : ∀ h : n = 0, timer.deadline n = 256 := fun h => by
    unfold timer.deadline
    rw [if_pos h]
  refine ⟨?_, ?_, ?_, ?_, ?_⟩
  · intro h0 hk
    rw [hpos h0, if_neg (by omega)]
    omega
  · intro h0 hk
    rw [hpos h0, if_pos hk]
  · intro h0 hk
    rw [hzero h0, if_neg (by omega)]
    omega
  · intro h0 hk hk'
    rw [hzero h0, if_neg (by omega)]
    omega
  · intro h0 hk
    rw [hzero h0, if_pos hk]

/-- Witness for claim C12: `enable(15)` at tick 250 and 9 tick interrupts, across
the wrap of the counter. -/
theorem remaining_ticks_after_enable_witness :
    15 < 256 ∧
    ((1 ≤ 15 → 9 < 15 → timer.remaining_ticks (timer.after_ticks 9 (timer.enable 15
        { timer.power_on with elapsed_ticks := 250 })) = 15 - 9) ∧
    (1 ≤ 15 → 15 ≤ 9 → timer.remaining_ticks (timer.after_ticks 9 (timer.enable 15
        { timer.power_on with elapsed_ticks := 250 })) = 0) ∧
    (15 = 0 → 9 = 0 → timer.remaining_ticks (timer.after_ticks 9 (timer.enable 15
        { timer.power_on with elapsed_ticks := 250 })) = 0) ∧
    (15 = 0 → 0 < 9 → 9 < 256 → timer.remaining_ticks (timer.after_ticks 9 (timer.enable 15
        { timer.power_on with elapsed_ticks := 250 })) = 256 - 9) ∧
    (15 = 0 → 256 ≤ 9 → timer.remaining_ticks (timer.after_ticks 9 (timer.enable 15
        { timer.power_on with elapsed_ticks := 250 })) = 0)) :=
  ⟨by decide, remaining_ticks_after_enable _ 15 (by decide) 9⟩

/-- Claim C13: a disabled timer never elapses. `disable()` clears the armed flag
and nothing else (trigger flag, target tick and tick counter keep their
values); after it, whatever happens short of a call of `enable` (tick and
second interrupts, `reset`, `seconds`, further `disable` calls), `elapsed()`
is false and `remaining_ticks()` is 0. -/
theorem disabled_timer_never_elapses (s : Timer) (evs : List timer.TimerEvent)
    (h : evs.any timer.TimerEvent.is_enable = false) :
    timer.disable s = { s with compare_enabled := false } ∧
    (timer.disable s).compare_triggered = s.compare_triggered ∧
    (timer.disable s).compare_ticks = s.compare_ticks ∧
    timer.ticks (timer.disable s) = timer.ticks s ∧
    timer.elapsed (timer.after_events evs (timer.disable s)) = false ∧
    timer.remaining_ticks (timer.after_events evs (timer.disable s)) = 0 := by
  have hd := timer_disabled_stays evs (timer.disable s) h rfl
  refine ⟨rfl, rfl, rfl, rfl, ?_, ?_⟩
  · simp [timer.elapsed, hd]
  · simp [timer.remaining_ticks, hd]

/-- Witness for claim C13: a deadline of 3 ticks that has triggered, then
`disable()`, ticks, a second interrupt and a `seconds()` call. -/
theorem disabled_timer_never_elapses_witness :
    [timer.TimerEvent.tick_irq, .tick_irq, .sec_irq, .seconds, .tick_irq].any
      timer.TimerEvent.is_enable = false ∧
    (timer.disable (timer.after_ticks 3 (timer.enable 3 timer.power_on)) =
      { timer.after_ticks 3 (timer.enable 3 timer.power_on) with compare_enabled := false } ∧
    (timer.disable (timer.after_ticks 3 (timer.enable 3 timer.power_on))).compare_triggered =
      (timer.after_ticks 3 (timer.enable 3 timer.power_on)).compare_triggered ∧
    (timer.disable (timer.after_ticks 3 (timer.enable 3 timer.power_on))).compare_ticks =
      (timer.after_ticks 3 (timer.enable 3 timer.power_on)).compare_ticks ∧
    timer.ticks (timer.disable (timer.after_ticks 3 (timer.enable 3 timer.power_on))) =
      timer.ticks (timer.after_ticks 3 (timer.enable 3 timer.power_on)) ∧
    timer.elapsed (timer.after_events [.tick_irq, .tick_irq, .sec_irq, .seconds, .tick_irq]
      (timer.disable (timer.after_ticks 3 (timer.enable 3 timer.power_on)))) = false ∧
    timer.remaining_ticks (timer.after_events [.tick_irq, .tick_irq, .sec_irq, .seconds, .tick_irq]
      (timer.disable (timer.after_ticks 3 (timer.enable 3 timer.power_on)))) = 0) :=
  ⟨by decide, disabled_timer_never_elapses _ _ (by decide)⟩

/-- Claim C14: `timer::reset()` clears the timer state: for every prior state,
right after it `ticks()` is 0, `seconds()` is 0 and the timeout is canceled
(`elapsed()` is false and `remaining_ticks()` is 0). -/
theorem timer_reset_clears (s : Timer) :
    timer.ticks (timer.reset s) = 0 ∧
    (timer.seconds (timer.reset s)).1 = 0 ∧
    timer.elapsed (timer.reset s) = false ∧
    timer.remaining_ticks (timer.reset s) = 0 ∧
    (timer.reset s).compare_enabled = false :=
  ⟨rfl, rfl, rfl, rfl, rfl⟩

/-! ## Lemmas on the input service -/

theorem isr_disarms (k : Key) : key.irq_armed (key.PORTC_PORT_vect k) = false := by
  have h : (k.pin3ctrl &&& (0xFF ^^^ key.PORT_ISC_gm)) &&& key.PORT_ISC_gm = 0 := by
    rw [Nat.and_assoc]
    exact Nat.and_zero _
  simp [key.irq_armed, key.PORTC_PORT_vect, h]

theorem armed_values :
    (key.PORT_INVEN_bm ||| key.PORT_PULLUPEN_bm ||| key.PORT_ISC_FALLING_gc) &&& key.PORT_ISC_gm = 3 ∧
    (key.PORT_INVEN_bm ||| key.PORT_PULLUPEN_bm ||| key.PORT_ISC_RISING_gc) &&& key.PORT_ISC_gm = 2 ∧
    (key.PORT_INVEN_bm ||| key.PORT_PULLUPEN_bm) &&& key.PORT_ISC_gm = 0 := by
  decide

theorem enable_irq_arms (k : Key) : key.irq_armed (key.enable_irq k) = true := by
  unfold key.enable_irq key.irq_armed
  split_ifs
  · simp only [armed_values.1]
    rfl
  · simp only [armed_values.2.1]
    rfl

theorem cnt_vect_ticks (s : Timer) :
    (timer.RTC_CNT_vect s).elapsed_ticks = (s.elapsed_ticks + 1) % 256 := by
  unfold timer.RTC_CNT_vect
  simp only []
  split_ifs <;> rfl

theorem irq_armed_false_iff (k : Key) :
    key.irq_armed k = false ↔ k.pin3ctrl &&& key.PORT_ISC_gm = 0 := by
  simp [key.irq_armed]

/-- What `key::run` does while the edge interrupt is disarmed. -/
theorem run_disarmed (t : Timer) (k : Key) (h : key.irq_armed k = false) :
    key.run t k =
      if key.to_int8 (k.waiting_ticks -
          ((((t.elapsed_ticks : Int) - (k.last_ticks : Int)) % 256).toNat : Int)) > 0 then
        { k with last_ticks := t.elapsed_ticks,
                 waiting_ticks := key.to_int8 (k.waiting_ticks -
                   ((((t.elapsed_ticks : Int) - (k.last_ticks : Int)) % 256).toNat : Int)) }
      else
        { key.enable_irq { k with last_ticks := t.elapsed_ticks,
                                  waiting_ticks := key.to_int8 (k.waiting_ticks -
                   ((((t.elapsed_ticks : Int) - (k.last_ticks : Int)) % 256).toNat : Int)) } with
          waiting_ticks := key.DEBOUNCE_TICKS } := by
  have h0 := (irq_armed_false_iff k).1 h
  unfold key.run
  simp only [h0, ne_eq, not_true_eq_false, if_false, timer.ticks]

theorem irq_armed_congr (k k' : Key) (h : k.pin3ctrl = k'.pin3ctrl) :
    key.irq_armed k = key.irq_armed k' := by
  unfold key.irq_armed
  rw [h]

theorem init_arms (t : Timer) (k : Key) (h : ¬ k.inited = true) :
    key.irq_armed (key.init t k) = true := by
  unfold key.init
  rw [if_neg h]
  exact (irq_armed_congr _ _ rfl).trans (enable_irq_arms _)

/-- When the countdown of `key::run` has run out, the call arms the edge
interrupt. -/
theorem run_rearms (t : Timer) (k : Key) (h : key.irq_armed k = false)
    (hw : ¬ key.to_int8 (k.waiting_ticks -
          ((((t.elapsed_ticks : Int) - (k.last_ticks : Int)) % 256).toNat : Int)) > 0) :
    key.irq_armed (key.run t k) = true := by
  rw [run_disarmed t k h, if_neg hw]
  exact (irq_armed_congr _ _ rfl).trans (enable_irq_arms _)

/-- While fewer than two ticks are accounted for, no event other than
`key::init` arms the edge interrupt. -/
theorem debounce_holds (evs : List KeyEvent) :
    ∀ b : Board, KeyEvent.init ∉ evs → key.irq_armed b.key = false →
      b.key.waiting_ticks ≤ 2 →
      2 - b.key.waiting_ticks + (b.pending : Int) + (evs.count .tick_irq : Int) ≤ 1 →
      key.irq_armed (Board.after evs b).key = false := by
  induction evs with
  | nil => intro b _ h _ _; exact h
  | cons e es ih =>
    intro b hinit hd hw hq
    have hinit' : KeyEvent.init ∉ es := fun h => hinit (List.mem_cons_of_mem _ h)
    simp only [Board.after]
    cases e with
    | tick_irq =>
      simp only [List.count_cons_self, Nat.cast_add, Nat.cast_one] at hq
      refine ih (Board.step .tick_irq b).2 hinit' hd hw ?_
      simp only [Board.step, Board.pending, timer.ticks, cnt_vect_ticks] at hq ⊢
      omega
    | edge =>
      have : Board.step .edge b = (.done, b) := by simp [Board.step, hd]
      rw [this]
      rw [List.count_cons_of_ne (by decide)] at hq
      exact ih b hinit' hd hw hq
    | init => exact absurd (List.mem_cons_self _ _) hinit
    | run =>
      rw [List.count_cons_of_ne (by decide)] at hq
      simp only [Board.pending, timer.ticks] at hq
      have hid : key.to_int8 (b.key.waiting_ticks -
          ((((b.tmr.elapsed_ticks : Int) - (b.key.last_ticks : Int)) % 256).toNat : Int))
          = b.key.waiting_ticks -
          ((((b.tmr.elapsed_ticks : Int) - (b.key.last_ticks : Int)) % 256).toNat : Int) := by
        unfold key.to_int8
        omega
      simp only [Board.step, run_disarmed _ _ hd, hid]
      rw [if_pos (by omega)]
      refine ih _ hinit' hd ?_ ?_
      · simp only []
        omega
      · simp only [Board.pending, timer.ticks]
        omega
    | changed =>
      rw [List.count_cons_of_ne (by decide)] at hq
      exact ih _ hinit' hd hw hq
    | state =>
      rw [List.count_cons_of_ne (by decide)] at hq
      exact ih _ hinit' hd hw hq

/-- Whenever the edge interrupt is armed the debounce countdown is at its
initial value. -/
theorem armed_countdown (evs : List KeyEvent) :
    ∀ b : Board, (key.irq_armed b.key = true → b.key.waiting_ticks = 2) →
      key.irq_armed (Board.after evs b).key = true →
      (Board.after evs b).key.waiting_ticks = 2 := by
  induction evs with
  | nil => intro b h; exact h
  | cons e es ih =>
    intro b h
    simp only [Board.after]
    apply ih
    cases e with
    | tick_irq => exact h
    | edge =>
      simp only [Board.step]
      split_ifs with ha
      · intro h'
        rw [isr_disarms] at h'
        cases h'
      · exact h
    | init =>
      simp only [Board.step, key.init]
      split_ifs
      · exact h
      · intro _
        rfl
    | run =>
      simp only [Board.step]
      by_cases ha : key.irq_armed b.key = true
      · intro _
        have : b.key.pin3ctrl &&& key.PORT_ISC_gm ≠ 0 := by simpa [key.irq_armed] using ha
        simp only [key.run, this, ne_eq, not_false_eq_true, if_true]
        exact h ha
      · have hd : key.irq_armed b.key = false := by simpa using ha
        rw [run_disarmed _ _ hd]
        split_ifs
        · intro h'
          have h'' : key.irq_armed b.key = true := h'
          rw [hd] at h''
          cases h''
        · intro _
          rfl
    | changed => exact h
    | state => exact h

/-- Inside a debounce window (the edge interrupt disarmed after every event)
the debounced state does not move, the handler does not run and the changed
flag is not set again. -/
theorem window_quiet (evs : List KeyEvent) :
    ∀ b : Board, key.irq_armed b.key = false → Board.stays_disarmed evs b = true →
      (Board.after evs b).key.pressed = b.key.pressed ∧
      (∀ st, KeyOut.state st ∈ Board.outputs evs b → st = key.state b.key) ∧
      (Board.outputs evs b).count (.changed true) ≤ (if b.key.pressed_changed then 1 else 0) ∧
      Board.fired evs b = 0 := by
  induction evs with
  | nil =>
    intro b _ _
    exact ⟨rfl, (fun st h => by simp [Board.outputs] at h), (by simp [Board.outputs]), rfl⟩
  | cons e es ih =>
    intro b hd hs
    simp only [Board.stays_disarmed, Bool.and_eq_true, Bool.not_eq_true'] at hs
    obtain ⟨hd', hs'⟩ := hs
    obtain ⟨ih1, ih2, ih3, ih4⟩ := ih (Board.step e b).2 hd' hs'
    have hfire : (if e = KeyEvent.edge ∧ key.irq_armed b.key = true then 1 else 0) = 0 := by
      rw [if_neg]
      rw [hd]
      simp
    simp only [Board.after, Board.outputs, Board.fired, hfire, ih4, List.mem_cons,
      List.count_cons]
    -- the key after the event: same debounced state, changed flag not set
    have hkey : (Board.step e b).2.key.pressed = b.key.pressed ∧
        ((Board.step e b).2.key.pressed_changed = true → b.key.pressed_changed = true) ∧
        (∀ st, (Board.step e b).1 = KeyOut.state st → st = key.state b.key) ∧
        ((Board.step e b).1 = KeyOut.changed true →
          b.key.pressed_changed = true ∧ (Board.step e b).2.key.pressed_changed = false) := by
      cases e with
      | tick_irq => exact ⟨rfl, id, (fun st h => by cases h), (fun h => by cases h)⟩
      | edge =>
        have : Board.step .edge b = (.done, b) := by simp [Board.step, hd]
        rw [this]
        exact ⟨rfl, id, (fun st h => by cases h), (fun h => by cases h)⟩
      | init =>
        by_cases hi : b.key.inited = true
        · have : Board.step .init b = (.done, b) := by simp [Board.step, key.init, hi]
          rw [this]
          exact ⟨rfl, id, (fun st h => by cases h), (fun h => by cases h)⟩
        · have := init_arms b.tmr b.key hi
          rw [show key.irq_armed (key.init b.tmr b.key) = false from hd'] at this
          cases this
      | run =>
        by_cases hw : key.to_int8 (b.key.waiting_ticks -
            ((((b.tmr.elapsed_ticks : Int) - (b.key.last_ticks : Int)) % 256).toNat : Int)) > 0
        · simp only [Board.step, run_disarmed _ _ hd, if_pos hw]
          exact ⟨trivial, id, (fun st h => by cases h), (fun h => by cases h)⟩
        · have := run_rearms b.tmr b.key hd hw
          rw [show key.irq_armed (key.run b.tmr b.key) = false from hd'] at this
          cases this
      | changed =>
        refine ⟨rfl, (fun h => by cases h), (fun st h => by cases h), fun h => ?_⟩
        simp only [Board.step, key.changed, KeyOut.changed.injEq] at h
        exact ⟨h, rfl⟩
      | state =>
        refine ⟨rfl, id, (fun st h => ?_), (fun h => by cases h)⟩
        simp only [Board.step, KeyOut.state.injEq] at h
        exact h.symm
    obtain ⟨hp, hf, hst, hch⟩ := hkey
    refine ⟨ih1.trans hp, ?_, ?_, trivial⟩
    · intro st h
      rcases h with h | h
      · exact hst st h.symm
      · rw [ih2 st h]
        simp only [key.state, hp]
    · by_cases hc : (Board.step e b).1 = KeyOut.changed true
      · obtain ⟨hb, hcl⟩ := hch hc
        rw [hcl] at ih3
        simp only [hc, hb, beq_self_eq_true, if_true] at ih3 ⊢
        simp at ih3
        omega
      · have hne : ((Board.step e b).1 == KeyOut.changed true) = false := by
          simpa using hc
        simp only [hne]
        by_cases hb : (Board.step e b).2.key.pressed_changed = true
        · rw [hf hb]
          rw [hb] at ih3
          simpa using ih3
        · have hb' : (Board.step e b).2.key.pressed_changed = false := by simpa using hb
          rw [hb'] at ih3
          simp at ih3 ⊢
          split_ifs <;> omega

theorem init_keeps_flag (t : Timer) (k : Key) :
    (key.init t k).pressed_changed = k.pressed_changed := by
  unfold key.init key.enable_irq
  simp only []
  split_ifs <;> rfl

theorem run_keeps_flag (t : Timer) (k : Key) :
    (key.run t k).pressed_changed = k.pressed_changed := by
  unfold key.run key.enable_irq
  simp only []
  split_ifs <;> rfl

/-- The changed flag after a sequence without `key::changed` calls: set before,
or the edge handler ran. -/
theorem changed_flag_after (evs : List KeyEvent) :
    ∀ b : Board, KeyEvent.changed ∉ evs →
      (Board.after evs b).key.pressed_changed =
        (b.key.pressed_changed || decide (0 < Board.fired evs b)) := by
  induction evs with
  | nil => intro b _; simp [Board.after, Board.fired]
  | cons e es ih =>
    intro b hc
    have hc' : KeyEvent.changed ∉ es := fun h => hc (List.mem_cons_of_mem _ h)
    simp only [Board.after, Board.fired]
    rw [ih _ hc']
    cases e with
    | tick_irq => simp [Board.step]
    | edge =>
      by_cases ha : key.irq_armed b.key = true
      · simp [Board.step, ha, key.PORTC_PORT_vect]
      · simp [Board.step, ha]
    | init => simp [Board.step, init_keeps_flag]
    | run => simp [Board.step, run_keeps_flag]
    | changed => exact absurd (List.mem_cons_self _ _) hc
    | state => simp [Board.step]

/-! ## Input service: debounce -/

/-- Counterexample for claim C15: from the idle board (edge interrupt armed,
`last_ticks` = 0). First, two tick interrupts, the edge interrupt at tick
t = 2, and `run()`: the call re-arms the edge interrupt with the counter
still at 2. Second, with `run()` called at every tick: `run()`, a tick, the
edge interrupt at tick t = 1, `run()`, a tick, `run()`: the last call
re-arms it with the counter at 2, one tick past t. -/
theorem rearm_less_than_two_ticks_after_edge :
    (key.irq_armed (Board.after [.tick_irq, .tick_irq] Board.idle).key = true ∧
     timer.ticks (Board.after [.tick_irq, .tick_irq] Board.idle).tmr = 2 ∧
     key.irq_armed (Board.after [.tick_irq, .tick_irq, .edge] Board.idle).key = false ∧
     key.irq_armed (Board.after [.tick_irq, .tick_irq, .edge, .run] Board.idle).key = true ∧
     timer.ticks (Board.after [.tick_irq, .tick_irq, .edge, .run] Board.idle).tmr = 2) ∧
    (key.irq_armed (Board.after [.run, .tick_irq] Board.idle).key = true ∧
     timer.ticks (Board.after [.run, .tick_irq] Board.idle).tmr = 1 ∧
     key.irq_armed (Board.after [.run, .tick_irq, .edge] Board.idle).key = false ∧
     key.irq_armed (Board.after [.run, .tick_irq, .edge, .run] Board.idle).key = false ∧
     key.irq_armed
       (Board.after [.run, .tick_irq, .edge, .run, .tick_irq, .run] Board.idle).key = true ∧
     timer.ticks
       (Board.after [.run, .tick_irq, .edge, .run, .tick_irq, .run] Board.idle).tmr = 2) := by
  decide

/-- Claim C15 as the code has it: the debounce window is counted from the tick
value `key::run` (or `key::init`) last stored before the edge, not from the
edge. On a board reached from power-on, when the edge interrupt fires it is
disarmed, and for every interleaving of tick interrupts and main-loop calls
after it (no `key::init`): if the edge interrupt is armed again at the end,
then the ticks the counter had advanced since that stored value plus the tick
interrupts after the edge are at least 2 (DEBOUNCE_TICKS). -/
theorem debounce_counts_from_last_poll (t0 : Timer) (evs0 evs : List KeyEvent)
    (ha : key.irq_armed (Board.after evs0 (Board.boot t0)).key = true)
    (hinit : KeyEvent.init ∉ evs)
    (hend : key.irq_armed
      (Board.after (.edge :: evs) (Board.after evs0 (Board.boot t0))).key = true) :
    key.irq_armed (Board.after [.edge] (Board.after evs0 (Board.boot t0))).key = false ∧
    2 ≤ (Board.after evs0 (Board.boot t0)).pending + evs.count .tick_irq := by
  have hboot : ¬ key.irq_armed key.power_on = true := by decide
  have hw := armed_countdown evs0 (Board.boot t0) (fun h => absurd h hboot) ha
  have hstep : Board.step .edge (Board.after evs0 (Board.boot t0)) =
      (.done, { Board.after evs0 (Board.boot t0) with
        key := key.PORTC_PORT_vect (Board.after evs0 (Board.boot t0)).key }) := by
    simp [Board.step, ha]
  have hdis : key.irq_armed (Board.after [.edge] (Board.after evs0 (Board.boot t0))).key
      = false := by
    simp only [Board.after, hstep]
    exact isr_disarms _
  refine ⟨hdis, ?_⟩
  by_contra hlt
  have hq : (Board.after evs0 (Board.boot t0)).pending + evs.count .tick_irq ≤ 1 := by omega
  have := debounce_holds evs
    { Board.after evs0 (Board.boot t0) with
        key := key.PORTC_PORT_vect (Board.after evs0 (Board.boot t0)).key }
    hinit (isr_disarms _)
    (by
      show (Board.after evs0 (Board.boot t0)).key.waiting_ticks ≤ 2
      rw [hw])
    (by
      show 2 - (Board.after evs0 (Board.boot t0)).key.waiting_ticks
        + (((Board.after evs0 (Board.boot t0)).pending : Nat) : Int)
        + (evs.count .tick_irq : Int) ≤ 1
      rw [hw]
      omega)
  simp only [Board.after, hstep] at hend
  rw [this] at hend
  cases hend

/-- Witness for claim C15: `key::init` at power-on, then the edge interrupt and
two rounds of tick and `run()`. -/
theorem debounce_counts_from_last_poll_witness :
    key.irq_armed (Board.after [.init] (Board.boot timer.power_on)).key = true ∧
    KeyEvent.init ∉ [KeyEvent.tick_irq, .run, .tick_irq, .run] ∧
    key.irq_armed (Board.after (.edge :: [KeyEvent.tick_irq, .run, .tick_irq, .run])
      (Board.after [.init] (Board.boot timer.power_on))).key = true ∧
    (key.irq_armed (Board.after [.edge]
      (Board.after [.init] (Board.boot timer.power_on))).key = false ∧
    2 ≤ (Board.after [.init] (Board.boot timer.power_on)).pending +
      [KeyEvent.tick_irq, .run, .tick_irq, .run].count .tick_irq) :=
  ⟨by decide, by decide, by decide,
    debounce_counts_from_last_poll timer.power_on [.init] [.tick_irq, .run, .tick_irq, .run]
      (by decide) (by decide) (by decide)⟩

/-- Claim C16: the edge handler disarms the edge interrupt and nothing but
`key::run` arms it again (`key::init` does nothing once it has run). From the
edge interrupt on, as long as it stays disarmed, whatever the line does and
whatever the main loop calls: the debounced `state()` is constant, the
handler does not run again (the changed flag is set once, by the edge that
opened the window), and `changed()` returns true at most once. -/
theorem debounce_window_is_quiet (b : Board) (evs : List KeyEvent)
    (ha : key.irq_armed b.key = true)
    (hs : Board.stays_disarmed evs (Board.after [.edge] b) = true) :
    key.irq_armed (Board.after [.edge] b).key = false ∧
    (Board.after [.edge] b).key.pressed_changed = true ∧
    (∀ (e : KeyEvent) (b' : Board), e ≠ .run → (e = .init → b'.key.inited = true) →
      key.irq_armed b'.key = false → key.irq_armed (Board.step e b').2.key = false) ∧
    key.state (Board.after evs (Board.after [.edge] b)).key =
      key.state (Board.after [.edge] b).key ∧
    (∀ st, KeyOut.state st ∈ Board.outputs evs (Board.after [.edge] b) →
      st = key.state (Board.after [.edge] b).key) ∧
    Board.fired evs (Board.after [.edge] b) = 0 ∧
    (Board.outputs evs (Board.after [.edge] b)).count (.changed true) ≤ 1 := by
  have hstep : Board.step .edge b = (.done, { b with key := key.PORTC_PORT_vect b.key }) := by
    simp [Board.step, ha]
  have hdis : key.irq_armed (Board.after [.edge] b).key = false := by
    simp only [Board.after, hstep]
    exact isr_disarms _
  obtain ⟨h1, h2, h3, h4⟩ := window_quiet evs (Board.after [.edge] b) hdis hs
  refine ⟨hdis, ?_, ?_, ?_, h2, h4, ?_⟩
  · simp only [Board.after, hstep]
    rfl
  · intro e b' hrun hinit hd
    cases e with
    | tick_irq => exact hd
    | edge => simp [Board.step, hd]
    | init =>
      have hi : b'.key.inited = true := hinit rfl
      simp only [Board.step, key.init, hi, if_true]
      exact hd
    | run => exact absurd rfl hrun
    | changed => exact hd
    | state => exact hd
  · simp only [key.state, h1]
  · refine le_trans h3 ?_
    split_ifs <;> omega

/-- Witness for claim C16: the idle board; after the edge a bouncing line, polls
of `changed()` and `state()`, a tick and a `run()` that does not re-arm. -/
theorem debounce_window_is_quiet_witness :
    key.irq_armed Board.idle.key = true ∧
    Board.stays_disarmed [.edge, .changed, .state, .edge, .tick_irq, .run, .changed, .edge, .state]
      (Board.after [.edge] Board.idle) = true ∧
    (key.irq_armed (Board.after [.edge] Board.idle).key = false ∧
    (Board.after [.edge] Board.idle).key.pressed_changed = true ∧
    (∀ (e : KeyEvent) (b' : Board), e ≠ .run → (e = .init → b'.key.inited = true) →
      key.irq_armed b'.key = false → key.irq_armed (Board.step e b').2.key = false) ∧
    key.state (Board.after
        [.edge, .changed, .state, .edge, .tick_irq, .run, .changed, .edge, .state]
        (Board.after [.edge] Board.idle)).key =
      key.state (Board.after [.edge] Board.idle).key ∧
    (∀ st, KeyOut.state st ∈ Board.outputs
        [.edge, .changed, .state, .edge, .tick_irq, .run, .changed, .edge, .state]
        (Board.after [.edge] Board.idle) →
      st = key.state (Board.after [.edge] Board.idle).key) ∧
    Board.fired [.edge, .changed, .state, .edge, .tick_irq, .run, .changed, .edge, .state]
      (Board.after [.edge] Board.idle) = 0 ∧
    (Board.outputs [.edge, .changed, .state, .edge, .tick_irq, .run, .changed, .edge, .state]
      (Board.after [.edge] Board.idle)).count (.changed true) ≤ 1) :=
  ⟨by decide, by decide, debounce_window_is_quiet Board.idle _ (by decide) (by decide)⟩

/-- Claim C17: `changed()` is read-and-clear. After a call of `changed()` and any
events other than `changed()` calls, the next `changed()` returns true iff the
edge handler ran in between; the same holds for the first call after
power-on; a second call right after a first returns false; and `changed()`
never modifies the debounced `state()`. -/
theorem changed_is_read_and_clear (b : Board) (t0 : Timer) (evs : List KeyEvent)
    (h : KeyEvent.changed ∉ evs) :
    ((key.changed (Board.after evs (Board.after [.changed] b)).key).1 = true ↔
      0 < Board.fired evs (Board.after [.changed] b)) ∧
    ((key.changed (Board.after evs (Board.boot t0)).key).1 = true ↔
      0 < Board.fired evs (Board.boot t0)) ∧
    (key.changed (key.changed b.key).2).1 = false ∧
    key.state (key.changed b.key).2 = key.state b.key ∧
    (key.changed b.key).2 = { b.key with pressed_changed := false } := by
  have h1 := changed_flag_after evs (Board.after [.changed] b) h
  have h2 := changed_flag_after evs (Board.boot t0) h
  refine ⟨?_, ?_, rfl, rfl, rfl⟩
  · show (Board.after evs (Board.after [.changed] b)).key.pressed_changed = true ↔ _
    rw [h1]
    simp [Board.after, Board.step, key.changed]
  · show (Board.after evs (Board.boot t0)).key.pressed_changed = true ↔ _
    rw [h2]
    simp [Board.boot, key.power_on]

/-- Witness for claim C17: the idle board with an edge pending; after the first
`changed()`, a `run()`, ticks and another edge. -/
theorem changed_is_read_and_clear_witness :
    KeyEvent.changed ∉ [KeyEvent.tick_irq, .run, .tick_irq, .run, .state, .edge] ∧
    (((key.changed (Board.after [KeyEvent.tick_irq, .run, .tick_irq, .run, .state, .edge]
        (Board.after [.changed] (Board.after [.edge] Board.idle))).key).1 = true ↔
      0 < Board.fired [KeyEvent.tick_irq, .run, .tick_irq, .run, .state, .edge]
        (Board.after [.changed] (Board.after [.edge] Board.idle))) ∧
    ((key.changed (Board.after [KeyEvent.tick_irq, .run, .tick_irq, .run, .state, .edge]
        (Board.boot timer.power_on)).key).1 = true ↔
      0 < Board.fired [KeyEvent.tick_irq, .run, .tick_irq, .run, .state, .edge]
        (Board.boot timer.power_on)) ∧
    (key.changed (key.changed (Board.after [.edge] Board.idle).key).2).1 = false ∧
    key.state (key.changed (Board.after [.edge] Board.idle).key).2 =
      key.state (Board.after [.edge] Board.idle).key ∧
    (key.changed (Board.after [.edge] Board.idle).key).2 =
      { (Board.after [.edge] Board.idle).key with pressed_changed := false }) :=
  ⟨by decide, changed_is_read_and_clear (Board.after [.edge] Board.idle) timer.power_on _
    (by decide)⟩

/-! ## Lemmas on the character table -/

set_option maxRecDepth 100000 in
theorem char_to_segs_table : ∀ code < 128,
    (is_digit code = true →
      display.maps.digits[code - '0'.toNat]? = some (display.char_to_segs code) ∧
      display.char_to_segs (code ||| 0x80) = display.char_to_segs code ||| display.segment.dp) ∧
    (is_upper code = true →
      display.maps.upper[code - 'A'.toNat]? = some (display.char_to_segs code) ∧
      display.char_to_segs (code ||| 0x80) = display.char_to_segs code ||| display.segment.dp) ∧
    (is_lower code = true →
      display.maps.lower[code - 'a'.toNat]? = some (display.char_to_segs code) ∧
      display.char_to_segs (code ||| 0x80) = display.char_to_segs code ||| display.segment.dp) ∧
    ((is_digit code || is_upper code || is_lower code) = true →
      display.char_to_segs code &&& display.segment.dp = 0) := by
  decide

set_option maxRecDepth 100000 in
theorem letters_blank : ∀ code < 128, (is_upper code || is_lower code) = true →
    ((display.char_to_segs code &&& 0x7F = 0 ↔ code ∈ blank_letters) ∧
     (display.char_to_segs (code ||| 0x80) &&& 0x7F = 0 ↔ code ∈ blank_letters)) := by
  decide

set_option maxRecDepth 100000 in
theorem letters_distinct_upper : ∀ c1 ∈ List.range' 65 26, ∀ c2 ∈ List.range' 65 26,
    (c1 ≠ c2 ∧ c1 ∉ blank_letters ∧ c2 ∉ blank_letters) →
    display.char_to_segs c1 &&& 0x7F ≠ display.char_to_segs c2 &&& 0x7F := by
  decide

set_option maxRecDepth 100000 in
theorem letters_distinct_lower : ∀ c1 ∈ List.range' 97 26, ∀ c2 ∈ List.range' 97 26,
    (c1 ≠ c2 ∧ c1 ∉ blank_letters ∧ c2 ∉ blank_letters) →
    display.char_to_segs c1 &&& 0x7F ≠ display.char_to_segs c2 &&& 0x7F := by
  decide

theorem is_upper_iff (c : Nat) : is_upper c = true ↔ 65 ≤ c ∧ c ≤ 90 := by
  simp [is_upper]

theorem is_lower_iff (c : Nat) : is_lower c = true ↔ 97 ≤ c ∧ c ≤ 122 := by
  simp [is_lower]

theorem is_digit_iff (c : Nat) : is_digit c = true ↔ 48 ≤ c ∧ c ≤ 57 := by
  simp [is_digit]

/-! ## Display driver: the character table -/

/-- Claim C18: for every code in '0'..'9', 'A'..'Z', 'a'..'z', `char_to_segs(code)`
is the entry stored for that character in the `digits`, `upper` or `lower`
table (for '8' it is a|b|c|d|e|f|g = 0x7F), an entry that has the
decimal-point bit clear, and `char_to_segs(code | 0x80)` is that same mask
with the decimal-point bit 0x80 set. -/
theorem char_to_segs_alphanumeric (code : Nat)
    (h : (is_digit code || is_upper code || is_lower code) = true) :
    (is_digit code = true →
      display.maps.digits[code - '0'.toNat]? = some (display.char_to_segs code)) ∧
    (is_upper code = true →
      display.maps.upper[code - 'A'.toNat]? = some (display.char_to_segs code)) ∧
    (is_lower code = true →
      display.maps.lower[code - 'a'.toNat]? = some (display.char_to_segs code)) ∧
    display.char_to_segs code &&& display.segment.dp = 0 ∧
    display.char_to_segs (code ||| 0x80) = display.char_to_segs code ||| display.segment.dp ∧
    display.char_to_segs '8'.toNat = 0x7F := by
  have hlt : code < 128 := by
    simp only [Bool.or_eq_true, is_digit_iff, is_upper_iff, is_lower_iff] at h
    omega
  obtain ⟨hd, hu, hl, hdp⟩ := char_to_segs_table code hlt
  refine ⟨fun x => (hd x).1, fun x => (hu x).1, fun x => (hl x).1, hdp h, ?_, by decide⟩
  simp only [Bool.or_eq_true] at h
  rcases h with (h | h) | h
  · exact (hd h).2
  · exact (hu h).2
  · exact (hl h).2

/-- Witness for claim C18: the letter 'Q'. -/
theorem char_to_segs_alphanumeric_witness :
    (is_digit 'Q'.toNat || is_upper 'Q'.toNat || is_lower 'Q'.toNat) = true ∧
    ((is_digit 'Q'.toNat = true →
      display.maps.digits['Q'.toNat - '0'.toNat]? = some (display.char_to_segs 'Q'.toNat)) ∧
    (is_upper 'Q'.toNat = true →
      display.maps.upper['Q'.toNat - 'A'.toNat]? = some (display.char_to_segs 'Q'.toNat)) ∧
    (is_lower 'Q'.toNat = true →
      display.maps.lower['Q'.toNat - 'a'.toNat]? = some (display.char_to_segs 'Q'.toNat)) ∧
    display.char_to_segs 'Q'.toNat &&& display.segment.dp = 0 ∧
    display.char_to_segs ('Q'.toNat ||| 0x80) =
      display.char_to_segs 'Q'.toNat ||| display.segment.dp ∧
    display.char_to_segs '8'.toNat = 0x7F) :=
  ⟨by decide, char_to_segs_alphanumeric 'Q'.toNat (by decide)⟩

/-- Claim C19, the code at the inputs where it goes wrong: `char_to_segs('-')` and
`char_to_segs('_')` are 0 (blank), not segment g (0x40) and segment d (0x08);
with the high bit set they are the decimal point alone. Only '.' is mapped as
stated, to the decimal point (0x80). -/
theorem char_to_segs_minus_and_underscore_blank :
    display.char_to_segs '-'.toNat = 0 ∧
    display.char_to_segs '_'.toNat = 0 ∧
    display.char_to_segs ('-'.toNat ||| 0x80) = display.segment.dp ∧
    display.char_to_segs ('_'.toNat ||| 0x80) = display.segment.dp ∧
    display.char_to_segs '.'.toNat = display.segment.dp ∧
    display.char_to_segs '-'.toNat ≠ display.segment.g ∧
    display.char_to_segs '_'.toNat ≠ display.segment.d := by
  decide

/-- Claim C20: for every ASCII letter, `char_to_segs`, the decimal-point bit of
its result ignored, is 0 iff the letter is one of k, v, w, x, z in either
case (also when the code carries the decimal-point flag), and two different
non-blank letters of the same case have different masks. -/
theorem letters_unambiguous (c1 c2 : Nat) (h1 : (is_upper c1 || is_lower c1) = true) :
    (display.char_to_segs c1 &&& 0x7F = 0 ↔ c1 ∈ blank_letters) ∧
    (display.char_to_segs (c1 ||| 0x80) &&& 0x7F = 0 ↔ c1 ∈ blank_letters) ∧
    (((is_upper c1 && is_upper c2) || (is_lower c1 && is_lower c2)) = true →
      c1 ≠ c2 → c1 ∉ blank_letters → c2 ∉ blank_letters →
      display.char_to_segs c1 &&& 0x7F ≠ display.char_to_segs c2 &&& 0x7F) := by
  have hlt : c1 < 128 := by
    simp only [Bool.or_eq_true, is_upper_iff, is_lower_iff] at h1
    omega
  obtain ⟨hb1, hb2⟩ := letters_blank c1 hlt h1
  refine ⟨hb1, hb2, ?_⟩
  intro hcase hne hn1 hn2
  simp only [Bool.or_eq_true, Bool.and_eq_true, is_upper_iff, is_lower_iff] at hcase
  rcases hcase with ⟨hu1, hu2⟩ | ⟨hl1, hl2⟩
  · exact letters_distinct_upper c1 (List.mem_range'_1.2 (by omega)) c2
      (List.mem_range'_1.2 (by omega)) ⟨hne, hn1, hn2⟩
  · exact letters_distinct_lower c1 (List.mem_range'_1.2 (by omega)) c2
      (List.mem_range'_1.2 (by omega)) ⟨hne, hn1, hn2⟩

/-- Witness for claim C20: the letters 'C' and 'G'. -/
theorem letters_unambiguous_witness :
    (is_upper 'C'.toNat || is_lower 'C'.toNat) = true ∧
    ((display.char_to_segs 'C'.toNat &&& 0x7F = 0 ↔ 'C'.toNat ∈ blank_letters) ∧
    (display.char_to_segs ('C'.toNat ||| 0x80) &&& 0x7F = 0 ↔ 'C'.toNat ∈ blank_letters) ∧
    (((is_upper 'C'.toNat && is_upper 'G'.toNat) ||
        (is_lower 'C'.toNat && is_lower 'G'.toNat)) = true →
      'C'.toNat ≠ 'G'.toNat → 'C'.toNat ∉ blank_letters → 'G'.toNat ∉ blank_letters →
      display.char_to_segs 'C'.toNat &&& 0x7F ≠ display.char_to_segs 'G'.toNat &&& 0x7F)) :=
  ⟨by decide, letters_unambiguous 'C'.toNat 'G'.toNat (by decide)⟩

/-! ## Lemmas on the segment lines and the multiplexer -/

theorem read_set (p m b k : Nat) (h : m &&& k = 0) :
    decide (((p &&& m) ||| b) &&& k ≠ 0) = decide (b &&& k ≠ 0) := by
  rw [Nat.and_distrib_right, Nat.and_assoc, h, Nat.and_zero, Nat.zero_or]

theorem read_clr (p m k : Nat) (h : m &&& k = 0) :
    decide ((p &&& m) &&& k ≠ 0) = false := by
  rw [Nat.and_assoc, h, Nat.and_zero]; decide

theorem line_high_none (d : Display) (s : Nat) :
    display.line_high s (display.drive.none d) = false := by
  unfold display.line_high
  split <;> simp only [display.drive.none] <;> rw [read_clr _ _ _ (by decide)]

theorem line_high_a (d : Display) (s : Nat) (hs : s < 8) :
    display.line_high s (display.drive.a d) = decide (s = 0) := by
  interval_cases s <;> simp only [display.line_high, display.drive.a, display.drive.none] <;>
    first
    | (rw [read_set _ _ _ _ (by decide)]; decide)
    | (rw [read_clr _ _ _ (by decide)]; decide)

theorem line_high_b (d : Display) (s : Nat) (hs : s < 8) :
    display.line_high s (display.drive.b d) = decide (s = 1) := by
  interval_cases s <;> simp only [display.line_high, display.drive.b, display.drive.none] <;>
    first
    | (rw [read_set _ _ _ _ (by decide)]; decide)
    | (rw [read_clr _ _ _ (by decide)]; decide)

theorem line_high_c (d : Display) (s : Nat) (hs : s < 8) :
    display.line_high s (display.drive.c d) = decide (s = 2) := by
  interval_cases s <;> simp only [display.line_high, display.drive.c, display.drive.none] <;>
    first
    | (rw [read_set _ _ _ _ (by decide)]; decide)
    | (rw [read_clr _ _ _ (by decide)]; decide)

theorem line_high_d (d : Display) (s : Nat) (hs : s < 8) :
    display.line_high s (display.drive.d d) = decide (s = 3) := by
  interval_cases s <;> simp only [display.line_high, display.drive.d, display.drive.none] <;>
    first
    | (rw [read_set _ _ _ _ (by decide)]; decide)
    | (rw [read_clr _ _ _ (by decide)]; decide)

theorem line_high_e (d : Display) (s : Nat) (hs : s < 8) :
    display.line_high s (display.drive.e d) = decide (s = 4) := by
  interval_cases s <;> simp only [display.line_high, display.drive.e, display.drive.none] <;>
    first
    | (rw [read_set _ _ _ _ (by decide)]; decide)
    | (rw [read_clr _ _ _ (by decide)]; decide)

theorem line_high_f (d : Display) (s : Nat) (hs : s < 8) :
    display.line_high s (display.drive.f d) = decide (s = 5) := by
  interval_cases s <;> simp only [display.line_high, display.drive.f, display.drive.none] <;>
    first
    | (rw [read_set _ _ _ _ (by decide)]; decide)
    | (rw [read_clr _ _ _ (by decide)]; decide)

theorem line_high_g (d : Display) (s : Nat) (hs : s < 8) :
    display.line_high s (display.drive.g d) = decide (s = 6) := by
  interval_cases s <;> simp only [display.line_high, display.drive.g, display.drive.none] <;>
    first
    | (rw [read_set _ _ _ _ (by decide)]; decide)
    | (rw [read_clr _ _ _ (by decide)]; decide)

theorem line_high_dp (d : Display) (s : Nat) (hs : s < 8) :
    display.line_high s (display.drive.dp d) = decide (s = 7) := by
  interval_cases s <;> simp only [display.line_high, display.drive.dp, display.drive.none] <;>
    first
    | (rw [read_set _ _ _ _ (by decide)]; decide)
    | (rw [read_clr _ _ _ (by decide)]; decide)

theorem lines_low_none (d : Display) : display.lines_low (display.drive.none d) = true := by
  have h1 : (d.porta &&& (0xFF ^^^ 0xC0)) &&& 0xC0 = 0 := by
    rw [Nat.and_assoc, show ((0xFF ^^^ 0xC0) &&& 0xC0 : Nat) = 0 by decide, Nat.and_zero]
  have h2 : (d.portb &&& (0xFF ^^^ 0x3F)) &&& 0x3F = 0 := by
    rw [Nat.and_assoc, show ((0xFF ^^^ 0x3F) &&& 0x3F : Nat) = 0 by decide, Nat.and_zero]
  simp only [display.lines_low, display.drive.none, h1, h2]; decide

theorem bit_set_iff (m c : Nat) : (m &&& (1 <<< c) ≠ 0) ↔ display.bit_set m c = true := by
  unfold display.bit_set
  rw [Nat.one_shiftLeft, Nat.and_two_pow]
  cases m.testBit c <;> simp

/-- One firing of the multiplexer handler, cursor in 0..7: the lines. -/
theorem isr_lines (d : Display) (hc : d.mux_count < 8) (s : Nat) (hs : s < 8) :
    display.line_high s (display.TCB0_INT_vect d)
      = (decide (s = d.mux_count) && display.bit_set d.current_segs d.mux_count) := by
  obtain ⟨i, m, c, r, pa, pb⟩ := d
  simp only at hc ⊢
  by_cases hb : m &&& (1 <<< c) ≠ 0
  · have hb2 := (bit_set_iff m c).1 hb
    rw [hb2, Bool.and_true]
    interval_cases c <;> simp only [display.TCB0_INT_vect, if_pos hb]
    · exact line_high_a _ s hs
    · exact line_high_b _ s hs
    · exact line_high_c _ s hs
    · exact line_high_d _ s hs
    · exact line_high_e _ s hs
    · exact line_high_f _ s hs
    · exact line_high_g _ s hs
    · exact line_high_dp _ s hs
  · have hb2 : display.bit_set m c = false := by
      cases h : display.bit_set m c
      · rfl
      · exact absurd ((bit_set_iff m c).2 h) hb
    rw [hb2, Bool.and_false]
    simp only [display.TCB0_INT_vect, if_neg hb]
    exact line_high_none _ s

theorem isr_cursor (d : Display) :
    (display.TCB0_INT_vect d).mux_count = (d.mux_count + 1) % 8 := by
  have e : ∀ n : Nat, n &&& 0x07 = n % 8 := fun n => Nat.and_pow_two_sub_one_eq_mod n 3
  simp only [display.TCB0_INT_vect, e]
  split
  · split <;> rfl
  · rfl

theorem isr_frame (d : Display) :
    (display.TCB0_INT_vect d).current_segs = d.current_segs ∧ (display.TCB0_INT_vect d).tcb_run = d.tcb_run
      ∧ (display.TCB0_INT_vect d).inited = d.inited := by
  simp only [display.TCB0_INT_vect]
  split
  · split <;> simp [display.drive.a, display.drive.b, display.drive.c, display.drive.d, display.drive.e, display.drive.f, display.drive.g, display.drive.dp,
      display.drive.none]
  · simp [display.drive.none]

theorem fire_succ (n : Nat) (d : Display) :
    display.fire (n + 1) d = display.TCB0_INT_vect (display.fire n d) := by
  induction n generalizing d with
  | zero => rfl
  | succ n ih =>
    show display.fire (n + 1) (display.TCB0_INT_vect d) = _
    rw [ih]; rfl

theorem fire_cursor (n : Nat) (d : Display) (hc : d.mux_count < 8) :
    (display.fire n d).mux_count = (d.mux_count + n) % 8 ∧
    (display.fire n d).current_segs = d.current_segs := by
  induction n with
  | zero => exact ⟨(Nat.mod_eq_of_lt hc).symm, rfl⟩
  | succ n ih =>
    rw [fire_succ, isr_cursor, (isr_frame _).1, ih.1, ih.2]
    exact ⟨by omega, rfl⟩

theorem fire_lines (j : Nat) (d : Display) (hc : d.mux_count < 8) (s : Nat) (hs : s < 8) :
    display.line_high s (display.fire (j + 1) d)
      = (decide (s = (d.mux_count + j) % 8) && display.bit_set d.current_segs s) := by
  have h := fire_cursor j d hc
  rw [fire_succ, isr_lines _ (by rw [h.1]; exact Nat.mod_lt _ (by decide)) s hs, h.1, h.2]
  by_cases e : s = (d.mux_count + j) % 8
  · rw [← e]
  · simp [e]

theorem show_segments_zero (d : Display) :
    (display.show_segments 0 d).current_segs = 0 ∧
    (display.show_segments 0 d).tcb_run = false ∧
    (display.show_segments 0 d).mux_count = d.mux_count ∧
    (display.show_segments 0 d).porta = d.porta ∧
    (display.show_segments 0 d).portb = d.portb := by
  obtain ⟨i, m, c, r, pa, pb⟩ := d
  cases r <;> simp [display.show_segments, display.stop_timer]

theorem unmapped_blank :
    ∀ code < 128, (is_digit code || is_upper code || is_lower code) = false →
      code ≠ '-'.toNat → code ≠ '_'.toNat → code ≠ '.'.toNat → display.char_to_segs code = 0 := by
  decide

set_option maxRecDepth 100000 in
theorem dp_flag_table :
    ∀ c < 256, display.char_to_segs (c ||| 0x80) = display.char_to_segs (c &&& 0x7F) ||| 0x80 ∧
      (c < 128 → c ≠ '.'.toNat → display.char_to_segs c &&& 0x80 = 0) := by
  decide

/-! ## Display driver: blanking, the decimal point and the multiplexer -/

/-- Claim C21, the code at an input where it goes wrong: for every 7-bit code
that is not a digit, not a letter and not one of '-', '_', '.',
`char_to_segs` returns 0, as claimed, and `show_char` of such a code is
`show_segments(0)`. But that does not leave the display off: after `init()`,
`show_segments(segment::a)` and one firing of the multiplexer, `show_char(' ')`
clears the mask and stops the multiplexer and leaves the line of segment a
(PB5) high, where `off()` drives all lines low. -/
theorem show_char_blank_keeps_lines :
    (∀ code < 128, (is_digit code || is_upper code || is_lower code) = false →
      code ≠ '-'.toNat → code ≠ '_'.toNat → code ≠ '.'.toNat →
      display.char_to_segs code = 0 ∧
      ∀ d : Display, display.show_char code d = display.show_segments 0 d) ∧
    display.char_to_segs ' '.toNat = 0 ∧
    display.line_high 0 (display.TCB0_INT_vect
      (display.show_segments display.segment.a (display.init display.power_on))) = true ∧
    (display.show_char ' '.toNat (display.TCB0_INT_vect
      (display.show_segments display.segment.a (display.init display.power_on)))).current_segs
        = 0 ∧
    (display.show_char ' '.toNat (display.TCB0_INT_vect
      (display.show_segments display.segment.a (display.init display.power_on)))).tcb_run
        = false ∧
    (display.show_char ' '.toNat (display.TCB0_INT_vect
      (display.show_segments display.segment.a (display.init display.power_on)))).portb
        = 0x20 ∧
    display.line_high 0 (display.show_char ' '.toNat (display.TCB0_INT_vect
      (display.show_segments display.segment.a (display.init display.power_on)))) = true ∧
    display.lines_low (display.show_char ' '.toNat (display.TCB0_INT_vect
      (display.show_segments display.segment.a (display.init display.power_on)))) = false ∧
    display.lines_low (display.off (display.TCB0_INT_vect
      (display.show_segments display.segment.a (display.init display.power_on)))) = true := by
  refine ⟨fun code h7 hu h1 h2 h3 => ?_, by decide, by decide, by decide, by decide, by decide,
    by decide, by decide, by decide⟩
  have h0 : display.char_to_segs code = 0 := unmapped_blank code h7 hu h1 h2 h3
  refine ⟨h0, fun d => ?_⟩
  unfold display.show_char
  rw [h0]

/-- Claim C22, the code at an input where it goes wrong: after `init()`,
`show_segments(segment::a)` and one firing of the multiplexer the line of
segment a is high; `show_segments(0)` then clears the mask and stops the
multiplexer but leaves the line of segment a high, where `off()` drives all
lines low. In every state `show_segments(0)` leaves both output latches as
they were. -/
theorem show_segments_zero_keeps_lines :
    display.line_high 0 (display.TCB0_INT_vect
      (display.show_segments display.segment.a (display.init display.power_on))) = true ∧
    (display.show_segments 0 (display.TCB0_INT_vect
      (display.show_segments display.segment.a (display.init display.power_on)))).current_segs = 0 ∧
    (display.show_segments 0 (display.TCB0_INT_vect
      (display.show_segments display.segment.a (display.init display.power_on)))).tcb_run = false ∧
    display.line_high 0 (display.show_segments 0 (display.TCB0_INT_vect
      (display.show_segments display.segment.a (display.init display.power_on)))) = true ∧
    display.lines_low (display.show_segments 0 (display.TCB0_INT_vect
      (display.show_segments display.segment.a (display.init display.power_on)))) = false ∧
    display.lines_low (display.off (display.TCB0_INT_vect
      (display.show_segments display.segment.a (display.init display.power_on)))) = true ∧
    (∀ d : Display, (display.show_segments 0 d).porta = d.porta ∧
      (display.show_segments 0 d).portb = d.portb) :=
  ⟨by decide, by decide, by decide, by decide, by decide, by decide,
    fun d => ⟨(show_segments_zero d).2.2.2.1, (show_segments_zero d).2.2.2.2⟩⟩

/-- Counterexample for claim C23: after `init()`, `show_segments(0x7F)` and three
firings the cursor is 3; `show_segments(segment::a)` stores the new mask and
leaves the cursor at 3. -/
theorem show_segments_running_keeps_cursor :
    (display.fire 3 (display.show_segments 0x7F (display.init display.power_on))).tcb_run = true ∧
    (display.fire 3 (display.show_segments 0x7F (display.init display.power_on))).mux_count = 3 ∧
    (display.show_segments display.segment.a
      (display.fire 3 (display.show_segments 0x7F (display.init display.power_on)))).current_segs
        = display.segment.a ∧
    (display.show_segments display.segment.a
      (display.fire 3 (display.show_segments 0x7F (display.init display.power_on)))).mux_count
        = 3 := by
  decide

/-- Claim C23, amended: for every non-zero 8-bit mask and every prior display
state, `show_segments(mask)` stores the mask and leaves the multiplexer
running; it starts it from slot 0 only if it was idle, and if it was already
running the cursor stays where it was. The output latches are not touched. -/
theorem show_segments_nonzero (mask : Nat) (d : Display) (h0 : mask ≠ 0) (h8 : mask < 256) :
    (display.show_segments mask d).current_segs = mask ∧
    (display.show_segments mask d).tcb_run = true ∧
    (d.tcb_run = false → (display.show_segments mask d).mux_count = 0) ∧
    (d.tcb_run = true → (display.show_segments mask d).mux_count = d.mux_count) ∧
    (display.show_segments mask d).porta = d.porta ∧
    (display.show_segments mask d).portb = d.portb := by
  obtain ⟨i, m, c, r, pa, pb⟩ := d
  have e : mask % 256 = mask := Nat.mod_eq_of_lt h8
  cases r <;> simp [display.show_segments, display.start_timer, e, h0]

/-- Witness for claim C23: segment a shown on an idle display whose cursor was
left at 5. -/
theorem show_segments_nonzero_witness :
    (display.show_segments 1 { display.power_on with mux_count := 5 }).current_segs = 1 ∧
    (display.show_segments 1 { display.power_on with mux_count := 5 }).tcb_run = true ∧
    (display.show_segments 1 { display.power_on with mux_count := 5 }).mux_count = 0 :=
  have h := show_segments_nonzero 1 { display.power_on with mux_count := 5 }
    (by decide) (by decide)
  ⟨h.1, h.2.1, h.2.2.1 rfl⟩

/-- Claim C26: for every byte `c`, `char_to_segs(c | 0x80)` is
`char_to_segs(c & 0x7F) | 0x80`, and for every 7-bit code other than '.' the
result has the decimal-point bit clear. -/
theorem dp_flag_is_ored_in (c : Nat) (h : c < 256) :
    display.char_to_segs (c ||| 0x80) = display.char_to_segs (c &&& 0x7F) ||| 0x80 ∧
    (c < 128 → c ≠ '.'.toNat → display.char_to_segs c &&& display.segment.dp = 0) :=
  dp_flag_table c h

/-- Witness for claim C26: the code of 'h', with and without the flag. -/
theorem dp_flag_is_ored_in_witness :
    display.char_to_segs ('h'.toNat ||| 0x80) = display.char_to_segs ('h'.toNat &&& 0x7F) ||| 0x80 ∧
    display.char_to_segs 'h'.toNat &&& display.segment.dp = 0 ∧
    display.char_to_segs ('h'.toNat ||| 0x80) = 0xF4 :=
  have h := dp_flag_is_ored_in 'h'.toNat (by decide)
  ⟨h.1, h.2 (by decide) (by decide), by decide⟩

/-- Claim C27: for every prior display state, after `off()` the stored mask is
0, the multiplexer is stopped and all eight segment lines are low; the cursor
and the other latch bits are left as they were. -/
theorem off_contract (d : Display) :
    (display.off d).current_segs = 0 ∧
    (display.off d).tcb_run = false ∧
    display.lines_low (display.off d) = true ∧
    (∀ s, display.line_high s (display.off d) = false) ∧
    (display.off d).mux_count = d.mux_count ∧
    (display.off d).porta = d.porta &&& 0x3F ∧
    (display.off d).portb = d.portb &&& 0xC0 := by
  obtain ⟨i, m, c, r, pa, pb⟩ := d
  refine ⟨?_, ?_, lines_low_none _, fun s => line_high_none _ s, ?_, ?_, ?_⟩ <;>
    cases r <;> rfl

/-- Claim C28: with the cursor at `c` in 0..7 and the mask `m`, one firing of the
multiplexer handler leaves the line of slot `c` high iff bit `c` of `m` is
set, every other segment line low, the cursor at `(c + 1) mod 8` and the mask
unchanged. Over 8 consecutive firings the firing number `j + 1` makes high
the line of slot `(c + j) mod 8` iff its bit is set and no other line, so
the line of every set segment is made high by exactly one of the 8 firings,
the line of a segment that is not set by none, and the cursor is back at
`c`. -/
theorem multiplexer_scans_slots (d : Display) (hc : d.mux_count < 8) :
    (∀ s, s < 8 → display.line_high s (display.TCB0_INT_vect d)
      = (decide (s = d.mux_count) && display.bit_set d.current_segs d.mux_count)) ∧
    (display.TCB0_INT_vect d).mux_count = (d.mux_count + 1) % 8 ∧
    (display.TCB0_INT_vect d).current_segs = d.current_segs ∧
    (∀ j s, s < 8 → display.line_high s (display.fire (j + 1) d)
      = (decide (s = (d.mux_count + j) % 8) && display.bit_set d.current_segs s)) ∧
    (∀ s, s < 8 → display.bit_set d.current_segs s = true →
      ∃! j, j < 8 ∧ display.line_high s (display.fire (j + 1) d) = true) ∧
    (∀ s, s < 8 → display.bit_set d.current_segs s = false →
      ∀ j, display.line_high s (display.fire (j + 1) d) = false) ∧
    (display.fire 8 d).mux_count = d.mux_count ∧
    (display.fire 8 d).current_segs = d.current_segs := by
  refine ⟨fun s hs => isr_lines d hc s hs, isr_cursor d, (isr_frame d).1,
    fun j s hs => fire_lines j d hc s hs, ?_, ?_, ?_, (fire_cursor 8 d hc).2⟩
  · intro s hs hb
    refine ⟨(s + 8 - d.mux_count) % 8, ⟨Nat.mod_lt _ (by decide), ?_⟩, ?_⟩
    · rw [fire_lines _ d hc s hs, hb, Bool.and_true, decide_eq_true_eq]
      omega
    · rintro j ⟨hj, hl⟩
      rw [fire_lines _ d hc s hs, hb, Bool.and_true, decide_eq_true_eq] at hl
      omega
  · intro s hs hb j
    rw [fire_lines _ d hc s hs, hb, Bool.and_false]
  · rw [(fire_cursor 8 d hc).1]; omega

/-- Witness for claim C28: the mask of '7' (segments a, b, c) with the cursor at
slot 6: the first firing drives no line and moves the cursor to 7, the third
firing drives the line of segment a, and after 8 firings the cursor is 6. -/
theorem multiplexer_scans_slots_witness :
    (display.multiplexing 0x07 6 0 0).mux_count < 8 ∧
    (display.TCB0_INT_vect (display.multiplexing 0x07 6 0 0)).mux_count = 7 ∧
    display.lines_low (display.TCB0_INT_vect (display.multiplexing 0x07 6 0 0)) = true ∧
    display.line_high 0 (display.fire 3 (display.multiplexing 0x07 6 0 0)) = true ∧
    display.line_high 1 (display.fire 3 (display.multiplexing 0x07 6 0 0)) = false ∧
    (display.fire 8 (display.multiplexing 0x07 6 0 0)).mux_count = 6 :=
  have h := multiplexer_scans_slots (display.multiplexing 0x07 6 0 0) (by decide)
  ⟨by decide, h.2.1, by decide, (h.2.2.2.1 2 0 (by decide)).trans (by decide),
    (h.2.2.2.1 2 1 (by decide)).trans (by decide), h.2.2.2.2.2.2.1⟩

/-! ## Lemmas on the polarity of the edge interrupt -/

theorem enable_irq_sense (k : Key) :
    key.sense (key.enable_irq k) = key.opposite_edge k.pressed ∧
    (key.enable_irq k).pressed = k.pressed := by
  obtain ⟨i, p, pc, w, l, pin, ctl⟩ := k
  cases p
  · exact ⟨armed_values.2.1, rfl⟩
  · exact ⟨armed_values.1, rfl⟩

theorem sense_armed (k : Key) : key.irq_armed k = true ↔ key.sense k ≠ 0 := by
  simp [key.irq_armed, key.sense]

/-- The polarity invariant: while armed, the sense field is the edge opposite
to the debounced state. -/
theorem polarity_init (t : Timer) (k : Key) (h : k.inited = false) :
    key.sense (key.init t k) = key.opposite_edge (key.init t k).pressed := by
  simp only [key.init, h, Bool.false_eq_true, if_false]
  exact (enable_irq_sense _).1.trans (congrArg key.opposite_edge (enable_irq_sense _).2.symm)

theorem polarity_step (e : KeyEvent) (b : Board)
    (h : key.irq_armed b.key = true → key.sense b.key = key.opposite_edge b.key.pressed) :
    key.irq_armed (Board.step e b).2.key = true →
      key.sense (Board.step e b).2.key = key.opposite_edge (Board.step e b).2.key.pressed := by
  cases e
  · exact h
  · by_cases ha : key.irq_armed b.key = true
    · simp only [Board.step, ha, if_true]
      intro h2; rw [isr_disarms] at h2; cases h2
    · simp only [Board.step, ha]
      exact h
  · by_cases hi : b.key.inited = true
    · have e : key.init b.tmr b.key = b.key := by simp [key.init, hi]
      simp only [Board.step, e]; exact h
    · intro _
      exact polarity_init b.tmr b.key (by simpa using hi)
  · by_cases ha : key.irq_armed b.key = true
    · have e : key.run b.tmr b.key = { b.key with last_ticks := timer.ticks b.tmr } := by
        have : (b.key.pin3ctrl &&& key.PORT_ISC_gm) ≠ 0 := by simpa [key.irq_armed] using ha
        simp only [key.run, this, if_true, ne_eq, not_false_eq_true]
      simp only [Board.step, e]
      exact h
    · have ha2 : key.irq_armed b.key = false := by simpa using ha
      simp only [Board.step]
      rw [run_disarmed _ _ ha2]
      split
      · intro h2
        have h3 := (irq_armed_congr _ b.key rfl).symm.trans h2
        rw [ha2] at h3; cases h3
      · intro _
        exact (enable_irq_sense _).1.trans (congrArg key.opposite_edge (enable_irq_sense _).2.symm)
  · exact h
  · exact h

theorem polarity_after (evs : List KeyEvent) :
    ∀ b : Board,
      (key.irq_armed b.key = true → key.sense b.key = key.opposite_edge b.key.pressed) →
      key.irq_armed (Board.after evs b).key = true →
      key.sense (Board.after evs b).key = key.opposite_edge (Board.after evs b).key.pressed := by
  induction evs with
  | nil => intro b h; exact h
  | cons e es ih => intro b h; exact ih _ (polarity_step e b h)

theorem edge_flips (b : Board) (ha : key.irq_armed b.key = true)
    (h : key.sense b.key = key.opposite_edge b.key.pressed) :
    (Board.after [.edge] b).key.pressed = !b.key.pressed := by
  simp only [Board.after, Board.step, ha, if_true, key.PORTC_PORT_vect]
  have h2 : b.key.pin3ctrl &&& key.PORT_ISC_gm = key.opposite_edge b.key.pressed := h
  rw [h2]
  cases b.key.pressed <;> decide

/-! ## Input service: polarity and re-arming of the edge interrupt -/

/-- Claim C29: in every state reached from `key::init()` (on a key that was not
yet initialised) through tick interrupts, edge interrupts (which run only
while armed), `init()`, `run()`, `changed()` and `state()` calls, whenever the
edge interrupt is armed its sense field selects one edge, the falling edge iff
the debounced state is pressed and the rising edge iff it is released, and
an edge interrupt then flips the debounced state. -/
theorem polarity_invariant (t : Timer) (k0 : Key) (evs : List KeyEvent)
    (h0 : k0.inited = false)
    (ha : key.irq_armed (Board.after (.init :: evs) { tmr := t, key := k0 }).key = true) :
    (key.sense (Board.after (.init :: evs) { tmr := t, key := k0 }).key = key.PORT_ISC_FALLING_gc ∨
      key.sense (Board.after (.init :: evs) { tmr := t, key := k0 }).key
        = key.PORT_ISC_RISING_gc) ∧
    (key.sense (Board.after (.init :: evs) { tmr := t, key := k0 }).key = key.PORT_ISC_FALLING_gc ↔
      (Board.after (.init :: evs) { tmr := t, key := k0 }).key.pressed = true) ∧
    (key.sense (Board.after (.init :: evs) { tmr := t, key := k0 }).key = key.PORT_ISC_RISING_gc ↔
      (Board.after (.init :: evs) { tmr := t, key := k0 }).key.pressed = false) ∧
    (Board.after [.edge] (Board.after (.init :: evs) { tmr := t, key := k0 })).key.pressed
      = !(Board.after (.init :: evs) { tmr := t, key := k0 }).key.pressed ∧
    key.state (Board.after [.edge] (Board.after (.init :: evs) { tmr := t, key := k0 })).key
      ≠ key.state (Board.after (.init :: evs) { tmr := t, key := k0 }).key := by
  have hinv : key.sense (Board.after (.init :: evs) { tmr := t, key := k0 }).key
      = key.opposite_edge (Board.after (.init :: evs) { tmr := t, key := k0 }).key.pressed :=
    polarity_after evs (Board.step .init { tmr := t, key := k0 }).2
      (fun _ => polarity_init t k0 h0) ha
  have hflip := edge_flips _ ha hinv
  generalize Board.after (.init :: evs) { tmr := t, key := k0 } = b at ha hinv hflip ⊢
  have hinv2 : key.sense b.key = key.opposite_edge b.key.pressed := hinv
  generalize Board.after [.edge] b = b2 at hflip ⊢
  rw [hinv2]
  unfold key.state
  rw [hflip]
  cases b.key.pressed <;> decide

/-- Witness for claim C29: the key is pressed after power-on and `init()`, two
ticks pass and `run()` re-arms the interrupt, for the falling edge. -/
theorem polarity_invariant_witness :
    key.power_on.inited = false ∧
    key.irq_armed (Board.after [.init, .edge, .tick_irq, .tick_irq, .run] Board.power_on).key
      = true ∧
    (key.sense (Board.after [.init, .edge, .tick_irq, .tick_irq, .run] Board.power_on).key
        = key.PORT_ISC_FALLING_gc ↔
      (Board.after [.init, .edge, .tick_irq, .tick_irq, .run] Board.power_on).key.pressed
        = true) ∧
    (Board.after [.init, .edge, .tick_irq, .tick_irq, .run] Board.power_on).key.pressed = true :=
  ⟨rfl, by decide,
    (polarity_invariant timer.power_on key.power_on [.edge, .tick_irq, .tick_irq, .run] rfl
      (by decide)).2.1, by decide⟩

set_option maxRecDepth 100000 in
/-- Counterexample for claim C30: the edge handler fires on the idle board and
131 ticks pass before the next `run()` call; the countdown 2 - 131 does not
fit a signed 8-bit value and becomes 127, so `run()` leaves the edge
interrupt disarmed. -/
theorem run_after_131_ticks_stays_disarmed :
    key.irq_armed (Board.after [.edge] Board.idle).key = false ∧
    (Board.after [.edge] Board.idle).key.waiting_ticks = 2 ∧
    Board.pending (Board.after (.edge :: List.replicate 131 .tick_irq) Board.idle) = 131 ∧
    key.irq_armed
      (Board.after (.edge :: (List.replicate 131 .tick_irq ++ [.run])) Board.idle).key = false ∧
    (Board.after (.edge :: (List.replicate 131 .tick_irq ++ [.run])) Board.idle).key.waiting_ticks
      = 127 := by
  decide

/-- Claim C30, amended: for every `run()` call made while the edge interrupt is
disarmed with the countdown at 2, with `e` in 0..255 the ticks elapsed since
the previous `run()` call, `run()` re-arms the edge interrupt iff
2 ≤ e ≤ 130; it then selects the edge opposite to the current state and
resets the countdown to 2. For e < 2 the countdown becomes 2 - e, and for
e ≥ 131 the signed 8-bit countdown wraps to 258 - e > 0; in both cases the
interrupt stays disarmed. -/
theorem run_rearms_within_int8 (t : Timer) (k : Key)
    (ha : key.irq_armed k = false) (hw : k.waiting_ticks = key.DEBOUNCE_TICKS) :
    Board.pending { tmr := t, key := k } < 256 ∧
    (key.irq_armed (key.run t k) = true ↔
      2 ≤ Board.pending { tmr := t, key := k } ∧ Board.pending { tmr := t, key := k } ≤ 130) ∧
    (2 ≤ Board.pending { tmr := t, key := k } ∧ Board.pending { tmr := t, key := k } ≤ 130 →
      (key.run t k).waiting_ticks = 2 ∧
      key.sense (key.run t k) = key.opposite_edge k.pressed ∧
      (key.run t k).pressed = k.pressed) ∧
    (Board.pending { tmr := t, key := k } < 2 →
      (key.run t k).waiting_ticks = 2 - (Board.pending { tmr := t, key := k } : Int)) ∧
    (130 < Board.pending { tmr := t, key := k } →
      (key.run t k).waiting_ticks = 258 - (Board.pending { tmr := t, key := k } : Int)) := by
  have hp : Board.pending { tmr := t, key := k }
      = (((t.elapsed_ticks : Int) - (k.last_ticks : Int)) % 256).toNat := rfl
  rw [run_disarmed t k ha, hw, ← hp]
  generalize Board.pending { tmr := t, key := k } = e at hp
  have he : e < 256 := by omega
  have hti : key.to_int8 (key.DEBOUNCE_TICKS - (e : Int))
      = if e ≤ 130 then 2 - (e : Int) else 258 - (e : Int) := by
    unfold key.to_int8 key.DEBOUNCE_TICKS
    split <;> omega
  by_cases hpos : key.to_int8 (key.DEBOUNCE_TICKS - (e : Int)) > 0
  · rw [if_pos hpos]
    rw [hti] at hpos
    refine ⟨he, ?_, ?_, ?_, ?_⟩
    · constructor
      · intro h
        have h3 := (irq_armed_congr _ k rfl).symm.trans h
        rw [ha] at h3; cases h3
      · intro h; split at hpos <;> omega
    · intro h; split at hpos <;> omega
    · intro h; show key.to_int8 _ = _; rw [hti, if_pos (by omega)]
    · intro h; show key.to_int8 _ = _; rw [hti, if_neg (by omega)]
  · rw [if_neg hpos]
    rw [hti] at hpos
    have hr : 2 ≤ e ∧ e ≤ 130 := by split at hpos <;> omega
    refine ⟨he, ?_, ?_, ?_, ?_⟩
    · exact ⟨fun _ => hr, fun _ => (irq_armed_congr _ _ rfl).trans (enable_irq_arms _)⟩
    · intro _
      exact ⟨rfl, (enable_irq_sense _).1, (enable_irq_sense _).2⟩
    · intro h; omega
    · intro h; omega

/-- Witness for claim C30: on the idle board the edge handler fires, two ticks
pass and `run()` re-arms the interrupt. -/
theorem run_rearms_within_int8_witness :
    key.irq_armed (Board.after [.edge, .tick_irq, .tick_irq] Board.idle).key = false ∧
    (Board.after [.edge, .tick_irq, .tick_irq] Board.idle).key.waiting_ticks
      = key.DEBOUNCE_TICKS ∧
    Board.pending (Board.after [.edge, .tick_irq, .tick_irq] Board.idle) = 2 ∧
    key.irq_armed (key.run (Board.after [.edge, .tick_irq, .tick_irq] Board.idle).tmr
      (Board.after [.edge, .tick_irq, .tick_irq] Board.idle).key) = true :=
  ⟨by decide, by decide, by decide,
    (run_rearms_within_int8 (Board.after [.edge, .tick_irq, .tick_irq] Board.idle).tmr
      (Board.after [.edge, .tick_irq, .tick_irq] Board.idle).key (by decide) (by decide)).2.1.2
      (by decide)⟩

/-! ## Host tool: the long option `--timing` -/

theorem getopt_long_timing (a : driver.optarg) :
    driver.getopt_long (.long "timing" a) = 'w' ∧
    driver.getopt_long (.long "window" a) = 'w' ∧
    driver.getopt_long (.short 'w' a) = 'w' ∧
    driver.getopt_long (.short 't' a) = 't' :=
  ⟨rfl, rfl, rfl, rfl⟩

/-- An abbreviation of a long option that is not ambiguous selects the same
entry as the full name, an unknown option gives '?'. -/
theorem getopt_long_abbreviation :
    driver.getopt_long (.long "tim" { text := "5", number := 5 }) = 'w' ∧
    driver.getopt_long (.long "win" { text := "5", number := 5 }) = 'w' ∧
    driver.getopt_long (.long "s" { text := "9600", number := 9600 }) = 's' ∧
    driver.getopt_long (.long "x" { text := "", number := 0 }) = '?' ∧
    driver.run_with (.long "tim" { text := "5", number := 5 })
      = driver.run_with (.long "timing" { text := "5", number := 5 }) := by
  decide

/-- Claim C24, the code at inputs where it goes wrong: in `long_options` the entry
"timing" carries the value 'w' of `--window`, while the usage text and the
comment of `case 't'` give `--timing` as the long form of `-t`. So
`--timing 500` is rejected (as an invalid animation window) where `-t 500`
sets `animation_timing_ms` to 500, and `--timing 64` sets `animation_window`
to 64 and leaves `animation_timing_ms` at its default 100 where `-t 64` sets
`animation_timing_ms` to 64 and leaves `animation_window` at 0. For every
argument and every state of the options `--timing` is handled by
`parse_animation_window`, as `--window` and `-w` are. -/
theorem long_timing_selects_window_handler :
    driver.run_with (.short 't' { text := "500", number := 500 })
      = some { driver.protocol_options.default with
          input_text := some "HELLO", animation_timing_ms := 500 } ∧
    driver.run_with (.long "timing" { text := "500", number := 500 }) = none ∧
    driver.run_with (.short 't' { text := "64", number := 64 })
      = some { driver.protocol_options.default with
          input_text := some "HELLO", animation_timing_ms := 64 } ∧
    driver.run_with (.long "timing" { text := "64", number := 64 })
      = some { driver.protocol_options.default with
          input_text := some "HELLO", animation_window := 64 } ∧
    driver.run_with (.long "window" { text := "64", number := 64 })
      = driver.run_with (.long "timing" { text := "64", number := 64 }) ∧
    (∀ a : driver.optarg, driver.getopt_long (.long "timing" a) = 'w' ∧
      driver.getopt_long (.short 't' a) = 't') ∧
    (∀ (a : driver.optarg) (p : driver.Parsed),
      driver.handle_option (driver.getopt_long (.long "timing" a)) a p
        = (driver.parse_animation_window p.protocol a).map (fun o => { p with protocol := o }) ∧
      driver.handle_option (driver.getopt_long (.short 't' a)) a p
        = (driver.parse_animation_timing p.protocol a).map (fun o => { p with protocol := o })) :=
  ⟨by decide, by decide, by decide, by decide, by decide,
    fun a => ⟨(getopt_long_timing a).1, (getopt_long_timing a).2.2.2⟩,
    fun a p => ⟨by rw [(getopt_long_timing a).1]; rfl, by rw [(getopt_long_timing a).2.2.2]; rfl⟩⟩

/-! ## Relay receiver: errors and the protocol timeout -/

theorem rx_keeps_error (h l : Nat) (s : serial.Serial) (he : s.error = true) :
    (serial.USART0_RXC_vect h l s).error = true ∧
    (serial.USART0_RXC_vect h l s).tca_ctrla = s.tca_ctrla := by
  have e : (serial.reset_timer (serial.start_ccl s)).error = true := he
  simp only [serial.USART0_RXC_vect, e, if_true]
  exact ⟨trivial, rfl⟩

theorem error_stuck (evs : List serial.SerialEvent) :
    ∀ s : serial.Serial, s.error = true → serial.timer_running s = false →
      (serial.after evs s).error = true ∧ serial.timer_running (serial.after evs s) = false := by
  induction evs with
  | nil => intro s h1 h2; exact ⟨h1, h2⟩
  | cons e es ih =>
    intro s h1 h2
    cases e with
    | rx h l =>
      have hr := rx_keeps_error h l s h1
      refine ih (serial.USART0_RXC_vect h l s) hr.1 ?_
      unfold serial.timer_running at h2 ⊢
      rw [hr.2]; exact h2
    | timeout =>
      have e : serial.step .timeout s = s := by simp [serial.step, h2]
      show (serial.after es (serial.step .timeout s)).error = true ∧
        serial.timer_running (serial.after es (serial.step .timeout s)) = false
      rw [e]; exact ih s h1 h2

/-- Claim C25, the code at an input where it goes wrong: the first message unit
after `init()` arrives with a frame error. The receive handler sets the error
flag without starting the protocol timeout timer (only the branch that
accepts a first byte starts it), so the flag is set while the timer is
stopped, and after every further sequence of receive interrupts (the
timeout cannot fire) the flag is still set and the timer still stopped. The
other parts hold: a receive interrupt keeps a set error flag, and the
timeout handler clears it and re-enables the reception of a first byte. -/
theorem error_on_first_byte_is_never_cleared :
    serial.has_errors (serial.init serial.power_on) = false ∧
    serial.has_errors
      (serial.after [.rx serial.USART_FERR_bm 0x41] (serial.init serial.power_on)) = true ∧
    serial.timer_running
      (serial.after [.rx serial.USART_FERR_bm 0x41] (serial.init serial.power_on)) = false ∧
    (∀ evs : List serial.SerialEvent,
      serial.has_errors (serial.after evs
        (serial.after [.rx serial.USART_FERR_bm 0x41] (serial.init serial.power_on))) = true ∧
      serial.timer_running (serial.after evs
        (serial.after [.rx serial.USART_FERR_bm 0x41] (serial.init serial.power_on))) = false) ∧
    serial.timer_running
      (serial.after [.rx 0 0x41, .rx serial.USART_FERR_bm 0x42] (serial.init serial.power_on))
        = true ∧
    (∀ (h l : Nat) (s : serial.Serial),
      (s.error = true → (serial.USART0_RXC_vect h l s).error = true) ∧
      (serial.TCA0_OVF_vect s).error = false ∧ (serial.TCA0_OVF_vect s).first = true) :=
  ⟨by decide, by decide, by decide,
    fun evs => error_stuck evs _ (by decide) (by decide), by decide,
    fun h l s => ⟨fun he => (rx_keeps_error h l s he).1, rfl, rfl⟩⟩

/-! ## Lemmas on the fetched instruction of reachable machines -/

theorem pause_index_branch : ∀ pc < 27,
    get_next_pc (program_at (pause_index pc)) = 0 ∨
      get_next_pc (program_at (pause_index pc)) ∈ branch_targets := by
  decide

theorem branch_targets_light : ∀ n ∈ branch_targets,
    n < 27 ∧ get_opcode (program_at n) = op_g ∧ pause_index n = n ∧
    opcode_segment (get_opcode (program_at n)) = display.segment.g := by
  decide

theorem reset_instruction (s : Nat) (m : Machine) :
    (vm.reset s m).state.instruction = m.state.instruction := by
  simp only [vm.reset, State.reset, State.update_ticks]
  split_ifs <;> rfl

/-- In a reachable machine the branch target of the fetched instruction is 0
or one of the four branch targets of the program. -/
theorem reachable_branch (m : Machine) (h : Reachable m) :
    get_next_pc m.state.instruction = 0 ∨ get_next_pc m.state.instruction ∈ branch_targets := by
  induction h with
  | boot d => exact Or.inl (show get_next_pc State.zero.instruction = 0 by decide)
  | reset s m _ _ ih => rw [reset_instruction]; exact ih
  | tick fuel m m' hm hr _ =>
    have hin := (inside_iff m).1 (reachable_inside m hm)
    rw [tick_event_of_ret m m' hin.1 fuel hr]
    exact pause_index_branch _ hin.1
  | steer fuel m m' b hm hr ih =>
    have hin := (inside_iff m).1 (reachable_inside m hm)
    rcases steer_event_of_ret m m' b fuel hin.2 hr with ⟨_, _, e⟩ | ⟨_, _, e⟩
    · rw [e]; exact ih
    · rw [e]; exact pause_index_branch _ hin.2
  | display d m _ ih => exact ih

/-! ## Game VM: steering, the track and the execution loop -/

/-- Claim C31: in every reachable machine whose fetched instruction has
`next_pc` = n ≠ 0, n is one of the branch targets 7, 17, 21, 25 of the sample
program, each a light-segment instruction for segment g, and `steer_event()`
returns true after one iteration of the execution loop of `tick_event`
entered at n (with no iteration allowed the model does not return): on
return the display has been given segment g by `show_segments`, the program
counter is n + 1 and the fetched instruction is instruction n. -/
theorem steer_chains_into_pause (m : Machine) (fuel : Nat) (h : Reachable m)
    (h0 : get_next_pc m.state.instruction ≠ 0) :
    get_next_pc m.state.instruction ∈ branch_targets ∧
    get_opcode (program_at (get_next_pc m.state.instruction)) = op_g ∧
    pause_index (get_next_pc m.state.instruction) = get_next_pc m.state.instruction ∧
    vm.steer_event 0 m = .timeout ∧
    vm.steer_event (fuel + 1) m =
      .ret (true, paused_at (get_next_pc m.state.instruction)
        { m with state := branched m.state }) ∧
    (paused_at (get_next_pc m.state.instruction) { m with state := branched m.state }).state.pc
      = get_next_pc m.state.instruction + 1 ∧
    (paused_at (get_next_pc m.state.instruction)
        { m with state := branched m.state }).state.instruction
      = program_at (get_next_pc m.state.instruction) ∧
    (paused_at (get_next_pc m.state.instruction) { m with state := branched m.state }).disp
      = display.show_segments display.segment.g m.disp := by
  have hb : get_next_pc m.state.instruction ∈ branch_targets :=
    (reachable_branch m h).resolve_left h0
  obtain ⟨hlt, hop, hpi, hseg⟩ := branch_targets_light _ hb
  have hne : ¬ get_opcode (program_at (get_next_pc m.state.instruction)) = 0 := by
    rw [hop]; decide
  refine ⟨hb, hop, hpi, ?_, ?_, rfl, rfl, ?_⟩
  · rw [steer_event_eq m 0 h0 hlt, if_neg hne]; rfl
  · rw [steer_event_eq m (fuel + 1) h0 hlt, if_neg hne, if_pos (by omega), hpi]
  · show display.show_segments _ m.disp = _
    rw [hseg]

/-- Witness for claim C31: the machine paused on instruction 0 (on steer goto 7)
after `reset(0)` and the first tick. -/
theorem steer_chains_into_pause_witness :
    get_next_pc first_pause.state.instruction ≠ 0 ∧
    vm.steer_event 1 first_pause =
      .ret (true, paused_at (get_next_pc first_pause.state.instruction)
        { first_pause with state := branched first_pause.state }) ∧
    (paused_at (get_next_pc first_pause.state.instruction)
      { first_pause with state := branched first_pause.state }).state.pc = 8 :=
  have h := steer_chains_into_pause first_pause 0 first_pause_reachable (by decide)
  ⟨by decide, h.2.2.2.2.1, h.2.2.2.2.2.1⟩

/-! ## Lemmas on runs of ticks -/

theorem paused_at_pc (i : Nat) (m : Machine) : (paused_at i m).state.pc = i + 1 := rfl

theorem run_ticks_pc (k : Nat) : ∀ (m : Machine) (fuel : Nat), m.state.pc < 27 →
    ∃ m', run (fuel + 2) (ticks k) m = .ret ([], m') ∧
      m'.state.pc = pc_after_ticks k m.state.pc ∧ m'.state.pc < 27 := by
  induction k with
  | zero => intro m fuel h; exact ⟨m, rfl, rfl, h⟩
  | succ k ih =>
    intro m fuel h
    have ht := tick_event_paused m h fuel
    have hlt : (paused_at (pause_index m.state.pc) m).state.pc < 27 := by
      rw [paused_at_pc]
      have := (pause_index_inside _ h).1
      omega
    obtain ⟨m', hr, hp, hl⟩ := ih (paused_at (pause_index m.state.pc) m) fuel hlt
    refine ⟨m', ?_, ?_, hl⟩
    · show run (fuel + 2) (.tick :: ticks k) m = _
      rw [run_tick _ _ _ _ ht]; exact hr
    · rw [hp]; rfl

/-- On the inner loop of the track (entries 8..16) and on the side branch that
leads into it (entries 22..24) a tick stays there, and no instruction
entered there is a jump to 0. -/
theorem inner_loop_closed : ∀ pc < 27, (8 ≤ pc ∧ pc ≤ 16) ∨ (22 ≤ pc ∧ pc ≤ 24) →
    ((8 ≤ pc_after_tick pc ∧ pc_after_tick pc ≤ 16) ∨
      (22 ≤ pc_after_tick pc ∧ pc_after_tick pc ≤ 24)) ∧ jumps_home pc = false := by
  decide

theorem inner_loop_forever (k : Nat) : ∀ pc, (8 ≤ pc ∧ pc ≤ 16) ∨ (22 ≤ pc ∧ pc ≤ 24) →
    ((8 ≤ pc_after_ticks k pc ∧ pc_after_ticks k pc ≤ 16) ∨
      (22 ≤ pc_after_ticks k pc ∧ pc_after_ticks k pc ≤ 24)) ∧
    jumps_home (pc_after_ticks k pc) = false := by
  induction k with
  | zero =>
    intro pc h
    exact ⟨h, (inner_loop_closed pc (by omega) h).2⟩
  | succ k ih =>
    intro pc h
    exact ih _ (inner_loop_closed pc (by omega) h).1

/-- Counterexample for claim C32: on the machine paused on instruction 0 (on
steer goto 7) the steer succeeds, and the ticks that follow it run 8, 9,
10, ..., 15 and the jump at 16 back to 10: after 9 ticks the machine is the
one it was after 3 ticks, so the run repeats for ever, and at none of the
program counters met on the way (all in 8..16) is there a jump back to
pc 0. -/
theorem ticks_after_branch_to_7_never_reach_home :
    run 2 (.steer :: ticks 9) first_pause = run 2 (.steer :: ticks 3) first_pause ∧
    (List.range 10).all (fun k =>
      match run 2 (.steer :: ticks k) first_pause with
      | .ret (_, m) => !jumps_home m.state.pc && decide (8 ≤ m.state.pc ∧ m.state.pc ≤ 16)
      | _ => false) = true := by
  decide

theorem route_home_from_7 (m : Machine) (fuel : Nat) :
    run (fuel + 2) [.tick, .tick, .tick, .steer, .tick, .tick] (steered_to 7 m) =
      .ret ([true], paused_at 19 (paused_at 18 (steered_to 17
        (paused_at 10 (paused_at 9 (paused_at 8 (steered_to 7 m))))))) := by
  unfold steered_to
  rw [run_tick _ _ _ _ (tick_step _ fuel 8 8 rfl (by decide) (by decide))]
  rw [run_tick _ _ _ _ (tick_step _ fuel 9 9 rfl (by decide) (by decide))]
  rw [run_tick _ _ _ _ (tick_step _ fuel 10 10 rfl (by decide) (by decide))]
  refine run_steer _ _ _ _ _ _ []
    (steer_step _ fuel (program_at 10) 17 17 rfl (by decide) (by decide)
      (by decide) (by decide)) ?_
  rw [run_tick _ _ _ _ (tick_step _ fuel 18 18 rfl (by decide) (by decide))]
  rw [run_tick _ _ _ _ (tick_step _ fuel 19 19 rfl (by decide) (by decide))]
  rfl

theorem route_home_from_21 (m : Machine) (fuel : Nat) :
    run (fuel + 2) [.tick, .tick, .tick, .steer, .tick, .tick, .tick, .tick, .tick]
        (steered_to 21 m) =
      .ret ([true], paused_at 5 (paused_at 4 (paused_at 3 (paused_at 2 (paused_at 1
        (steered_to 25 (paused_at 13 (paused_at 23 (paused_at 22 (steered_to 21 m)))))))))) := by
  unfold steered_to
  rw [run_tick _ _ _ _ (tick_step _ fuel 22 22 rfl (by decide) (by decide))]
  rw [run_tick _ _ _ _ (tick_step _ fuel 23 23 rfl (by decide) (by decide))]
  rw [run_tick _ _ _ _ (tick_step _ fuel 24 13 rfl (by decide) (by decide))]
  refine run_steer _ _ _ _ _ _ []
    (steer_step _ fuel (program_at 13) 25 25 rfl (by decide) (by decide)
      (by decide) (by decide)) ?_
  rw [run_tick _ _ _ _ (tick_step _ fuel 26 1 rfl (by decide) (by decide))]
  rw [run_tick _ _ _ _ (tick_step _ fuel 2 2 rfl (by decide) (by decide))]
  rw [run_tick _ _ _ _ (tick_step _ fuel 3 3 rfl (by decide) (by decide))]
  rw [run_tick _ _ _ _ (tick_step _ fuel 4 4 rfl (by decide) (by decide))]
  rw [run_tick _ _ _ _ (tick_step _ fuel 5 5 rfl (by decide) (by decide))]
  rfl

/-- Claim C32, amended: for every machine whose fetched instruction is one of
the branch-bearing instructions 0, 3, 10, 13 of `vm_program`, the steer
succeeds and leaves the program counter one past the branch target. From
the targets 17 and 25 (instructions 10 and 13) tick events alone reach a
jump back to pc 0 and the next tick pauses on instruction 0. From the
targets 7 and 21 (instructions 0 and 3) tick events alone never reach a jump
back to pc 0; with one further steer, taken on the inner loop, they do. -/
theorem cycle_closure (m : Machine) (fuel i : Nat) (hi : i ∈ [0, 3, 10, 13])
    (hm : m.state.instruction = program_at i) :
    ∃ m1, vm.steer_event (fuel + 2) m = .ret (true, m1) ∧
      m1.state.pc = get_next_pc (program_at i) + 1 ∧
      (∀ k, ∃ m', run (fuel + 2) (ticks k) m1 = .ret ([], m') ∧
        m'.state.pc = pc_after_ticks k m1.state.pc) ∧
      (i = 10 ∨ i = 13 → ∃ k, jumps_home (pc_after_ticks k m1.state.pc) = true ∧
        pc_after_ticks (k + 1) m1.state.pc = 1) ∧
      (i = 0 ∨ i = 3 → ∀ k, jumps_home (pc_after_ticks k m1.state.pc) = false) ∧
      (∃ evs log m', evs.count .steer ≤ 1 ∧ run (fuel + 2) evs m1 = .ret (log, m') ∧
        jumps_home m'.state.pc = true) := by
  have hticks : ∀ (m1 : Machine), m1.state.pc < 27 →
      ∀ k, ∃ m', run (fuel + 2) (ticks k) m1 = .ret ([], m') ∧
        m'.state.pc = pc_after_ticks k m1.state.pc := by
    intro m1 h1 k
    obtain ⟨m', hr, hp, _⟩ := run_ticks_pc k m1 fuel h1
    exact ⟨m', hr, hp⟩
  simp only [List.mem_cons, List.mem_singleton, List.not_mem_nil, or_false] at hi
  rcases hi with rfl | rfl | rfl | rfl
  · refine ⟨_, steer_step m fuel (program_at 0) 7 7 hm (by decide) (by decide) (by decide)
      (by decide), rfl, hticks _ (show 7 + 1 < 27 by decide), ?_, ?_, ?_⟩
    · intro h; omega
    · intro _ k
      exact (inner_loop_forever k 8 (Or.inl (by decide))).2
    · exact ⟨[.tick, .tick, .tick, .steer, .tick, .tick], [true], _, by decide,
        route_home_from_7 m fuel, (show jumps_home 20 = true by decide)⟩
  · refine ⟨_, steer_step m fuel (program_at 3) 21 21 hm (by decide) (by decide) (by decide)
      (by decide), rfl, hticks _ (show 21 + 1 < 27 by decide), ?_, ?_, ?_⟩
    · intro h; omega
    · intro _ k
      exact (inner_loop_forever k 22 (Or.inr (by decide))).2
    · exact ⟨[.tick, .tick, .tick, .steer, .tick, .tick, .tick, .tick, .tick], [true], _,
        by decide, route_home_from_21 m fuel, (show jumps_home 6 = true by decide)⟩
  · refine ⟨_, steer_step m fuel (program_at 10) 17 17 hm (by decide) (by decide) (by decide)
      (by decide), rfl, hticks _ (show 17 + 1 < 27 by decide), ?_, ?_, ?_⟩
    · intro _
      exact ⟨2, (show jumps_home (pc_after_ticks 2 18) = true by decide),
        (show pc_after_ticks 3 18 = 1 by decide)⟩
    · intro h; omega
    · obtain ⟨m', hr, hp⟩ := hticks
        (paused_at 17 { m with state := branched m.state }) (show 17 + 1 < 27 by decide) 2
      refine ⟨ticks 2, [], m', by decide, hr, ?_⟩
      rw [hp]; exact (show jumps_home (pc_after_ticks 2 18) = true by decide)
  · refine ⟨_, steer_step m fuel (program_at 13) 25 25 hm (by decide) (by decide) (by decide)
      (by decide), rfl, hticks _ (show 25 + 1 < 27 by decide), ?_, ?_, ?_⟩
    · intro _
      exact ⟨5, (show jumps_home (pc_after_ticks 5 26) = true by decide),
        (show pc_after_ticks 6 26 = 1 by decide)⟩
    · intro h; omega
    · obtain ⟨m', hr, hp⟩ := hticks
        (paused_at 25 { m with state := branched m.state }) (show 25 + 1 < 27 by decide) 5
      refine ⟨ticks 5, [], m', by decide, hr, ?_⟩
      rw [hp]; exact (show jumps_home (pc_after_ticks 5 26) = true by decide)

/-- Witness for claim C32: the machine paused on instruction 0. -/
theorem cycle_closure_witness :
    0 ∈ [0, 3, 10, 13] ∧ first_pause.state.instruction = program_at 0 ∧
    ∃ m1, vm.steer_event 2 first_pause = .ret (true, m1) ∧
      m1.state.pc = get_next_pc (program_at 0) + 1 ∧
      (∀ k, jumps_home (pc_after_ticks k m1.state.pc) = false) ∧
      (∃ evs log m', evs.count .steer ≤ 1 ∧ run 2 evs m1 = .ret (log, m') ∧
        jumps_home m'.state.pc = true) :=
  ⟨by decide, by decide,
    (cycle_closure first_pause 0 0 (by decide) (by decide)).imp
      (fun _ h => ⟨h.1, h.2.1, h.2.2.2.2.1 (Or.inl rfl), h.2.2.2.2.2⟩)⟩

/-! ## Lemmas on the execution loop -/

theorem vm_program_bytes : ∀ pc < 27, program_at pc < 256 := by decide

theorem get_opcode_byte (i : Nat) (h : i < 256) : get_opcode i ≤ 7 := by
  unfold get_opcode
  rw [Nat.shiftRight_eq_div_pow]
  omega

theorem fetch_byte (s s' : State) (h : s.fetch = some s') :
    s'.instruction < 256 ∧ s'.score = s.score ∧ s'.cars = s.cars ∧ s'.speed = s.speed ∧
    s'.ticks = s.ticks ∧ s'.pc = s.pc ∧ s.pc < 27 := by
  by_cases hpc : s.pc < 27
  · rw [fetch_inside s hpc] at h
    cases h
    exact ⟨vm_program_bytes _ hpc, rfl, rfl, rfl, rfl, rfl, hpc⟩
  · have hn : vm_program[s.pc]? = none := by
      apply List.getElem?_eq_none
      rw [vm_program_length]; omega
    simp [State.fetch, hn] at h

/-- The shape of one `exec` step on an instruction byte: a jump fetches its
target and asks for another step, a light-segment instruction shows its
segment and pauses; only the program counter, the fetched instruction and
the display change. -/
theorem exec_byte (m : Machine) (hb : m.state.instruction < 256) :
    (get_opcode m.state.instruction = 0 ∧
      ((get_next_pc m.state.instruction < 27 ∧ exec m = .ret (.vm_exec,
          { m with state := { m.state with pc := get_next_pc m.state.instruction,
                                           instruction :=
                                             program_at (get_next_pc m.state.instruction) } })) ∨
        (¬ get_next_pc m.state.instruction < 27 ∧ exec m = .outside))) ∨
    (get_opcode m.state.instruction ≠ 0 ∧ exec m = .ret (.vm_pause,
      { state := { m.state with pc := (m.state.pc + 1) % 256 },
        disp := display.show_segments (opcode_segment (get_opcode m.state.instruction))
          m.disp })) := by
  by_cases h0 : get_opcode m.state.instruction = 0
  · left
    refine ⟨h0, ?_⟩
    by_cases ht : get_next_pc m.state.instruction < 27
    · exact Or.inl ⟨ht, exec_jump m h0 ht⟩
    · right
      refine ⟨ht, ?_⟩
      have hn : vm_program[get_next_pc m.state.instruction]? = none := by
        apply List.getElem?_eq_none
        rw [vm_program_length]; omega
      simp [exec, h0, State.fetch, hn]
  · right
    exact ⟨h0, exec_light m (by omega) (get_opcode_byte _ hb)⟩

theorem exec_loop_byte (fuel : Nat) : ∀ m : Machine, m.state.instruction < 256 →
    (∀ h, vm.exec_loop fuel m ≠ .halted h) ∧
    (∀ m', vm.exec_loop fuel m = .ret m' →
      m'.state.score = m.state.score ∧ m'.state.cars = m.state.cars ∧
      m'.state.speed = m.state.speed ∧ m'.state.ticks = m.state.ticks) := by
  induction fuel with
  | zero =>
    intro m _
    exact ⟨(fun h e => by cases e), (fun m' e => by cases e)⟩
  | succ fuel ih =>
    intro m hb
    rcases exec_byte m hb with ⟨_, ⟨ht, e⟩ | ⟨_, e⟩⟩ | ⟨_, e⟩
    · have hb2 := vm_program_bytes _ ht
      obtain ⟨i1, i2⟩ := ih _ (show ({ m with state := { m.state with
        pc := get_next_pc m.state.instruction,
        instruction := program_at (get_next_pc m.state.instruction) } } : Machine).state.instruction
          < 256 from hb2)
      simp only [vm.exec_loop, e]
      exact ⟨i1, i2⟩
    · simp only [vm.exec_loop, e]
      exact ⟨(fun h e => by cases e), (fun m' e => by cases e)⟩
    · simp only [vm.exec_loop, e]
      refine ⟨(fun h e => by cases e), (fun m' e => ?_)⟩
      cases e
      exact ⟨rfl, rfl, rfl, rfl⟩

theorem tick_event_any (fuel : Nat) (m : Machine) :
    (∀ h, vm.tick_event fuel m ≠ .halted h) ∧
    (∀ m', vm.tick_event fuel m = .ret m' →
      m'.state.score = m.state.score ∧ m'.state.cars = m.state.cars ∧
      m'.state.speed = m.state.speed ∧ m'.state.ticks = m.state.ticks) := by
  unfold vm.tick_event
  cases hf : m.state.fetch with
  | none => exact ⟨(fun h e => by cases e), (fun m' e => by cases e)⟩
  | some s =>
    obtain ⟨hb, h1, h2, h3, h4, _, _⟩ := fetch_byte _ _ hf
    obtain ⟨i1, i2⟩ := exec_loop_byte fuel { m with state := s } hb
    refine ⟨i1, fun m' e => ?_⟩
    obtain ⟨a, b, c, d⟩ := i2 m' e
    exact ⟨a.trans h1, b.trans h2, c.trans h3, d.trans h4⟩

theorem steer_event_any (fuel : Nat) (m : Machine) :
    ∀ h, vm.steer_event fuel m ≠ .halted h := by
  intro h
  unfold vm.steer_event
  cases hs : m.state.steer with
  | none => intro e; cases e
  | some p =>
    obtain ⟨r, s⟩ := p
    cases r with
    | vm_pause => intro e; cases e
    | vm_stop => intro e; cases e
    | vm_exec =>
      simp only
      cases ht : vm.tick_event fuel { m with state := s } with
      | ret m' => intro e; cases e
      | halted h' => exact absurd ht ((tick_event_any fuel _).1 h')
      | outside => intro e; cases e
      | timeout => intro e; cases e

theorem run_any (fuel : Nat) (evs : List Event) :
    ∀ (m : Machine) (h : Machine), run fuel evs m ≠ .halted h := by
  induction evs with
  | nil => intro m h e; cases e
  | cons ev es ih =>
    intro m h
    cases ev with
    | tick =>
      simp only [run]
      cases ht : vm.tick_event fuel m with
      | ret m' => exact ih m' h
      | halted h' => exact absurd ht ((tick_event_any fuel m).1 h')
      | outside => intro e; cases e
      | timeout => intro e; cases e
    | steer =>
      simp only [run]
      cases ht : vm.steer_event fuel m with
      | ret p =>
        obtain ⟨b, m'⟩ := p
        simp only
        cases hr : run fuel es m' with
        | ret q => intro e; cases e
        | halted h' => exact absurd hr (ih m' h')
        | outside => intro e; cases e
        | timeout => intro e; cases e
      | halted h' => exact absurd ht (steer_event_any fuel m h')
      | outside => intro e; cases e
      | timeout => intro e; cases e

theorem run_inside (fuel : Nat) (evs : List Event) :
    ∀ m : Machine, Reachable m → run fuel evs m ≠ .outside := by
  induction evs with
  | nil => intro m _ e; cases e
  | cons ev es ih =>
    intro m hm
    have hin := (inside_iff m).1 (reachable_inside m hm)
    cases ev with
    | tick =>
      simp only [run]
      cases ht : vm.tick_event fuel m with
      | ret m' => exact ih m' (Reachable.tick fuel m m' hm ht)
      | halted h' => intro e; cases e
      | outside =>
        rw [tick_event_eq m hin.1 fuel] at ht
        split_ifs at ht
      | timeout => intro e; cases e
    | steer =>
      simp only [run]
      cases ht : vm.steer_event fuel m with
      | ret p =>
        obtain ⟨b, m'⟩ := p
        simp only
        cases hr : run fuel es m' with
        | ret q => intro e; cases e
        | halted h' => intro e; cases e
        | outside => exact absurd hr (ih m' (Reachable.steer fuel m m' b hm ht))
        | timeout => intro e; cases e
      | halted h' => intro e; cases e
      | outside =>
        by_cases h0 : get_next_pc m.state.instruction = 0
        · rw [steer_event_crash m fuel h0] at ht; cases ht
        · rw [steer_event_eq m fuel h0 hin.2] at ht
          split_ifs at ht
      | timeout => intro e; cases e

/-- Claim C34: in every machine reachable from the zero-initialised state by
`reset`, `tick_event` and `steer_event` calls, in any order, the program
counter is at most 26 and so is the branch target of the fetched
instruction; the fetch of `tick_event` reads inside the 27-entry table, and
no `tick_event`, `steer_event` or sequence of such calls made from there
reads outside it, whatever the iteration budget. -/
theorem pc_stays_inside (m : Machine) (fuel : Nat) (h : Reachable m) :
    m.state.pc ≤ 26 ∧
    get_next_pc m.state.instruction ≤ 26 ∧
    m.state.pc < vm_program.length ∧
    m.state.fetch = some { m.state with instruction := program_at m.state.pc } ∧
    vm.tick_event fuel m ≠ .outside ∧
    vm.steer_event fuel m ≠ .outside ∧
    (∀ evs, run fuel evs m ≠ .outside) := by
  have hin := (inside_iff m).1 (reachable_inside m h)
  refine ⟨by omega, by omega, (reachable_inside m h).1, fetch_inside _ hin.1, ?_, ?_,
    fun evs => run_inside fuel evs m h⟩
  · have := run_inside fuel [.tick] m h
    intro e
    apply this
    simp only [run, e]
  · have := run_inside fuel [.steer] m h
    intro e
    apply this
    simp only [run, e]

/-- Witness for claim C34: the machine at power-on, steered twice before the
first tick. -/
theorem pc_stays_inside_witness :
    Reachable power_on ∧ power_on.state.pc ≤ 26 ∧
    run 2 [.steer, .steer, .tick] power_on ≠ .outside :=
  have h := pc_stays_inside power_on 2 (Reachable.boot _)
  ⟨Reachable.boot _, h.1, h.2.2.2.2.2.2 _⟩

/-- Claim C35: for every 8-bit instruction value `get_opcode` yields a value in
0..7, each a defined opcode: on opcode 0 `exec()` jumps and returns vm_exec
(in the model: unless the target lies outside the 27-entry table, which
is a fetch outside the program and not the fatal branch), on opcodes 1..7
it shows the segment and returns vm_pause. It never takes the fatal branch,
and neither do the execution loop, `tick_event`, `steer_event` or any
sequence of calls, from any machine. -/
theorem fatal_branch_unreachable (m : Machine) (fuel : Nat) (hb : m.state.instruction < 256) :
    get_opcode m.state.instruction ≤ 7 ∧
    (get_opcode m.state.instruction = op_jump → get_next_pc m.state.instruction < 27 →
      ∃ m', exec m = .ret (.vm_exec, m')) ∧
    (get_opcode m.state.instruction = op_jump → ¬ get_next_pc m.state.instruction < 27 →
      exec m = .outside) ∧
    (get_opcode m.state.instruction ≠ op_jump → ∃ m', exec m = .ret (.vm_pause, m') ∧
      m'.disp = display.show_segments (opcode_segment (get_opcode m.state.instruction)) m.disp ∧
      opcode_segment (get_opcode m.state.instruction) ∈
        [display.segment.a, display.segment.b, display.segment.c, display.segment.d,
         display.segment.e, display.segment.f, display.segment.g]) ∧
    (∀ h, exec m ≠ .halted h) ∧
    (∀ r m', exec m = .ret (r, m') → r = .vm_exec ∨ r = .vm_pause) ∧
    (∀ h, vm.exec_loop fuel m ≠ .halted h) ∧
    (∀ (m0 h : Machine), vm.tick_event fuel m0 ≠ .halted h) ∧
    (∀ (m0 h : Machine), vm.steer_event fuel m0 ≠ .halted h) ∧
    (∀ (evs : List Event) (m0 h : Machine), run fuel evs m0 ≠ .halted h) := by
  have h7 := get_opcode_byte _ hb
  have hseg : ∀ op, op ≠ 0 → op ≤ 7 → opcode_segment op ∈
      [display.segment.a, display.segment.b, display.segment.c, display.segment.d,
       display.segment.e, display.segment.f, display.segment.g] := by
    intro op h0 h7
    interval_cases op
    · exact absurd rfl h0
    all_goals decide
  refine ⟨h7, ?_, ?_, ?_, ?_, ?_, (exec_loop_byte fuel m hb).1,
    (fun m0 h => (tick_event_any fuel m0).1 h), (fun m0 h => steer_event_any fuel m0 h),
    (fun evs m0 h => run_any fuel evs m0 h)⟩
  · intro h0 ht
    rcases exec_byte m hb with ⟨_, ⟨_, e⟩ | ⟨hn, _⟩⟩ | ⟨hn, _⟩
    · exact ⟨_, e⟩
    · exact absurd ht hn
    · exact absurd h0 hn
  · intro h0 ht
    rcases exec_byte m hb with ⟨_, ⟨hn, _⟩ | ⟨_, e⟩⟩ | ⟨hn, _⟩
    · exact absurd hn ht
    · exact e
    · exact absurd h0 hn
  · intro h0
    rcases exec_byte m hb with ⟨hn, _⟩ | ⟨_, e⟩
    · exact absurd hn h0
    · exact ⟨_, e, rfl, hseg _ h0 h7⟩
  · intro h
    rcases exec_byte m hb with ⟨_, ⟨_, e⟩ | ⟨_, e⟩⟩ | ⟨_, e⟩ <;> rw [e] <;> intro c <;> cases c
  · intro r m' hr
    rcases exec_byte m hb with ⟨_, ⟨_, e⟩ | ⟨_, e⟩⟩ | ⟨_, e⟩ <;> rw [e] at hr <;> cases hr
    · exact Or.inl rfl
    · exact Or.inr rfl

/-- Witness for claim C35: the byte 0xFF (opcode 7, light segment g) as the
fetched instruction of the machine at power-on. -/
theorem fatal_branch_unreachable_witness :
    ({ power_on with state := { State.zero with instruction := 0xFF } } : Machine).state.instruction
      < 256 ∧
    get_opcode 0xFF ≤ 7 ∧
    (∀ h, exec { power_on with state := { State.zero with instruction := 0xFF } } ≠ .halted h) :=
  have h := fatal_branch_unreachable
    { power_on with state := { State.zero with instruction := 0xFF } } 2 (by decide)
  ⟨by decide, h.1, h.2.2.2.2.1⟩

theorem jumps_land_on_lights : ∀ pc < 27, get_opcode (program_at pc) = op_jump →
    get_next_pc (program_at pc) < 27 ∧
    get_opcode (program_at (get_next_pc (program_at pc))) ≠ op_jump := by
  decide

theorem pause_segment : ∀ pc < 27,
    get_opcode (program_at (pause_index pc)) ≠ op_jump ∧
    opcode_segment (get_opcode (program_at (pause_index pc))) ∈
      [display.segment.a, display.segment.b, display.segment.c, display.segment.d,
       display.segment.e, display.segment.f, display.segment.g] := by
  decide

/-- Claim C36: no jump instruction of `vm_program` targets another jump
instruction, so from every program counter in 0..26 `tick_event` returns
after at most two iterations of its execution loop (one when the
instruction at `pc` lights a segment; two, the first a jump, when it is a
jump: with one iteration allowed the model then does not return), paused
on a light-segment instruction, and the display it leaves is the result of
one `show_segments` call with one of the masks a..g on the display it
found. -/
theorem tick_event_terminates (m : Machine) (fuel : Nat) (h : m.state.pc < 27) :
    (get_opcode (program_at m.state.pc) = op_jump →
      get_next_pc (program_at m.state.pc) < 27 ∧
      get_opcode (program_at (get_next_pc (program_at m.state.pc))) ≠ op_jump) ∧
    vm.tick_event (fuel + 2) m = .ret (paused_at (pause_index m.state.pc) m) ∧
    (get_opcode (program_at m.state.pc) ≠ op_jump →
      pause_index m.state.pc = m.state.pc ∧
      vm.tick_event 1 m = .ret (paused_at m.state.pc m)) ∧
    (get_opcode (program_at m.state.pc) = op_jump →
      pause_index m.state.pc = get_next_pc (program_at m.state.pc) ∧
      vm.tick_event 1 m = .timeout) ∧
    vm.tick_event 0 m = .timeout ∧
    get_opcode (program_at (pause_index m.state.pc)) ≠ op_jump ∧
    (paused_at (pause_index m.state.pc) m).disp =
      display.show_segments (opcode_segment (get_opcode (program_at (pause_index m.state.pc))))
        m.disp ∧
    opcode_segment (get_opcode (program_at (pause_index m.state.pc))) ∈
      [display.segment.a, display.segment.b, display.segment.c, display.segment.d,
       display.segment.e, display.segment.f, display.segment.g] := by
  refine ⟨jumps_land_on_lights _ h, tick_event_paused m h fuel, ?_, ?_, ?_,
    (pause_segment _ h).1, rfl, (pause_segment _ h).2⟩
  · intro hn
    have hp : pause_index m.state.pc = m.state.pc := by
      unfold pause_index; rw [if_neg hn]
    refine ⟨hp, ?_⟩
    rw [tick_event_eq m h 1, if_neg hn, if_pos (le_refl 1), hp]
  · intro hj
    have hp : pause_index m.state.pc = get_next_pc (program_at m.state.pc) := by
      unfold pause_index; rw [if_pos hj]
    refine ⟨hp, ?_⟩
    rw [tick_event_eq m h 1, if_pos hj, if_neg (by decide)]
  · rw [tick_event_eq m h 0]
    split_ifs <;> first | rfl | omega

/-- Witness for claim C36: a tick entered at the jump of entry 16 (goto 10). -/
theorem tick_event_terminates_witness :
    ({ power_on with state := { State.zero with pc := 16 } } : Machine).state.pc < 27 ∧
    vm.tick_event 2 { power_on with state := { State.zero with pc := 16 } } =
      .ret (paused_at 10 { power_on with state := { State.zero with pc := 16 } }) ∧
    vm.tick_event 1 { power_on with state := { State.zero with pc := 16 } } = .timeout :=
  have h := tick_event_terminates { power_on with state := { State.zero with pc := 16 } } 0
    (by decide)
  ⟨by decide, h.2.1, (h.2.2.2.1 (by decide)).2⟩

/-- Claim C37: a `tick_event()` that returns leaves score, remaining cars, speed
and step-ticks as they were, from every machine; from a machine whose
program counter and branch target are inside the program it does return.
Consequently over any sequence of tick and steer events without a crash the
speed does not decrease. -/
theorem tick_event_frame (m : Machine) (fuel : Nat) (h : Inside m)
    (hs : m.state.speed < 256) :
    (∀ (m0 m' : Machine) (f : Nat), vm.tick_event f m0 = .ret m' →
      m'.state.score = m0.state.score ∧ m'.state.cars = m0.state.cars ∧
      m'.state.speed = m0.state.speed ∧ m'.state.ticks = m0.state.ticks) ∧
    (∃ m', vm.tick_event (fuel + 2) m = .ret m' ∧
      m'.state.score = m.state.score ∧ m'.state.cars = m.state.cars ∧
      m'.state.speed = m.state.speed ∧ m'.state.ticks = m.state.ticks ∧ Inside m') ∧
    (∀ evs : List Event, ∃ log m', run (fuel + 2) evs m = .ret (log, m') ∧
      (log.count false = 0 → m.state.speed ≤ m'.state.speed)) := by
  have hin := (inside_iff m).1 h
  refine ⟨fun m0 m' f e => (tick_event_any f m0).2 m' e, ?_, ?_⟩
  · have e := tick_event_paused m hin.1 fuel
    obtain ⟨a, b, c, d⟩ := (tick_event_any (fuel + 2) m).2 _ e
    exact ⟨_, e, a, b, c, d, paused_at_inside m _ hin.1⟩
  · intro evs
    obtain ⟨log, m', hr, _, _, _, _, _, _, _, h9⟩ := run_returns evs m fuel h
    refine ⟨log, m', hr, fun hc => ?_⟩
    rw [h9 hs hc]
    omega

/-- Witness for claim C37: the machine in mid-game. -/
theorem tick_event_frame_witness :
    Inside mid_game ∧ mid_game.state.speed < 256 ∧
    (∃ m', vm.tick_event 2 mid_game = .ret m' ∧
      m'.state.score = mid_game.state.score ∧ m'.state.cars = mid_game.state.cars ∧
      m'.state.speed = mid_game.state.speed ∧ m'.state.ticks = mid_game.state.ticks ∧
      Inside m') :=
  ⟨by decide, by decide, (tick_event_frame mid_game 0 (by decide) (by decide)).2.1⟩

/-! ## Clock service: the handlers before initialisation -/

set_option maxRecDepth 100000 in
/-- Counterexample for claim C33: at power-on `timer::init()` has not run; the
1 Hz handler executed there sets the second counter to 1, the tick handler
sets the tick counter to 1, and the 256th execution of the tick handler
sets the triggered flag. -/
theorem handlers_count_before_init :
    timer.power_on.inited = false ∧
    (timer.RTC_PIT_vect timer.power_on).elapsed_secs = 1 ∧
    (timer.RTC_CNT_vect timer.power_on).elapsed_ticks = 1 ∧
    (timer.after_ticks 255 timer.power_on).inited = false ∧
    (timer.after_ticks 255 timer.power_on).compare_triggered = false ∧
    (timer.RTC_CNT_vect (timer.after_ticks 255 timer.power_on)).compare_triggered = true := by
  decide

/-- Claim C33, amended: the two clock interrupt handlers do not test whether
the Clock Service is initialised. In a state where `timer::init()` has not
run, as in every other state, the 1 Hz handler increments the second
counter modulo 65536 and the tick handler increments the tick counter
modulo 256 and sets the triggered flag when the new count equals the
deadline; neither handler is idempotent, and neither changes the
initialisation flag, the deadline or whether it is enabled. What
`timer::init()` adds is the enabling of the two interrupts (both are
disabled at power-on); it leaves the counters as they are. -/
theorem handlers_ignore_inited (t : Timer) (h : t.inited = false) :
    (timer.RTC_PIT_vect t).elapsed_secs = (t.elapsed_secs + 1) % 65536 ∧
    (timer.RTC_CNT_vect t).elapsed_ticks = (t.elapsed_ticks + 1) % 256 ∧
    (timer.RTC_CNT_vect t).compare_triggered
      = (t.compare_triggered || decide ((t.elapsed_ticks + 1) % 256 = t.compare_ticks)) ∧
    timer.RTC_PIT_vect (timer.RTC_PIT_vect t) ≠ timer.RTC_PIT_vect t ∧
    timer.RTC_CNT_vect (timer.RTC_CNT_vect t) ≠ timer.RTC_CNT_vect t ∧
    (timer.RTC_PIT_vect t).inited = false ∧ (timer.RTC_CNT_vect t).inited = false ∧
    (timer.RTC_CNT_vect t).compare_ticks = t.compare_ticks ∧
    (timer.RTC_CNT_vect t).compare_enabled = t.compare_enabled ∧
    timer.RTC_PIT_vect (timer.init t) = { timer.init t with
      elapsed_secs := (t.elapsed_secs + 1) % 65536 } ∧
    (timer.RTC_CNT_vect (timer.init t)).elapsed_ticks = (t.elapsed_ticks + 1) % 256 ∧
    (timer.init t).inited = true ∧
    (timer.init t).elapsed_secs = t.elapsed_secs ∧
    (timer.init t).elapsed_ticks = t.elapsed_ticks ∧
    (timer.init t).rtc_intctrl = timer.RTC_OVF_bm ∧
    (timer.init t).rtc_pitintctrl = timer.RTC_PI_bm ∧
    timer.power_on.rtc_intctrl = 0 ∧ timer.power_on.rtc_pitintctrl = 0 := by
  obtain ⟨i, et, es, ce, ct, cmp, r1, r2⟩ := t
  simp only at h
  subst h
  have hcnt : ∀ s : Timer, (timer.RTC_CNT_vect s).elapsed_ticks = (s.elapsed_ticks + 1) % 256 ∧
      (timer.RTC_CNT_vect s).compare_triggered
        = (s.compare_triggered || decide ((s.elapsed_ticks + 1) % 256 = s.compare_ticks)) ∧
      (timer.RTC_CNT_vect s).inited = s.inited ∧
      (timer.RTC_CNT_vect s).compare_ticks = s.compare_ticks ∧
      (timer.RTC_CNT_vect s).compare_enabled = s.compare_enabled := by
    intro s
    unfold timer.RTC_CNT_vect
    by_cases e : (s.elapsed_ticks + 1) % 256 = s.compare_ticks
    · simp [e]
    · simp [e]
  refine ⟨rfl, (hcnt _).1, (hcnt _).2.1, ?_, ?_, rfl, (hcnt _).2.2.1, (hcnt _).2.2.2.1,
    (hcnt _).2.2.2.2, rfl, (hcnt _).1, rfl, rfl, rfl, rfl, rfl, rfl, rfl⟩
  · intro e
    have e2 := congrArg Timer.elapsed_secs e
    simp only [timer.RTC_PIT_vect] at e2
    omega
  · intro e
    have e2 := congrArg Timer.elapsed_ticks e
    rw [(hcnt _).1, (hcnt _).1] at e2
    simp only at e2
    omega

/-- Witness for claim C33: the timer at power-on. -/
theorem handlers_ignore_inited_witness :
    timer.power_on.inited = false ∧
    (timer.RTC_PIT_vect timer.power_on).elapsed_secs = (timer.power_on.elapsed_secs + 1) % 65536 ∧
    (timer.RTC_CNT_vect timer.power_on).elapsed_ticks
      = (timer.power_on.elapsed_ticks + 1) % 256 :=
  have h := handlers_ignore_inited timer.power_on rfl
  ⟨rfl, h.1, h.2.1⟩

/-! ## Display driver: at most one line is high -/

theorem line_high_congr (s : Nat) (d d' : Display) (ha : d.porta = d'.porta)
    (hb : d.portb = d'.portb) : display.line_high s d = display.line_high s d' := by
  unfold display.line_high
  rw [ha, hb]

theorem lines_high_congr (d d' : Display) (ha : d.porta = d'.porta) (hb : d.portb = d'.portb) :
    display.lines_high d = display.lines_high d' := by
  unfold display.lines_high
  congr 1
  funext s
  exact line_high_congr s d d' ha hb

theorem lines_high_of_low (d : Display) (h : ∀ s, display.line_high s d = false) :
    display.lines_high d = 0 := by
  unfold display.lines_high
  rw [List.countP_eq_zero]
  intro s _
  rw [h s]; decide

theorem lines_high_isr (d : Display) (hc : d.mux_count < 8) :
    display.lines_high (display.TCB0_INT_vect d) ≤ 1 := by
  have e : List.range 8 = [0, 1, 2, 3, 4, 5, 6, 7] := by decide
  unfold display.lines_high
  rw [e]
  simp only [List.countP_cons, List.countP_nil]
  rw [isr_lines d hc 0 (by decide), isr_lines d hc 1 (by decide), isr_lines d hc 2 (by decide),
    isr_lines d hc 3 (by decide), isr_lines d hc 4 (by decide), isr_lines d hc 5 (by decide),
    isr_lines d hc 6 (by decide), isr_lines d hc 7 (by decide)]
  generalize display.bit_set d.current_segs d.mux_count = b
  generalize d.mux_count = c at hc
  interval_cases c <;> cases b <;> decide

theorem show_segments_ports (map : Nat) (d : Display) :
    (display.show_segments map d).porta = d.porta ∧
    (display.show_segments map d).portb = d.portb ∧
    ((display.show_segments map d).mux_count = 0 ∨
      (display.show_segments map d).mux_count = d.mux_count) := by
  obtain ⟨i, m, c, r, pa, pb⟩ := d
  by_cases h0 : map % 256 = 0 <;> cases r <;>
    simp [display.show_segments, display.start_timer, display.stop_timer, h0]

theorem init_lines (d : Display) (h : d.inited = false) :
    (∀ s, display.line_high s (display.init d) = false) ∧
    (display.init d).mux_count = d.mux_count := by
  have e : display.init d = { display.drive.none d with
      current_segs := 0, tcb_run := false, inited := true } := by
    simp only [display.init, h, Bool.false_eq_true, if_false, display.setup_timer,
      display.drive.none]
    rfl
  refine ⟨fun s => ?_, ?_⟩
  · rw [e]
    exact (line_high_congr s _ (display.drive.none d) rfl rfl).trans (line_high_none d s)
  · rw [e]; rfl

theorem off_lines (d : Display) :
    (∀ s, display.line_high s (display.off d) = false) ∧
    (display.off d).mux_count = d.mux_count := by
  obtain ⟨i, m, c, r, pa, pb⟩ := d
  refine ⟨fun s => line_high_none _ s, ?_⟩
  cases r <;> rfl

/-- One event keeps the invariant. -/
theorem one_hot_step (e : display.DisplayEvent) (d : Display)
    (h : display.lines_high d ≤ 1 ∧ d.mux_count < 8) :
    display.lines_high (display.step e d) ≤ 1 ∧ (display.step e d).mux_count < 8 := by
  cases e with
  | mux_irq =>
    refine ⟨lines_high_isr d h.2, ?_⟩
    show (display.TCB0_INT_vect d).mux_count < 8
    rw [isr_cursor]; exact Nat.mod_lt _ (by decide)
  | init =>
    show display.lines_high (display.init d) ≤ 1 ∧ (display.init d).mux_count < 8
    by_cases hi : d.inited = true
    · have e : display.init d = d := by simp [display.init, hi]
      rw [e]; exact h
    · have hi2 : d.inited = false := by simpa using hi
      obtain ⟨l, c⟩ := init_lines d hi2
      rw [lines_high_of_low _ l, c]
      exact ⟨by decide, h.2⟩
  | off =>
    show display.lines_high (display.off d) ≤ 1 ∧ (display.off d).mux_count < 8
    obtain ⟨l, c⟩ := off_lines d
    rw [lines_high_of_low _ l, c]
    exact ⟨by decide, h.2⟩
  | show_char code =>
    show display.lines_high (display.show_segments _ d) ≤ 1 ∧
      (display.show_segments _ d).mux_count < 8
    obtain ⟨a, b, c⟩ := show_segments_ports (display.char_to_segs code) d
    rw [lines_high_congr _ d a b]
    exact ⟨h.1, by rcases c with c | c <;> rw [c] <;> omega⟩
  | show_segments map =>
    show display.lines_high (display.show_segments _ d) ≤ 1 ∧
      (display.show_segments _ d).mux_count < 8
    obtain ⟨a, b, c⟩ := show_segments_ports map d
    rw [lines_high_congr _ d a b]
    exact ⟨h.1, by rcases c with c | c <;> rw [c] <;> omega⟩

theorem one_hot_after (evs : List display.DisplayEvent) :
    ∀ d : Display, display.lines_high d ≤ 1 ∧ d.mux_count < 8 →
      display.lines_high (display.after evs d) ≤ 1 ∧ (display.after evs d).mux_count < 8 := by
  induction evs with
  | nil => intro d h; exact h
  | cons e es ih => intro d h; exact ih _ (one_hot_step e d h)

/-- Claim C38: after `display::init()` at power-on, whatever the two output
latches held, and any sequence of multiplexer interrupts and `init`, `off`,
`show_char` and `show_segments` calls, at most one of the 8 segment lines
is high and the slot cursor is in 0..7. -/
theorem one_hot_invariant (pa pb : Nat) (evs : List display.DisplayEvent) :
    display.lines_high
      (display.after (.init :: evs) { display.power_on with porta := pa, portb := pb }) ≤ 1 ∧
    (display.after (.init :: evs) { display.power_on with porta := pa, portb := pb }).mux_count
      < 8 := by
  refine one_hot_after evs _ ?_
  obtain ⟨l, c⟩ := init_lines { display.power_on with porta := pa, portb := pb } rfl
  show display.lines_high (display.init _) ≤ 1 ∧ (display.init _).mux_count < 8
  rw [lines_high_of_low _ l, c]
  exact ⟨by decide, (show (0 : Nat) < 8 by decide)⟩

/-! ## Relay: the bytes sent down the chain -/

theorem enqueue_sending (code map : Nat) (s : serial.Serial) :
    (serial.enqueue_mapped_chars code map s).tx_index = 1 ∧
    (serial.enqueue_mapped_chars code map s).tx_code = code ∧
    (serial.enqueue_mapped_chars code map s).tx_map = map ∧
    (serial.enqueue_mapped_chars code map s).txdata
      = s.txdata ++ [if display.bit_set map 1 then code else ' '.toNat] := by
  refine ⟨rfl, rfl, rfl, ?_⟩
  show s.txdata ++ [if map &&& (1 <<< 1) ≠ 0 then code else ' '.toNat] = _
  by_cases h : map &&& (1 <<< 1) ≠ 0
  · rw [if_pos h, if_pos ((bit_set_iff map 1).1 h)]
  · have h2 : ¬ display.bit_set map 1 = true := fun c => h ((bit_set_iff map 1).2 c)
    rw [if_neg h, if_neg h2]

theorem txc_sending (s : serial.Serial) (h : s.tx_index < 6) :
    (serial.USART0_TXC_vect s).tx_index = s.tx_index + 1 ∧
    (serial.USART0_TXC_vect s).tx_code = s.tx_code ∧
    (serial.USART0_TXC_vect s).tx_map = s.tx_map ∧
    (serial.USART0_TXC_vect s).txdata = s.txdata ++
      [if display.bit_set s.tx_map (s.tx_index + 1) then s.tx_code else ' '.toNat] := by
  have e : (s.tx_index + 1) % 256 = s.tx_index + 1 := Nat.mod_eq_of_lt (by omega)
  simp only [serial.USART0_TXC_vect, h, if_true, e]
  refine ⟨trivial, trivial, trivial, ?_⟩
  by_cases hb : s.tx_map &&& (1 <<< (s.tx_index + 1)) ≠ 0
  · rw [if_pos hb, if_pos ((bit_set_iff _ _).1 hb)]
  · have h2 : ¬ display.bit_set s.tx_map (s.tx_index + 1) = true :=
      fun c => hb ((bit_set_iff _ _).2 c)
    rw [if_neg hb, if_neg h2]

theorem txc_done (s : serial.Serial) (h : ¬ s.tx_index < 6) :
    serial.USART0_TXC_vect s = s := by
  simp only [serial.USART0_TXC_vect, h, if_false]

theorem after_txc_done (k : Nat) : ∀ s : serial.Serial, ¬ s.tx_index < 6 →
    serial.after_txc k s = s := by
  induction k with
  | zero => intro s _; rfl
  | succ k ih =>
    intro s h
    show serial.after_txc k (serial.USART0_TXC_vect s) = s
    rw [txc_done s h]; exact ih s h

/-- From index `i` the handler sends the bytes of the bits `i + 1`, ..., 6, one per
interrupt, and nothing after them. -/
theorem after_txc_sending (k : Nat) : ∀ (s : serial.Serial), s.tx_index ≤ 6 →
    (serial.after_txc k s).txdata = s.txdata ++
      (List.range' (s.tx_index + 1) (min k (6 - s.tx_index))).map
        (fun i => if display.bit_set s.tx_map i then s.tx_code else ' '.toNat) ∧
    (serial.after_txc k s).tx_index = min (s.tx_index + k) 6 := by
  induction k with
  | zero =>
    intro s h
    simp [serial.after_txc]
    omega
  | succ k ih =>
    intro s h
    by_cases h6 : s.tx_index < 6
    · obtain ⟨a, b, c, d⟩ := txc_sending s h6
      obtain ⟨i1, i2⟩ := ih (serial.USART0_TXC_vect s) (by rw [a]; omega)
      show (serial.after_txc k (serial.USART0_TXC_vect s)).txdata = _ ∧
        (serial.after_txc k (serial.USART0_TXC_vect s)).tx_index = _
      rw [i1, i2, a, b, c, d]
      refine ⟨?_, by omega⟩
      have e : min (k + 1) (6 - s.tx_index) = min k (6 - (s.tx_index + 1)) + 1 := by omega
      rw [e, List.range'_succ, List.map_cons, List.append_assoc]
      rfl
    · rw [after_txc_done _ s h6]
      have e : min (k + 1) (6 - s.tx_index) = 0 := by omega
      rw [e]
      simp
      omega

/-- Claim C39: for every received code, with `m` its segment map, the root
module shows the code if bit 0 of `m` is set and a space otherwise, and hands
the chain the byte of bit 1 at once; each of the next five
transmit-complete interrupts sends the byte of the next bit, so that 6
bytes are sent in all, the i-th (i = 1..6) being the code if bit i of `m`
is set and a space otherwise, and every further transmit-complete interrupt
sends nothing: bit 7 produces no byte. -/
theorem relay_mapping (b : smart_display.Module) (code k : Nat) (hc : b.ser.rx_code = code) :
    (smart_display.on_data true b).disp =
      display.show_char
        (if display.bit_set (display.char_to_segs code) 0 then code else ' '.toNat) b.disp ∧
    (smart_display.on_data true b).ser.txdata = b.ser.txdata ++ [smart_display.relayed code 1] ∧
    (serial.after_txc k (smart_display.on_data true b).ser).txdata =
      b.ser.txdata ++ (List.range' 1 (min (k + 1) 6)).map (smart_display.relayed code) ∧
    (5 ≤ k → (serial.after_txc k (smart_display.on_data true b).ser).txdata =
      b.ser.txdata ++ [smart_display.relayed code 1, smart_display.relayed code 2,
        smart_display.relayed code 3, smart_display.relayed code 4,
        smart_display.relayed code 5, smart_display.relayed code 6]) ∧
    serial.USART0_TXC_vect (serial.after_txc 5 (smart_display.on_data true b).ser)
      = serial.after_txc 5 (smart_display.on_data true b).ser := by
  subst hc
  have hs : (smart_display.on_data true b).ser
      = serial.enqueue_mapped_chars b.ser.rx_code (display.char_to_segs b.ser.rx_code)
          (serial.get_data b.ser).2 := rfl
  obtain ⟨e1, e2, e3, e4⟩ := enqueue_sending b.ser.rx_code
    (display.char_to_segs b.ser.rx_code) (serial.get_data b.ser).2
  have hseq : ∀ k, (serial.after_txc k (smart_display.on_data true b).ser).txdata =
      b.ser.txdata ++ (List.range' 1 (min (k + 1) 6)).map
        (smart_display.relayed b.ser.rx_code) := by
    intro k
    rw [hs]
    obtain ⟨i1, _⟩ := after_txc_sending k _ (by rw [e1]; decide)
    rw [i1, e1, e2, e3, e4]
    have e : min (k + 1) 6 = min k (6 - 1) + 1 := by omega
    rw [e, List.range'_succ, List.map_cons, List.append_assoc]
    rfl
  refine ⟨?_, ?_, hseq k, ?_, ?_⟩
  · show display.show_char (serial.get_root_char _ _) b.disp = _
    unfold serial.get_root_char
    by_cases h : display.char_to_segs b.ser.rx_code &&& 1 ≠ 0
    · rw [if_pos h, if_pos ((bit_set_iff _ 0).1 h)]
    · have h2 : ¬ display.bit_set (display.char_to_segs b.ser.rx_code) 0 = true :=
        fun c => h ((bit_set_iff _ 0).2 c)
      rw [if_neg h, if_neg h2]
  · rw [hs, e4]; rfl
  · intro h5
    rw [hseq k]
    have e : min (k + 1) 6 = 6 := by omega
    rw [e]; rfl
  · apply txc_done
    rw [hs]
    obtain ⟨_, i2⟩ := after_txc_sending 5 _ (by rw [e1]; decide)
    rw [i2, e1]; decide

/-- Witness for claim C39: the module receives '7', whose map has the bits of the
segments a, b and c; the root shows '7' and sends '7', '7' and four spaces. -/
theorem relay_mapping_witness :
    (smart_display.on_data true
      { ser := { serial.power_on with rx_code := '7'.toNat, changed := true },
        disp := display.power_on }).disp
      = display.show_char '7'.toNat display.power_on ∧
    (serial.after_txc 9 (smart_display.on_data true
      { ser := { serial.power_on with rx_code := '7'.toNat, changed := true },
        disp := display.power_on }).ser).txdata
      = ['7'.toNat, '7'.toNat, ' '.toNat, ' '.toNat, ' '.toNat, ' '.toNat] :=
  have h := relay_mapping
    { ser := { serial.power_on with rx_code := '7'.toNat, changed := true },
      disp := display.power_on } '7'.toNat 9 rfl
  ⟨h.1.trans (by decide), (h.2.2.2.1 (by decide)).trans (by decide)⟩

/-! ## Host tool: dot folding -/

end StrangerSegs
